import Mathlib

/-!
# TaskMaster task store and query engine (`src/script.js`, class `TaskManager`)

A shallow embedding of the Task Store (with `loadTasks` and `migrateTask`) and of
the Query Engine (`getFilteredTasks`) of `TaskManager`, and proofs about them.

Modelling conventions

* JavaScript strings are Lean `String`s; `trim` and `split(',')` are written out
  on character lists.  `String.prototype.toLowerCase` is a platform function and
  is carried by the environment `Env`.
* A timestamp (an ISO-8601 string such as `new Date().toISOString()` yields) is
  modelled by the ECMAScript *time value* it denotes: an integer number of
  milliseconds since the epoch.  A `Date` object is an `Option Int`, `none`
  being the Invalid Date (time value `NaN`).  The date arithmetic follows the
  ECMAScript definitions (`Day`, `YearFromTime`, `MakeDay`, `TimeClip`, ...); the
  local time zone is the offset function `Env.localTZA`, which may change with time
  (daylight saving).  Results that need a zone without such changes say so
  (`FixedOffset`).
* Identifiers and the counter `nextId` are JavaScript numbers that hold non-negative
  integers, modelled by natural numbers; `Task.id` is such a number.  The sums
  `this.nextId++` and `Math.max(...) + 1` are taken in double precision (`plusOne`):
  they are exact below `2^53` and no longer add one from there on.
* The page is taken to hold the elements that the script addresses, so that
  `document.getElementById` and `showToast` do not fail and have no effect on the
  store.  `updateUI`, which every mutator calls after saving, is modelled as far as
  it can fail: it reads the task list through `getFilteredTasks` and
  `createTaskHTML`, and these throw on a task whose `tags` holds a string.  The
  persistence collaborator is modelled by the log `TaskManager.saves` of the
  lists handed to `localStorage.setItem`.
* A method call either returns a value or ends with an exception; the state
  reached is reported in both cases (`Outcome α × TaskManager`).
* The item of `localStorage` that `loadTasks` reads is modelled by what `getItem` and
  `JSON.parse` make of it (`Payload`); a record of the persisted array (`RawTask`)
  carries each property optionally, with a value of the type the store writes.
* `Array.prototype.sort` is the stable sort by the comparator (a comparator result
  `NaN` counts as `0`); `includes` is the substring test on characters.
-/

namespace TodoList

/-! ## Strings -/

/-- White space and line terminators removed by `String.prototype.trim`. -/
def isJsWhitespace (c : Char) : Bool :=
  let n := c.toNat
  n == 0x09 || n == 0x0A || n == 0x0B || n == 0x0C || n == 0x0D || n == 0x20 ||
  n == 0xA0 || n == 0x1680 || (0x2000 ≤ n && n ≤ 0x200A) || n == 0x2028 ||
  n == 0x2029 || n == 0x202F || n == 0x205F || n == 0x3000 || n == 0xFEFF

/-- Characters of `s.trim()`. -/
def trimChars (cs : List Char) : List Char :=
  ((cs.dropWhile isJsWhitespace).reverse.dropWhile isJsWhitespace).reverse

/-- The method `s.trim()`. -/
def jsTrim (s : String) : String := String.mk (trimChars s.data)

/-- Pieces of `s.split(',')`, on character lists. -/
def splitComma : List Char → List (List Char)
  | [] => [[]]
  | c :: cs =>
    if c = ',' then [] :: splitComma cs
    else
      match splitComma cs with
      | [] => [[c]]
      | p :: ps => (c :: p) :: ps

/-- The method `s.split(',')`. -/
def jsSplitComma (s : String) : List String := (splitComma s.data).map String.mk

/-- The method `items.join(sep)` on an array of strings. -/
def jsJoin (sep : String) (items : List String) : String :=
  String.mk (List.intercalate sep.data (items.map String.data))

/-- The operator `a || d` on an optional string: `undefined` and `''` are falsy. -/
def strOr (a : Option String) (d : String) : String :=
  match a with
  | some s => if s = "" then d else s
  | none => d

/-! ## Dates (ECMAScript time values) -/

/-- Milliseconds per day. -/
def msPerDay : Int := 86400000

/-- Day number of a time value: `Day(t) = floor(t / msPerDay)`. -/
def day (t : Int) : Int := t / msPerDay

/-- Milliseconds since the start of the day: `TimeWithinDay(t) = t modulo msPerDay`. -/
def timeWithinDay (t : Int) : Int := t % msPerDay

/-- Leap-year rule: `DaysInYear(y)`. -/
def daysInYear (y : Int) : Int :=
  if y % 4 ≠ 0 then 365
  else if y % 100 ≠ 0 then 366
  else if y % 400 ≠ 0 then 365
  else 366

/-- Day number of the first day of year `y`: `DayFromYear(y)`. -/
def dayFromYear (y : Int) : Int :=
  365 * (y - 1970) + (y - 1969) / 4 - (y - 1901) / 100 + (y - 1601) / 400

/-- The largest `y` with `DayFromYear(y) ≤ d`, found among the three candidates
around `d / 365.2425`. -/
def yearFromDay (d : Int) : Int :=
  let e := 1970 + (400 * d) / 146097
  if dayFromYear (e + 1) ≤ d then e + 1
  else if dayFromYear e ≤ d then e
  else e - 1

/-- Year of a time value: `YearFromTime(t)`. -/
def yearFromTime (t : Int) : Int := yearFromDay (day t)

/-- Leap-year flag of a year, `1` or `0`: `InLeapYear`. -/
def leapOfYear (y : Int) : Int := if daysInYear y = 366 then 1 else 0

/-- Leap-year flag of a time value: `InLeapYear(t)`. -/
def inLeapYear (t : Int) : Int := leapOfYear (yearFromTime t)

/-- Day within the year: `DayWithinYear(t) = Day(t) - DayFromYear(YearFromTime(t))`. -/
def dayWithinYear (t : Int) : Int := day t - dayFromYear (yearFromTime t)

/-- Month (0 to 11) of a day within a year with leap flag `l`. -/
def monthOfYearDay (l w : Int) : Int :=
  if w < 31 then 0
  else if w < 59 + l then 1
  else if w < 90 + l then 2
  else if w < 120 + l then 3
  else if w < 151 + l then 4
  else if w < 181 + l then 5
  else if w < 212 + l then 6
  else if w < 243 + l then 7
  else if w < 273 + l then 8
  else if w < 304 + l then 9
  else if w < 334 + l then 10
  else 11

/-- Day within the year on which month `m` (0 to 11) starts, with leap flag `l`. -/
def monthStart (l m : Int) : Int :=
  if m = 0 then 0
  else if m = 1 then 31
  else if m = 2 then 59 + l
  else if m = 3 then 90 + l
  else if m = 4 then 120 + l
  else if m = 5 then 151 + l
  else if m = 6 then 181 + l
  else if m = 7 then 212 + l
  else if m = 8 then 243 + l
  else if m = 9 then 273 + l
  else if m = 10 then 304 + l
  else 334 + l

/-- Month of a time value: `MonthFromTime(t)`. -/
def monthFromTime (t : Int) : Int := monthOfYearDay (inLeapYear t) (dayWithinYear t)

/-- Day of the month (1 to 31) of a time value: `DateFromTime(t)`. -/
def dateFromTime (t : Int) : Int :=
  dayWithinYear t - monthStart (inLeapYear t) (monthFromTime t) + 1

/-- Day number of the first day of month `mn` (0 to 11) of year `ym`. -/
def dayFromYearMonth (ym mn : Int) : Int :=
  dayFromYear ym + monthStart (leapOfYear ym) mn

/-- Day number of a (possibly overflowing) calendar date: `MakeDay(year, month, date)`. -/
def makeDay (year month date : Int) : Int :=
  dayFromYearMonth (year + month / 12) (month % 12) + date - 1

/-- Time value of a day number and a time within the day: `MakeDate(day, time)`. -/
def makeDate (d time : Int) : Int := d * msPerDay + time

/-- Range check on time values: `TimeClip(time)`; `none` is `NaN`. -/
def timeClip (t : Int) : Option Int :=
  if t.natAbs > 8640000000000000 then none else some t

/-- Number of days of month `m` (0 to 11) in a year with leap flag `l`. -/
def daysInMonth (l m : Int) : Int :=
  if m = 1 then 28 + l
  else if m = 3 ∨ m = 5 ∨ m = 8 ∨ m = 10 then 30
  else 31

/-- Number of days from a date in month `m` of year `y` to the same date a year later. -/
def daysToNextYear (y m : Int) : Int :=
  if m ≤ 1 then daysInYear y else daysInYear (y + 1)

/-! ## Platform -/

/-- What one method call reads from the platform: the clock (`new Date()`), the
local time zone and `String.prototype.toLowerCase`.  The zone is given by the
abstract operation `LocalTZA(t, isUTC)` of ECMAScript: the offset of local time in
milliseconds at the time value `t` (`isUTC = true`) or at the local time `t`
(`isUTC = false`); with daylight saving the offset depends on `t`. -/
structure Env where
  now : Int
  localTZA : Int → Bool → Int
  toLowerCase : String → String

/-- Local time of a time value: `LocalTime(t) = t + LocalTZA(t, true)`. -/
def localTime (env : Env) (t : Int) : Int := t + env.localTZA t true

/-- Time value of a local time: `UTC(t) = t - LocalTZA(t, false)`. -/
def utc (env : Env) (t : Int) : Int := t - env.localTZA t false

/-- The constructor `new Date(isoString)`; a string that denotes no time value in
range gives the Invalid Date. -/
def dateOfIso (t : Int) : Option Int := timeClip t

/-- The method `getDate()` on a valid date. -/
def getDate (env : Env) (t : Int) : Int := dateFromTime (localTime env t)

/-- The method `getMonth()` on a valid date. -/
def getMonth (env : Env) (t : Int) : Int := monthFromTime (localTime env t)

/-- The method `getFullYear()` on a valid date. -/
def getFullYear (env : Env) (t : Int) : Int := yearFromTime (localTime env t)

/-- The method `setDate(dt)` on a valid date. -/
def setDate (env : Env) (t dt : Int) : Option Int :=
  let l := localTime env t
  timeClip (utc env (makeDate (makeDay (yearFromTime l) (monthFromTime l) dt) (timeWithinDay l)))

/-- The method `setMonth(m)` on a valid date. -/
def setMonth (env : Env) (t m : Int) : Option Int :=
  let l := localTime env t
  timeClip (utc env (makeDate (makeDay (yearFromTime l) m (dateFromTime l)) (timeWithinDay l)))

/-- The method `setFullYear(y)` on a valid date. -/
def setFullYear (env : Env) (t y : Int) : Option Int :=
  let l := localTime env t
  timeClip (utc env (makeDate (makeDay y (monthFromTime l) (dateFromTime l)) (timeWithinDay l)))

/-! ## Data model -/

/-- One entry of `task.subtasks`. -/
structure Subtask where
  title : String
  completed : Bool
  deriving DecidableEq

/-- Value of the `tags` property: the array built by `parseTags`, or raw text
(which `updateTask` stores as it is when the text is empty). -/
inductive TagsField where
  | list (tags : List String)
  | text (raw : String)
  deriving DecidableEq

/-- A task record (the seventeen properties written by `addTask`). -/
structure Task where
  id : Nat
  title : String
  description : String
  priority : String
  category : String
  completed : Bool
  createdAt : Int
  completedAt : Option Int
  dueDate : Option Int
  estimatedTime : Option Nat
  tags : TagsField
  subtasks : List Subtask
  location : String
  url : String
  recurring : Bool
  recurrencePattern : String
  timeSpent : Nat
  deriving DecidableEq

/-- The argument `taskData` of `addTask`; `none` is a property that is absent. -/
structure TaskData where
  title : Option String
  description : Option String
  priority : Option String
  category : Option String
  dueDate : Option Int
  estimatedTime : Option Nat
  tags : Option String
  subtasks : Option (List Subtask)
  location : Option String
  url : Option String
  recurring : Option Bool
  recurrencePattern : Option String

/-- The argument `updates` of `updateTask`: for each property of a task, `none`
when the patch does not carry it and `some v` when it carries the value `v`. -/
structure TaskPatch where
  id : Option Nat
  title : Option String
  description : Option String
  priority : Option String
  category : Option String
  completed : Option Bool
  createdAt : Option Int
  completedAt : Option (Option Int)
  dueDate : Option (Option Int)
  estimatedTime : Option (Option Nat)
  tags : Option TagsField
  subtasks : Option (List Subtask)
  location : Option String
  url : Option String
  recurring : Option Bool
  recurrencePattern : Option String
  timeSpent : Option Nat

/-- State of a `TaskManager`: the task list, the identifier counter, the selection,
the lists handed to the persistence collaborator so far (latest first), and the
filter selector and search text of the view, which start as `'all'` and `''`. -/
structure TaskManager where
  tasks : List Task
  nextId : Nat
  selectedTasks : List Nat
  saves : List (List Task)
  currentFilter : String := "all"
  searchQuery : String := ""
  deriving DecidableEq

/-- Exceptions raised inside the store. -/
inductive JsError where
  | typeError
  | rangeError
  | syntaxError
  deriving DecidableEq

/-- How a method call ends. -/
inductive Outcome (α : Type) where
  | returned (value : α)
  | threw (error : JsError)
  deriving DecidableEq

/-- The store that the constructor builds before anything is loaded. -/
def emptyStore : TaskManager :=
  { tasks := [], nextId := 1, selectedTasks := [], saves := [] }

/-! ## Query Engine -/

/-- The test `hay.includes(needle)`, on character lists. -/
def includesChars (needle : List Char) : List Char → Bool
  | [] => needle.isEmpty
  | c :: hay => needle.isPrefixOf (c :: hay) || includesChars needle hay

/-- The method `hay.includes(needle)`. -/
def jsIncludes (hay needle : String) : Bool := includesChars needle.data hay.data

/-- The callback of the search filter of `getFilteredTasks`, with `query` the
lower-cased search text.  The operands of `||` are evaluated from left to right;
`task.tags.some` is not a function when `tags` holds a string. -/
def matchesSearch (env : Env) (query : String) (task : Task) : Except JsError Bool :=
  if jsIncludes (env.toLowerCase task.title) query then .ok true
  else if jsIncludes (env.toLowerCase task.description) query then .ok true
  else
    match task.tags with
    | .text _ => .error .typeError
    | .list tags =>
      .ok (tags.any (fun tag => jsIncludes tag query) ||
        jsIncludes (env.toLowerCase task.category) query)

/-- The call `filtered.filter(task => ...)` of the search filter: the callback runs
on the tasks in order and the first exception ends the call. -/
def filterSearch (env : Env) (query : String) : List Task → Except JsError (List Task)
  | [] => .ok []
  | task :: rest =>
    match matchesSearch env query task with
    | .error e => .error e
    | .ok keep =>
      match filterSearch env query rest with
      | .error e => .error e
      | .ok kept => .ok (if keep then task :: kept else kept)

/-- The constructor `new Date(year, month, date)`: a year from 0 to 99 counts from
1900, the fields are read in local time. -/
def dateOfFields (env : Env) (year month date : Int) : Option Int :=
  let yr := if 0 ≤ year ∧ year ≤ 99 then 1900 + year else year
  timeClip (utc env (makeDate (makeDay yr month date) 0))

/-- The comparison `a < b` of two dates; it is `false` when one is the Invalid Date. -/
def dateLt (a b : Option Int) : Bool :=
  match a, b with
  | some x, some y => decide (x < y)
  | _, _ => false

/-- The comparison `a >= b` of two dates; it is `false` when one is the Invalid Date. -/
def dateGe (a b : Option Int) : Bool :=
  match a, b with
  | some x, some y => decide (y ≤ x)
  | _, _ => false

/-- The constant `today` of `getFilteredTasks`: local midnight of the current day. -/
def todayStart (env : Env) : Option Int :=
  dateOfFields env (getFullYear env env.now) (getMonth env env.now) (getDate env env.now)

/-- The date `new Date(today.getTime() + 24 * 60 * 60 * 1000)`. -/
def todayEnd (env : Env) : Option Int :=
  match todayStart env with
  | none => none
  | some t => timeClip (t + 24 * 60 * 60 * 1000)

/-- The callbacks of the `switch (this.currentFilter)` of `getFilteredTasks`; a
selector outside the six cases (such as `all`) keeps every task. -/
def keepsFilter (env : Env) (currentFilter : String) (task : Task) : Bool :=
  if currentFilter = "pending" then !task.completed
  else if currentFilter = "completed" then task.completed
  else if currentFilter = "high" then decide (task.priority = "high")
  else if currentFilter = "urgent" then decide (task.priority = "urgent")
  else if currentFilter = "overdue" then
    match task.dueDate with
    | none => false
    | some due => if task.completed then false else dateLt (dateOfIso due) (some env.now)
  else if currentFilter = "today" then
    match task.dueDate with
    | none => false
    | some due =>
      if task.completed then false
      else dateGe (dateOfIso due) (todayStart env) && dateLt (dateOfIso due) (todayEnd env)
  else true

/-- The table `priorityOrder` of the sort comparator; `none` is `undefined`.  (Names
inherited from `Object.prototype` are not modelled as priorities.) -/
def priorityOrder (priority : String) : Option Int :=
  if priority = "urgent" then some 4
  else if priority = "high" then some 3
  else if priority = "medium" then some 2
  else if priority = "low" then some 1
  else none

/-- A boolean as a number, as in `a.completed - b.completed`. -/
def boolNum (b : Bool) : Int := if b then 1 else 0

/-- The difference `new Date(x) - new Date(y)`; `none` is `NaN`. -/
def dateDiff (x y : Int) : Option Int :=
  match dateOfIso x, dateOfIso y with
  | some a, some b => some (a - b)
  | _, _ => none

/-- The comparator passed to `filtered.sort`; `none` is `NaN`. -/
def compareTasks (a b : Task) : Option Int :=
  if a.completed ≠ b.completed then some (boolNum a.completed - boolNum b.completed)
  else if priorityOrder a.priority ≠ priorityOrder b.priority then
    match priorityOrder b.priority, priorityOrder a.priority with
    | some pb, some pa => some (pb - pa)
    | _, _ => none
  else
    match a.dueDate, b.dueDate with
    | some da, some db => dateDiff da db
    | some _, none => some (-1)
    | none, some _ => some 1
    | none, none => dateDiff b.createdAt a.createdAt

/-- The number that `Array.prototype.sort` takes from the comparator: `NaN` counts
as `0`. -/
def sortCompare (a b : Task) : Int := (compareTasks a b).getD 0

/-- Insert `a` in front of the first element that does not have to precede it. -/
def insertSorted (cmp : Task → Task → Int) (a : Task) : List Task → List Task
  | [] => [a]
  | b :: l => if cmp a b ≤ 0 then a :: b :: l else b :: insertSorted cmp a l

/-- The method `Array.prototype.sort(comparefn)`: the stable sort of the list, which
is what every engine returns for a consistent comparator; written as an insertion
sort. -/
def jsSort (cmp : Task → Task → Int) : List Task → List Task
  | [] => []
  | b :: l => insertSorted cmp b (jsSort cmp l)

/-- The method `getFilteredTasks()`, with the values of the fields `currentFilter`
and `searchQuery` of the manager as arguments (`renderTasks` passes the fields).
The method works on a copy of `this.tasks` and assigns no field of the manager. -/
def getFilteredTasks (env : Env) (currentFilter searchQuery : String) (s : TaskManager) :
    Outcome (List Task) × TaskManager :=
  let searched : Except JsError (List Task) :=
    if searchQuery = "" then .ok s.tasks
    else filterSearch env (env.toLowerCase searchQuery) s.tasks
  match searched with
  | .error e => (.threw e, s)
  | .ok filtered =>
    (.returned (jsSort sortCompare (filtered.filter (keepsFilter env currentFilter))), s)

/-! ## Page -/

/-- The method `createTaskHTML(task)`, as far as it can fail (the markup is not
modelled): `task.tags.length > 0 ? task.tags.map(...) : ''` calls `map`, which is
not a function, when `tags` holds a non-empty string. -/
def createTaskHTML (task : Task) : Except JsError Unit :=
  match task.tags with
  | .list _ => .ok ()
  | .text raw => if raw.length > 0 then .error .typeError else .ok ()

/-- The call `filteredTasks.map(task => this.createTaskHTML(task))`: the first
exception ends the call. -/
def renderAll : List Task → Except JsError Unit
  | [] => .ok ()
  | task :: rest =>
    match createTaskHTML task with
    | .error e => .error e
    | .ok _ => renderAll rest

/-- The method `renderTasks()`, as far as it can fail. -/
def renderTasks (env : Env) (s : TaskManager) : Except JsError Unit :=
  match (getFilteredTasks env s.currentFilter s.searchQuery s).1 with
  | .threw e => .error e
  | .returned filteredTasks =>
    if filteredTasks.length = 0 then .ok () else renderAll filteredTasks

/-- The method `updateBulkActions()`, as far as it can fail. -/
def updateBulkActions (env : Env) (s : TaskManager) : Except JsError Unit :=
  match (getFilteredTasks env s.currentFilter s.searchQuery s).1 with
  | .threw e => .error e
  | .returned _ => .ok ()

/-- The method `updateUI()`, as far as it can fail: `renderTasks()`, then
`updateStats()` and `updateFilterButtons()`, which only count tasks and write to the
page, then `updateBulkActions()`.  It assigns no field of the manager. -/
def updateUI (env : Env) (s : TaskManager) : Except JsError Unit :=
  match renderTasks env s with
  | .error e => .error e
  | .ok _ => updateBulkActions env s

/-- The statements that end a method once the store is changed and saved:
`this.updateUI()`, the toast where there is one, and `return value`.  An exception
of `updateUI` ends the call in the state reached. -/
def endCall {α : Type} (env : Env) (value : α) (s : TaskManager) : Outcome α × TaskManager :=
  match updateUI env s with
  | .error e => (.threw e, s)
  | .ok _ => (.returned value, s)

/-! ## Task Store operations -/

/-- The method `saveTasks()`: hands the current list to the persistence
collaborator; a failure of `localStorage.setItem` is caught inside the method. -/
def saveTasks (s : TaskManager) : TaskManager :=
  { s with saves := s.tasks :: s.saves }

/-- The method `parseTags(tagsString)`. -/
def parseTags (env : Env) (tagsString : String) : List String :=
  if tagsString = "" then []
  else
    (((jsSplitComma tagsString).map jsTrim).filter (fun tag => tag.length > 0)).map
      env.toLowerCase

/-- The sum `n + 1` of JavaScript numbers (IEEE 754 double precision, round to
nearest, ties to the even significand) for a number `n` that holds a non-negative
integer.  Below `2^53 = 9007199254740992` the sum is exact.  From `2^53` up to
`2^54 = 18014398509481984` the numbers are the even integers, `n + 1` lies half way
between `n` and `n + 2`, and the one with the even significand (`n / 2` even) is
taken.  From `2^54` on, `n` is the number nearest to `n + 1`. -/
def plusOne (n : Nat) : Nat :=
  if n < 9007199254740992 then n + 1
  else if n < 18014398509481984 then (if (n / 2) % 2 = 0 then n else n + 2)
  else n

/-- The expression `n || null` on an optional number: `undefined` and `0` are falsy. -/
def numOrNull (n : Option Nat) : Option Nat :=
  match n with
  | some 0 => none
  | other => other

/-- The method `addTask(taskData, isDetailed)`.  The flag `isDetailed` only decides
whether the quick-add input box of the page is cleared.  The identifier is the value
of `this.nextId++`, the counter before the increment. -/
def addTask (env : Env) (taskData : TaskData) (s : TaskManager) :
    Outcome Bool × TaskManager :=
  match taskData.title with
  | none => (.returned false, s)
  | some title =>
    if title = "" ∨ jsTrim title = "" then (.returned false, s)
    else
      let task : Task :=
        { id := s.nextId
          title := jsTrim title
          description := strOr taskData.description ""
          priority := strOr taskData.priority "medium"
          category := strOr taskData.category "personal"
          completed := false
          createdAt := env.now
          completedAt := none
          dueDate := taskData.dueDate
          estimatedTime := numOrNull taskData.estimatedTime
          tags := .list (parseTags env (strOr taskData.tags ""))
          subtasks := taskData.subtasks.getD []
          location := strOr taskData.location ""
          url := strOr taskData.url ""
          recurring := taskData.recurring.getD false
          recurrencePattern := strOr taskData.recurrencePattern "daily"
          timeSpent := 0 }
      endCall env true
        (saveTasks { s with nextId := plusOne s.nextId, tasks := task :: s.tasks })

/-- Replace by `f t` the first task `t` of the list that satisfies `p` (the element
that `find` and `findIndex` select). -/
def modifyFirst (p : Task → Bool) (f : Task → Task) : List Task → List Task
  | [] => []
  | t :: ts => if p t then f t :: ts else t :: modifyFirst p f ts

/-- The object spread `{ ...task, ...updates }`. -/
def applyPatch (u : TaskPatch) (t : Task) : Task :=
  { id := u.id.getD t.id
    title := u.title.getD t.title
    description := u.description.getD t.description
    priority := u.priority.getD t.priority
    category := u.category.getD t.category
    completed := u.completed.getD t.completed
    createdAt := u.createdAt.getD t.createdAt
    completedAt := u.completedAt.getD t.completedAt
    dueDate := u.dueDate.getD t.dueDate
    estimatedTime := u.estimatedTime.getD t.estimatedTime
    tags := u.tags.getD t.tags
    subtasks := u.subtasks.getD t.subtasks
    location := u.location.getD t.location
    url := u.url.getD t.url
    recurring := u.recurring.getD t.recurring
    recurrencePattern := u.recurrencePattern.getD t.recurrencePattern
    timeSpent := u.timeSpent.getD t.timeSpent }

/-- The step `if (updates.tags && typeof updates.tags === 'string')` of `updateTask`:
non-empty raw text is parsed, everything else is left as it is. -/
def parsePatchTags (env : Env) (updates : TaskPatch) : TaskPatch :=
  match updates.tags with
  | some (.text raw) =>
    if raw = "" then updates else { updates with tags := some (.list (parseTags env raw)) }
  | _ => updates

/-- The method `updateTask(id, updates)`. -/
def updateTask (env : Env) (id : Nat) (updates : TaskPatch) (s : TaskManager) :
    Outcome Bool × TaskManager :=
  match s.tasks.find? (fun t => t.id == id) with
  | none => (.returned false, s)
  | some _ =>
    endCall env true
      (saveTasks
        { s with tasks := modifyFirst (fun t => t.id == id)
                            (applyPatch (parsePatchTags env updates)) s.tasks })

/-- The calls on `nextDue` in the `switch` of `createRecurringTask`; a pattern
outside the four cases leaves the date as it is. -/
def advanceDate (env : Env) (pattern : String) (nextDue : Option Int) : Option Int :=
  match nextDue with
  | none => none
  | some t =>
    if pattern = "daily" then setDate env t (getDate env t + 1)
    else if pattern = "weekly" then setDate env t (getDate env t + 7)
    else if pattern = "monthly" then setMonth env t (getMonth env t + 1)
    else if pattern = "yearly" then setFullYear env t (getFullYear env t + 1)
    else some t

/-- The block `if (newTask.dueDate) ...` of `createRecurringTask`: the new due
date, or the `RangeError` of `toISOString()` on an Invalid Date. -/
def nextDueDate (env : Env) (pattern : String) (dueDate : Option Int) :
    Except JsError (Option Int) :=
  match dueDate with
  | none => .ok none
  | some iso =>
    match advanceDate env pattern (dateOfIso iso) with
    | none => .error .rangeError
    | some t => .ok (some t)

/-- The property `this.formatDate`, read by `createRecurringTask`: the class
declares no member of that name, so the lookup gives `undefined` (`none`). -/
def formatDate : Option (Option Int → String) := none

/-- The method `createRecurringTask(originalTask)`.  Its last statement calls
`this.formatDate(...)` while building the toast message. -/
def createRecurringTask (env : Env) (originalTask : Task) (s : TaskManager) :
    Outcome Unit × TaskManager :=
  let s1 := { s with nextId := plusOne s.nextId }
  match nextDueDate env originalTask.recurrencePattern originalTask.dueDate with
  | .error e => (.threw e, s1)
  | .ok due =>
    let newTask : Task :=
      { originalTask with
        id := s.nextId
        completed := false
        completedAt := none
        createdAt := env.now
        dueDate := due
        subtasks := originalTask.subtasks.map (fun st => { st with completed := false })
        timeSpent := 0 }
    let s2 := { s1 with tasks := newTask :: s1.tasks }
    match formatDate with
    | none => (.threw .typeError, s2)
    | some _ => (.returned (), s2)

/-- The assignments `task.completed = !task.completed; task.completedAt = ...`. -/
def flipCompleted (env : Env) (task : Task) : Task :=
  { task with
    completed := !task.completed
    completedAt := if !task.completed then some env.now else none }

/-- The method `toggleTask(id)`. -/
def toggleTask (env : Env) (id : Nat) (s : TaskManager) : Outcome Bool × TaskManager :=
  match s.tasks.find? (fun t => t.id == id) with
  | none => (.returned false, s)
  | some found =>
    let task := flipCompleted env found
    let s1 := { s with tasks := modifyFirst (fun t => t.id == id) (flipCompleted env) s.tasks }
    if task.completed && task.recurring then
      match createRecurringTask env task s1 with
      | (.threw e, s2) => (.threw e, s2)
      | (.returned _, s2) => endCall env true (saveTasks s2)
    else endCall env true (saveTasks s1)

/-- The assignment `task.subtasks[subtaskIndex].completed = !(...)` of `toggleSubtask`. -/
def flipSubtask (subtaskIndex : Nat) (task : Task) : Task :=
  { task with
    subtasks :=
      task.subtasks.modify (fun st => { st with completed := !st.completed }) subtaskIndex }

/-- The method `toggleSubtask(taskId, subtaskIndex)`. -/
def toggleSubtask (env : Env) (taskId subtaskIndex : Nat) (s : TaskManager) :
    Outcome Bool × TaskManager :=
  match s.tasks.find? (fun t => t.id == taskId) with
  | none => (.returned false, s)
  | some task =>
    match task.subtasks.get? subtaskIndex with
    | none => (.returned false, s)
    | some _ =>
      endCall env true
        (saveTasks
          { s with tasks := modifyFirst (fun t => t.id == taskId) (flipSubtask subtaskIndex)
                              s.tasks })

/-- The method `deleteTask(id)`. -/
def deleteTask (env : Env) (id : Nat) (s : TaskManager) : Outcome Bool × TaskManager :=
  match s.tasks.find? (fun t => t.id == id) with
  | none => (.returned false, s)
  | some _ =>
    endCall env true
      (saveTasks
        { s with tasks := s.tasks.eraseP (fun t => t.id == id)
                 selectedTasks := s.selectedTasks.filter (fun i => i != id) })

/-- The method `toggleTaskSelection(id)`. -/
def toggleTaskSelection (env : Env) (id : Nat) (s : TaskManager) :
    Outcome Unit × TaskManager :=
  if id ∈ s.selectedTasks then
    endCall env () { s with selectedTasks := s.selectedTasks.filter (fun i => i != id) }
  else endCall env () { s with selectedTasks := s.selectedTasks ++ [id] }

/-- The method `setFilter(filter)`. -/
def setFilter (env : Env) (filter : String) (s : TaskManager) : Outcome Unit × TaskManager :=
  endCall env () { s with currentFilter := filter, selectedTasks := [] }

/-- The method `setSearchQuery(query)`. -/
def setSearchQuery (env : Env) (query : String) (s : TaskManager) :
    Outcome Unit × TaskManager :=
  endCall env () { s with searchQuery := query, selectedTasks := [] }

/-- The method `deleteSelectedTasks()`. -/
def deleteSelectedTasks (env : Env) (s : TaskManager) : Outcome Unit × TaskManager :=
  if s.selectedTasks.length = 0 then (.returned (), s)
  else
    endCall env ()
      (saveTasks
        { s with tasks := s.tasks.filter (fun task => !(s.selectedTasks.contains task.id))
                 selectedTasks := [] })

/-- The method `clearCompletedTasks()`. -/
def clearCompletedTasks (env : Env) (s : TaskManager) : Outcome Unit × TaskManager :=
  if (s.tasks.filter (fun t => t.completed)).length = 0 then (.returned (), s)
  else
    endCall env ()
      (saveTasks
        { s with tasks := s.tasks.filter (fun task => !task.completed)
                 selectedTasks := [] })

/-- The `reader.onload` handler of `importTasks(file)` for a file that holds an
array of task records: the state it leaves.  The handler calls `updateUI()` inside
its `try` block, so an exception there is caught and changes nothing. -/
def importTasks (importedTasks : List Task) (s : TaskManager) : TaskManager :=
  saveTasks { s with tasks := s.tasks ++ importedTasks }

/-! ## Loading the persisted tasks -/

/-- A record of the persisted array.  `none` is a property that the record does not
carry; a property that is present holds a value of the type that the store writes
(`some none` is the value `null`).  `text` is the title of the older format.  The
identifier is a number. -/
structure RawTask where
  id : Nat
  text : Option String
  title : Option String
  description : Option String
  priority : Option String
  category : Option String
  completed : Option Bool
  createdAt : Option Int
  completedAt : Option (Option Int)
  dueDate : Option (Option Int)
  estimatedTime : Option (Option Nat)
  tags : Option TagsField
  subtasks : Option (List Subtask)
  location : Option String
  url : Option String
  recurring : Option Bool
  recurrencePattern : Option String
  timeSpent : Option Nat
  deriving DecidableEq

/-- The value that `JSON.parse(savedTasks)` returns: an array whose elements are
records or `null` (`none`), or a value that is not an array.  The properties of a
plain object play no part: a parsed value holds no function, so `object.map` is
never callable. -/
inductive Parsed where
  | array (items : List (Option RawTask))
  | object
  | number (n : Int)
  | text (s : String)
  | boolean (b : Bool)
  | null
  deriving DecidableEq

/-- The item `taskmaster_tasks` of `localStorage`: `absent` when `getItem` returns
`null` or the empty text (both falsy), `unparseable` when `JSON.parse` throws a
`SyntaxError` on the text, and `parsed value` when `JSON.parse` returns `value`. -/
inductive Payload where
  | absent
  | unparseable
  | parsed (value : Parsed)
  deriving DecidableEq

/-- The manager when `loadTasks` is over: `this.tasks` holds a list of task records
(`store`), or it holds the value of `JSON.parse` as line 38 assigned it, next to the
counter (`unmigrated`). -/
inductive Loaded where
  | store (s : TaskManager)
  | unmigrated (tasks : Parsed) (nextId : Nat)
  deriving DecidableEq

/-- The expression `v || null` on a property that holds a timestamp, a number or
`null`: `undefined` and `null` are falsy. -/
def orNull {α : Type} (v : Option (Option α)) : Option α :=
  match v with
  | some (some a) => some a
  | _ => none

/-- The expression `task.tags || []`: `undefined` and the empty text are falsy, an
array (the empty one too) is truthy. -/
def tagsOrEmpty (v : Option TagsField) : TagsField :=
  match v with
  | some (.list tags) => .list tags
  | some (.text raw) => if raw = "" then .list [] else .text raw
  | none => .list []

/-- The method `migrateTask(task)`; on `null` the first property access throws.  A
timestamp stands for a non-empty ISO text, which is truthy. -/
def migrateTask (env : Env) (task : Option RawTask) : Outcome Task :=
  match task with
  | none => .threw .typeError
  | some r =>
    .returned
      { id := r.id
        title := strOr r.text (strOr r.title "Untitled Task")
        description := strOr r.description ""
        priority := strOr r.priority "medium"
        category := strOr r.category "personal"
        completed := r.completed.getD false
        createdAt := r.createdAt.getD env.now
        completedAt := orNull r.completedAt
        dueDate := orNull r.dueDate
        estimatedTime := numOrNull (orNull r.estimatedTime)
        tags := tagsOrEmpty r.tags
        subtasks := r.subtasks.getD []
        location := strOr r.location ""
        url := strOr r.url ""
        recurring := r.recurring.getD false
        recurrencePattern := strOr r.recurrencePattern "daily"
        timeSpent := r.timeSpent.getD 0 }

/-- The call `items.map(task => this.migrateTask(task))`: the first exception ends
the map. -/
def migrateAll (env : Env) : List (Option RawTask) → Outcome (List Task)
  | [] => .returned []
  | task :: rest =>
    match migrateTask env task with
    | .threw e => .threw e
    | .returned t =>
      match migrateAll env rest with
      | .threw e => .threw e
      | .returned ts => .returned (t :: ts)

/-- The value `Math.max(...ids, 0)` for identifiers that are non-negative integers. -/
def maxId (ids : List Nat) : Nat := ids.foldr max 0

/-- The `try` block of `loadTasks()`.  The parsed value is assigned to `this.tasks`
before `map` is called on it; an exception in `map` leaves that value in place. -/
def loadTasksBody (env : Env) (payload : Payload) (s : TaskManager) :
    Outcome Unit × Loaded :=
  match payload with
  | .absent => (.returned (), .store s)
  | .unparseable => (.threw .syntaxError, .store s)
  | .parsed value =>
    match value with
    | .array items =>
      match migrateAll env items with
      | .threw e => (.threw e, .unmigrated value s.nextId)
      | .returned tasks =>
        (.returned (),
          .store
            { s with tasks := tasks, nextId := plusOne (maxId (tasks.map (fun t => t.id))) })
    | other => (.threw .typeError, .unmigrated other s.nextId)

/-- The method `loadTasks()`: the `catch` block reports the exception to the console
and in a toast, and the method returns. -/
def loadTasks (env : Env) (payload : Payload) (s : TaskManager) : Outcome Unit × Loaded :=
  match loadTasksBody env payload s with
  | (.threw _, l) => (.returned (), l)
  | (.returned v, l) => (.returned v, l)

/-! ## Sequences of operations -/

/-- One call on the store, with what it reads from the platform. -/
inductive Op where
  | create (env : Env) (taskData : TaskData)
  | update (env : Env) (id : Nat) (updates : TaskPatch)
  | toggleCompletion (env : Env) (id : Nat)
  | toggleSubtask (env : Env) (taskId subtaskIndex : Nat)
  | delete (env : Env) (id : Nat)
  | select (env : Env) (id : Nat)
  | bulkDelete (env : Env)
  | clearCompleted (env : Env)
  | search (env : Env) (query : String)
  | filter (env : Env) (selector : String)

/-- State of the store after one call, however the call ended. -/
def step (s : TaskManager) : Op → TaskManager
  | .create env taskData => (addTask env taskData s).2
  | .update env id updates => (updateTask env id updates s).2
  | .toggleCompletion env id => (toggleTask env id s).2
  | .toggleSubtask env taskId subtaskIndex => (toggleSubtask env taskId subtaskIndex s).2
  | .delete env id => (deleteTask env id s).2
  | .select env id => (toggleTaskSelection env id s).2
  | .bulkDelete env => (deleteSelectedTasks env s).2
  | .clearCompleted env => (clearCompletedTasks env s).2
  | .search env query => (setSearchQuery env query s).2
  | .filter env selector => (setFilter env selector s).2

/-- State of the store after a sequence of calls. -/
def run (s : TaskManager) (ops : List Op) : TaskManager := ops.foldl step s

/-- Identifiers that one call takes from the counter: `this.nextId++` is evaluated
by `addTask` once the title is accepted, and by `createRecurringTask`, which
`toggleTask` calls when it completes a recurring task. -/
def issuedBy (s : TaskManager) : Op → List Nat
  | .create env taskData =>
    if (addTask env taskData s).1 = .returned false then [] else [s.nextId]
  | .toggleCompletion _ id =>
    match s.tasks.find? (fun t => t.id == id) with
    | some found => if !found.completed && found.recurring then [s.nextId] else []
    | none => []
  | _ => []

/-- Identifiers taken from the counter along a sequence of calls, in order. -/
def issued (s : TaskManager) : List Op → List Nat
  | [] => []
  | op :: ops => issuedBy s op ++ issued (step s op) ops

/-- A title that `addTask` rejects: absent, or made of white space only (the empty
title included). -/
def blankTitle (title : Option String) : Prop :=
  match title with
  | none => True
  | some t => ∀ c ∈ t.data, isJsWhitespace c = true

instance blankTitle.decidable : (title : Option String) → Decidable (blankTitle title)
  | none => isTrue trivial
  | some t => inferInstanceAs (Decidable (∀ c ∈ t.data, isJsWhitespace c = true))

/-- The identifiers of the store are pairwise distinct and below the counter. -/
def IdsFresh (s : TaskManager) : Prop :=
  (s.tasks.map (fun t => t.id)).Nodup ∧ ∀ t ∈ s.tasks, t.id < s.nextId

/-- A task has `completedAt` exactly when it is completed. -/
def CompletedAtMatches (t : Task) : Prop :=
  t.completedAt.isSome = true ↔ t.completed = true

/-- Every task has `completedAt` exactly when it is completed. -/
def CompletedAtConsistent (s : TaskManager) : Prop :=
  ∀ t ∈ s.tasks, CompletedAtMatches t

/-- The patch of an `update` call does not carry the property `id`. -/
def Op.keepsId : Op → Prop
  | .update _ _ updates => updates.id = none
  | _ => True

instance Op.keepsId.decidable : (op : Op) → Decidable op.keepsId
  | .update _ _ updates => inferInstanceAs (Decidable (updates.id = none))
  | .create _ _ => isTrue trivial
  | .toggleCompletion _ _ => isTrue trivial
  | .toggleSubtask _ _ _ => isTrue trivial
  | .delete _ _ => isTrue trivial
  | .select _ _ => isTrue trivial
  | .bulkDelete _ => isTrue trivial
  | .clearCompleted _ => isTrue trivial
  | .search _ _ => isTrue trivial
  | .filter _ _ => isTrue trivial

/-- A patch carries neither `completed` nor `completedAt`, or carries both with
`completedAt` present exactly when `completed` is `true`. -/
def TaskPatch.keepsCompletion (updates : TaskPatch) : Prop :=
  match updates.completed, updates.completedAt with
  | none, none => True
  | some c, some ca => ca.isSome = c
  | _, _ => False

instance TaskPatch.keepsCompletion.decidable (updates : TaskPatch) :
    Decidable updates.keepsCompletion := by
  unfold TaskPatch.keepsCompletion
  split <;> infer_instance

/-- The patch of an `update` call keeps `completed` and `completedAt` in step. -/
def Op.keepsCompletion : Op → Prop
  | .update _ _ updates => updates.keepsCompletion
  | _ => True

instance Op.keepsCompletion.decidable : (op : Op) → Decidable op.keepsCompletion
  | .update _ _ updates => inferInstanceAs (Decidable updates.keepsCompletion)
  | .create _ _ => isTrue trivial
  | .toggleCompletion _ _ => isTrue trivial
  | .toggleSubtask _ _ _ => isTrue trivial
  | .delete _ _ => isTrue trivial
  | .select _ _ => isTrue trivial
  | .bulkDelete _ => isTrue trivial
  | .clearCompleted _ => isTrue trivial
  | .search _ _ => isTrue trivial
  | .filter _ _ => isTrue trivial

/-- The patch that carries no property. -/
def noPatch : TaskPatch :=
  { id := none, title := none, description := none, priority := none, category := none,
    completed := none, createdAt := none, completedAt := none, dueDate := none,
    estimatedTime := none, tags := none, subtasks := none, location := none, url := none,
    recurring := none, recurrencePattern := none, timeSpent := none }

/-! ## Predicates of the later results -/

/-- What the tag rules need from `toLowerCase`. -/
structure LowerCaseLaws (lower : String → String) : Prop where
  nonempty : ∀ s, s ≠ "" → lower s ≠ ""
  trimmed : ∀ s, jsTrim s = s → jsTrim (lower s) = lower s
  noComma : ∀ s, ',' ∉ s.data → ',' ∉ (lower s).data
  idempotent : ∀ s, lower (lower s) = lower s

/-- A time value inside the range of ECMAScript dates. -/
def ValidTime (t : Int) : Prop := -8640000000000000 ≤ t ∧ t ≤ 8640000000000000

instance ValidTime.decidable (t : Int) : Decidable (ValidTime t) := by
  unfold ValidTime
  infer_instance

/-- The due date of a task, when present, is a valid time value. -/
def DueValid (t : Task) : Prop :=
  match t.dueDate with
  | none => True
  | some d => ValidTime d

instance DueValid.decidable (t : Task) : Decidable (DueValid t) := by
  unfold DueValid
  split <;> infer_instance

/-- A task with one of the four priorities and valid dates. -/
def Sortable (t : Task) : Prop :=
  t.priority ∈ ["low", "medium", "high", "urgent"] ∧ ValidTime t.createdAt ∧ DueValid t

instance Sortable.decidable (t : Task) : Decidable (Sortable t) := by
  unfold Sortable
  infer_instance

/-- The rank of a priority: urgent 4, high 3, medium 2, low 1. -/
def priorityRank (priority : String) : Int :=
  if priority = "urgent" then 4
  else if priority = "high" then 3
  else if priority = "medium" then 2
  else if priority = "low" then 1
  else 0

/-- Whether the search callback keeps a task (when it returns). -/
def searchKeeps (env : Env) (query : String) (task : Task) : Bool :=
  match matchesSearch env query task with
  | .ok keep => keep
  | .error _ => false

/-- The search text, compared without regard to case, is a substring of `text`. -/
def containsIgnoringCase (env : Env) (text searchText : String) : Bool :=
  jsIncludes (env.toLowerCase text) (env.toLowerCase searchText)

/-- The tags of a task are held as a list (an array), not as a string. -/
def HasTagList (t : Task) : Prop :=
  match t.tags with
  | .list _ => True
  | .text _ => False

instance HasTagList.decidable (t : Task) : Decidable (HasTagList t) := by
  unfold HasTagList
  split <;> infer_instance

/-- The tags of a task are a list of lower-case strings. -/
def TagsLowerCase (env : Env) (task : Task) : Prop :=
  match task.tags with
  | .list tags => ∀ tag ∈ tags, env.toLowerCase tag = tag
  | .text _ => False

instance TagsLowerCase.decidable (env : Env) (task : Task) :
    Decidable (TagsLowerCase env task) := by
  unfold TagsLowerCase
  split <;> infer_instance

/-- The zone has one offset at all times: no daylight saving and no other change of
the zone rules. -/
def FixedOffset (env : Env) : Prop := ∃ z : Int, ∀ t isUTC, env.localTZA t isUTC = z

/-- The local time `l` advanced by one unit of a recurrence pattern: one day, seven
days, the length of the month of `l`, or the number of days to the same date of the
next year. -/
def advancedLocal (pattern : String) (l : Int) : Int :=
  if pattern = "daily" then l + msPerDay
  else if pattern = "weekly" then l + 7 * msPerDay
  else if pattern = "monthly" then l + daysInMonth (inLeapYear l) (monthFromTime l) * msPerDay
  else if pattern = "yearly" then
    l + daysToNextYear (yearFromTime l) (monthFromTime l) * msPerDay
  else l

/-- The clock minus the time that has passed of the current local day: with a fixed
offset, the local midnight of the current day. -/
def localMidnight (env : Env) : Int := env.now - timeWithinDay (localTime env env.now)

/-- The predicate of a filter selector, in the words of the specification; `today`
means that the due date falls on the current calendar day in local time. -/
def selectorHolds (env : Env) (selector : String) (task : Task) : Bool :=
  if selector = "all" then true
  else if selector = "pending" then task.completed = false
  else if selector = "completed" then task.completed = true
  else if selector = "high" then task.priority = "high"
  else if selector = "urgent" then task.priority = "urgent"
  else if selector = "overdue" then
    match task.dueDate with
    | none => false
    | some due => task.completed = false ∧ due < env.now
  else if selector = "today" then
    match task.dueDate with
    | none => false
    | some due =>
      task.completed = false ∧ day (localTime env due) = day (localTime env env.now)
  else true

/-- The local year of the clock is not one of the years 0 to 99 (which
`new Date(year, month, date)` reads as 1900 to 1999), and the clock is at least a
day away from both ends of the range of time values. -/
def ClockInRange (env : Env) : Prop :=
  (getFullYear env env.now < 0 ∨ 99 < getFullYear env env.now) ∧
    -8640000000000000 + msPerDay ≤ env.now ∧ env.now + msPerDay ≤ 8640000000000000

instance ClockInRange.decidable (env : Env) : Decidable (ClockInRange env) := by
  unfold ClockInRange
  infer_instance

/-- A parsed value that `migrateTask` cannot walk through: a value that is not an
array, or an array that holds `null`. -/
def NotRecords (value : Parsed) : Prop :=
  match value with
  | .array items => none ∈ items
  | _ => True

instance NotRecords.decidable : (value : Parsed) → Decidable (NotRecords value)
  | .array items => inferInstanceAs (Decidable (none ∈ items))
  | .object => isTrue trivial
  | .number _ => isTrue trivial
  | .text _ => isTrue trivial
  | .boolean _ => isTrue trivial
  | .null => isTrue trivial

/-! ## Sample inputs -/

/-- A platform with the clock at 2023-11-14T22:13:20Z, local time one hour ahead
of UTC, and lower-casing of the ASCII letters. -/
def sampleEnv : Env :=
  { now := 1700000000000, localTZA := fun _ _ => 3600000,
    toLowerCase := fun s => String.mk (s.data.map Char.toLower) }

/-- A platform in the Central European zone on 2023-10-29, the day on which the
clocks go back: the offset is two hours up to 01:00 UTC (1698541200000) and one hour
from then on; a local time of the repeated hour is read with the earlier offset.
The clock is at 10:00 UTC; the local day runs from 1698530400000 (22:00 UTC of the
day before) up to 1698620400000 (23:00 UTC), 25 hours. -/
def autumnEnv : Env :=
  { now := 1698573600000
    localTZA := fun t isUTC =>
      if isUTC then (if t < 1698541200000 then 7200000 else 3600000)
      else (if t < 1698541200000 + 7200000 then 7200000 else 3600000)
    toLowerCase := fun s => String.mk (s.data.map Char.toLower) }

/-- A platform on UTC with the clock at noon of 15 June of the year 50. -/
def ancientEnv : Env :=
  { now := -60574996800000, localTZA := fun _ _ => 0,
    toLowerCase := fun s => String.mk (s.data.map Char.toLower) }

/-- A `taskData` that carries the given title and nothing else. -/
def titleOnly (title : String) : TaskData :=
  { title := some title, description := none, priority := none, category := none,
    dueDate := none, estimatedTime := none, tags := none, subtasks := none,
    location := none, url := none, recurring := none, recurrencePattern := none }

/-- A pending task that recurs monthly, due 2024-01-31T00:00:00Z. -/
def sampleTask : Task :=
  { id := 1, title := "Water the plants", description := "", priority := "medium",
    category := "home", completed := false, createdAt := 1699000000000,
    completedAt := none, dueDate := some 1706659200000, estimatedTime := none,
    tags := .list ["garden"], subtasks := [{ title := "fill the can", completed := true }],
    location := "", url := "", recurring := true, recurrencePattern := "monthly",
    timeSpent := 0 }

/-- A pending task that does not recur. -/
def plainTask : Task :=
  { sampleTask with id := 2, title := "Call the bank", recurring := false, dueDate := none }

/-- A store holding `plainTask` and `sampleTask`, as two calls of `addTask` leave it. -/
def sampleStore : TaskManager :=
  { tasks := [plainTask, sampleTask], nextId := 3, selectedTasks := [], saves := [] }

/-- The store after importing a file that holds `sampleTask` into the empty store:
the counter is still `1` while the list holds identifier `1`. -/
def importedStore : TaskManager := importTasks [sampleTask] emptyStore

/-- A store whose only task recurs daily and is due at the last time value. -/
def lateStore : TaskManager :=
  { tasks := [{ sampleTask with dueDate := some 8640000000000000,
                                recurrencePattern := "daily" }],
    nextId := 2, selectedTasks := [], saves := [] }

/-- A sequence of calls that uses every operation of the store. -/
def sampleOps : List Op :=
  [.create sampleEnv (titleOnly "Water the plants"),
   .create sampleEnv (titleOnly "Call the bank"),
   .update sampleEnv 1
     { noPatch with recurring := some true, tags := some (.text "Garden, Home"),
                    subtasks := some [{ title := "fill the can", completed := false }] },
   .toggleSubtask sampleEnv 1 0,
   .toggleCompletion sampleEnv 1,
   .toggleCompletion sampleEnv 2,
   .toggleCompletion sampleEnv 2,
   .create sampleEnv (titleOnly "Buy milk"),
   .create sampleEnv (titleOnly "Book a table"),
   .toggleCompletion sampleEnv 5,
   .search sampleEnv "milk",
   .filter sampleEnv "pending",
   .select sampleEnv 2,
   .select sampleEnv 7,
   .bulkDelete sampleEnv,
   .delete sampleEnv 4,
   .clearCompleted sampleEnv]

/-- Two creations followed by an update whose patch carries `id`. -/
def idPatchOps : List Op :=
  [.create sampleEnv (titleOnly "Water the plants"),
   .create sampleEnv (titleOnly "Call the bank"),
   .update sampleEnv 1 { noPatch with id := some 2 }]

/-- A creation followed by an update whose patch carries `completed` alone. -/
def completedPatchOps : List Op :=
  [.create sampleEnv (titleOnly "Water the plants"),
   .update sampleEnv 1 { noPatch with completed := some true }]

/-- The task `Buy milk` with the tag `grocery`. -/
def buyMilk : Task :=
  { id := 1, title := "Buy milk", description := "", priority := "medium",
    category := "personal", completed := false, createdAt := 1699000000000,
    completedAt := none, dueDate := none, estimatedTime := none,
    tags := .list ["grocery"], subtasks := [], location := "", url := "",
    recurring := false, recurrencePattern := "daily", timeSpent := 0 }

/-- The task `Call mom` without tags. -/
def callMom : Task := { buyMilk with id := 2, title := "Call mom", tags := .list [] }

/-- The store of the search scenario. -/
def searchStore : TaskManager :=
  { tasks := [buyMilk, callMom], nextId := 3, selectedTasks := [2, 7], saves := [] }

/-- The store after importing a record whose tag is written `Grocery`. -/
def upperTagStore : TaskManager :=
  importTasks [{ buyMilk with tags := .list ["Grocery"] }] emptyStore

/-- Task A of the sort scenario: pending, high, due tomorrow. -/
def taskA : Task :=
  { buyMilk with id := 1, title := "A", priority := "high", dueDate := some 1700086400000,
                 tags := .list [] }

/-- Task B of the sort scenario: pending, urgent, no due date. -/
def taskB : Task := { taskA with id := 2, title := "B", priority := "urgent", dueDate := none }

/-- Task C of the sort scenario: completed, urgent, due today. -/
def taskC : Task :=
  { taskA with id := 3, title := "C", priority := "urgent", completed := true,
               completedAt := some 1699990000000, dueDate := some 1700000000000 }

/-- The store of the sort scenario. -/
def sortStore : TaskManager :=
  { tasks := [taskA, taskB, taskC], nextId := 4, selectedTasks := [], saves := [] }

/-- A pending task due at the given time. -/
def dueTask (id : Nat) (due : Int) : Task :=
  { buyMilk with id := id, title := "Pay rent", dueDate := some due, tags := .list [] }

/-- Tasks due around the clock of `sampleEnv`, whose local day runs from
1699916400000 up to 1700002800000: earlier today, later today, yesterday, the
next midnight, a completed one due today, and one without due date. -/
def dueStore : TaskManager :=
  { tasks :=
      [dueTask 1 1699999999999, dueTask 2 1700001000000, dueTask 3 1699916399999,
       dueTask 4 1700002800000,
       { dueTask 5 1699999999999 with completed := true, completedAt := some 1699999999999 },
       { dueTask 6 0 with dueDate := none }],
    nextId := 7, selectedTasks := [], saves := [] }

/-- A store whose only task is due at the clock of `ancientEnv`. -/
def ancientStore : TaskManager :=
  { tasks := [dueTask 1 ancientEnv.now], nextId := 2, selectedTasks := [], saves := [] }

/-- A store whose only task is due at 22:30 UTC of 2023-10-29, which is 23:30 local
time of the current day of `autumnEnv`. -/
def autumnStore : TaskManager :=
  { tasks := [dueTask 1 1698618600000], nextId := 2, selectedTasks := [], saves := [] }

/-- A task created on 2023-11-03 and due on 2023-11-15T22:13:20Z. -/
def olderTask : Task :=
  { taskA with id := 1, title := "Pay rent", createdAt := 1699000000000 }

/-- A task created on 2023-11-09 with the same priority and due date. -/
def newerTask : Task :=
  { taskA with id := 2, title := "Send invoice", createdAt := 1699500000000 }

/-- The store holding `olderTask` after importing a file that holds `newerTask`. -/
def tieStore : TaskManager :=
  importTasks [newerTask]
    { tasks := [olderTask], nextId := 2, selectedTasks := [], saves := [] }

/-- A patch that carries `tags` as the raw text `Garden, HOME`. -/
def tagsPatch : TaskPatch := { noPatch with tags := some (.text "Garden, HOME") }

/-- A patch that carries `tags` as the empty text, as `saveEditedTask` builds it when
the tags box of the form is empty. -/
def emptyTagsPatch : TaskPatch := { noPatch with tags := some (.text "") }

/-- Two creations, an edit of task 1 that leaves the tags box of the form empty, and
the search text `rent`. -/
def rentOps : List Op :=
  [.create sampleEnv (titleOnly "Water the plants"),
   .create sampleEnv (titleOnly "Call the bank"),
   .update sampleEnv 1 emptyTagsPatch,
   .search sampleEnv "rent"]

/-- The store after `rentOps`: task 2 with the tags `[]`, task 1 with the tags `''`,
and the search text `rent`. -/
def rentStore : TaskManager := run emptyStore rentOps

/-- The store that holds the recurring `sampleTask` after the import of a file with
a record that does not recur and carries the identifier 1 as well. -/
def twinStore : TaskManager :=
  importTasks [{ plainTask with id := 1 }]
    { tasks := [sampleTask], nextId := 2, selectedTasks := [], saves := [] }

/-- A store whose only task has the identifier `2^53 - 1` and whose counter is
`2^53`, as `loadTasks` leaves it. -/
def limitStore : TaskManager :=
  { tasks := [{ plainTask with id := 9007199254740991 }], nextId := 9007199254740992,
    selectedTasks := [], saves := [] }

/-- A record in the older format: only `id`, `text` and `completed`. -/
def legacyRecord : RawTask :=
  { id := 4, text := some "Feed the cat", title := none, description := none,
    priority := none, category := none, completed := some true, createdAt := none,
    completedAt := none, dueDate := none, estimatedTime := none, tags := none,
    subtasks := none, location := none, url := none, recurring := none,
    recurrencePattern := none, timeSpent := none }

/-- The persisted form of a task record: every property is present. -/
def toRaw (t : Task) : RawTask :=
  { id := t.id, text := none, title := some t.title, description := some t.description,
    priority := some t.priority, category := some t.category,
    completed := some t.completed, createdAt := some t.createdAt,
    completedAt := some t.completedAt, dueDate := some t.dueDate,
    estimatedTime := some t.estimatedTime, tags := some t.tags,
    subtasks := some t.subtasks, location := some t.location, url := some t.url,
    recurring := some t.recurring, recurrencePattern := some t.recurrencePattern,
    timeSpent := some t.timeSpent }

/-- A saved record whose estimate was set to `0` minutes in the edit form. -/
def zeroEstimateRecord : RawTask :=
  { toRaw plainTask with id := 7, estimatedTime := some (some 0) }

/-- The records of a saved list: identifiers 2, 7 and 4. -/
def savedRecords : List RawTask := [toRaw plainTask, zeroEstimateRecord, legacyRecord]

/-! ## Lemmas on strings -/

theorem dropWhile_eq_nil_iff_all (p : Char → Bool) (cs : List Char) :
    cs.dropWhile p = [] ↔ ∀ c ∈ cs, p c = true := by
  induction cs with
  | nil => simp
  | cons c cs ih =>
    by_cases h : p c = true
    · simp [List.dropWhile, h, ih]
    · simp [List.dropWhile, h]

theorem all_of_dropWhile_all (p : Char → Bool) (cs : List Char)
    (h : ∀ c ∈ cs.dropWhile p, p c = true) : ∀ c ∈ cs, p c = true := by
  induction cs with
  | nil => simp
  | cons c cs ih =>
    by_cases hc : p c = true
    · simp only [List.dropWhile, hc] at h
      intro x hx
      rcases List.mem_cons.mp hx with rfl | hx
      · exact hc
      · exact ih h x hx
    · have hd : (c :: cs).dropWhile p = c :: cs := by simp [List.dropWhile, hc]
      rw [hd] at h
      exact h

theorem trimChars_eq_nil_iff (cs : List Char) :
    trimChars cs = [] ↔ ∀ c ∈ cs, isJsWhitespace c = true := by
  unfold trimChars
  rw [List.reverse_eq_nil_iff, dropWhile_eq_nil_iff_all]
  constructor
  · intro h
    apply all_of_dropWhile_all
    intro c hc
    exact h c (List.mem_reverse.mpr hc)
  · intro h c hc
    exact h c ((List.dropWhile_sublist isJsWhitespace).subset (List.mem_reverse.mp hc))

theorem jsTrim_eq_empty_iff (t : String) :
    jsTrim t = "" ↔ ∀ c ∈ t.data, isJsWhitespace c = true := by
  rw [← trimChars_eq_nil_iff]
  unfold jsTrim
  constructor
  · intro h
    have := congrArg String.data h
    simpa using this
  · intro h
    rw [h]

/-! ## Lemmas on dates -/

theorem dayFromYear_succ (y : Int) : dayFromYear (y + 1) = dayFromYear y + daysInYear y := by
  unfold dayFromYear daysInYear
  split_ifs <;> omega

theorem yearFromDay_spec (d : Int) :
    dayFromYear (yearFromDay d) ≤ d ∧ d < dayFromYear (yearFromDay d + 1) := by
  unfold yearFromDay
  simp only
  split_ifs with h1 h2
  · refine ⟨h1, ?_⟩
    unfold dayFromYear at *
    omega
  · exact ⟨h2, not_le.mp h1⟩
  · refine ⟨?_, ?_⟩
    · unfold dayFromYear at *
      omega
    · simp only [sub_add_cancel]
      exact not_le.mp h2

theorem dayFromYear_mono (a b : Int) (h : a ≤ b) : dayFromYear a ≤ dayFromYear b := by
  unfold dayFromYear
  omega

theorem yearFromDay_unique (d y : Int) (h1 : dayFromYear y ≤ d) (h2 : d < dayFromYear (y + 1)) :
    yearFromDay d = y := by
  have hs := yearFromDay_spec d
  by_contra hne
  rcases lt_or_gt_of_ne hne with h | h
  · have := dayFromYear_mono (yearFromDay d + 1) y (by omega)
    omega
  · have := dayFromYear_mono (y + 1) (yearFromDay d) (by omega)
    omega

theorem leapOfYear_cases (y : Int) :
    (leapOfYear y = 0 ∧ daysInYear y = 365) ∨ (leapOfYear y = 1 ∧ daysInYear y = 366) := by
  unfold leapOfYear daysInYear
  omega

theorem monthOfYearDay_range (l w : Int) : 0 ≤ monthOfYearDay l w ∧ monthOfYearDay l w ≤ 11 := by
  unfold monthOfYearDay
  omega

theorem monthFromTime_range (t : Int) : 0 ≤ monthFromTime t ∧ monthFromTime t ≤ 11 :=
  monthOfYearDay_range _ _

theorem makeDay_of_month (y m dt : Int) (hm : 0 ≤ m ∧ m ≤ 11) :
    makeDay y m dt = dayFromYearMonth y m + dt - 1 := by
  unfold makeDay
  have h1 : m / 12 = 0 := by omega
  have h2 : m % 12 = m := by omega
  rw [h1, h2, add_zero]

/-- The day number of a time value is rebuilt from its year, month and day of month. -/
theorem makeDay_fields (t : Int) :
    makeDay (yearFromTime t) (monthFromTime t) (dateFromTime t) = day t := by
  rw [makeDay_of_month _ _ _ (monthFromTime_range t)]
  unfold dayFromYearMonth dateFromTime dayWithinYear inLeapYear
  omega

theorem makeDate_day (t k : Int) :
    makeDate (day t + k) (timeWithinDay t) = t + k * msPerDay := by
  unfold makeDate day timeWithinDay msPerDay
  omega

theorem setDate_plus (env : Env) (t k : Int) :
    setDate env t (getDate env t + k) =
      timeClip (utc env (localTime env t + k * msPerDay)) := by
  unfold setDate getDate
  simp only
  have hm := monthFromTime_range (localTime env t)
  have h := makeDay_fields (localTime env t)
  rw [makeDay_of_month _ _ _ hm] at h ⊢
  have : dayFromYearMonth (yearFromTime (localTime env t)) (monthFromTime (localTime env t)) +
      (dateFromTime (localTime env t) + k) - 1 = day (localTime env t) + k := by omega
  rw [this, makeDate_day]

theorem day_makeDate (n tod : Int) (h : 0 ≤ tod ∧ tod < msPerDay) :
    day (makeDate n tod) = n ∧ timeWithinDay (makeDate n tod) = tod := by
  unfold day timeWithinDay makeDate msPerDay at *
  omega

theorem timeWithinDay_range (t : Int) : 0 ≤ timeWithinDay t ∧ timeWithinDay t < msPerDay := by
  unfold timeWithinDay msPerDay
  omega

theorem monthStart_next (l m : Int) (hm : 0 ≤ m ∧ m ≤ 10) :
    monthStart l (m + 1) = monthStart l m + daysInMonth l m := by
  unfold monthStart daysInMonth
  omega

theorem monthStart_last (l : Int) : monthStart l 11 + daysInMonth l 11 = 365 + l := by
  unfold monthStart daysInMonth
  omega

/-- The first day of the next month is the length of the month later. -/
theorem dayFromYearMonth_next (y m : Int) (hm : 0 ≤ m ∧ m ≤ 11) :
    dayFromYearMonth (y + (m + 1) / 12) ((m + 1) % 12) =
      dayFromYearMonth y m + daysInMonth (leapOfYear y) m := by
  by_cases h : m = 11
  · subst h
    have h1 : ((11 : Int) + 1) / 12 = 1 := by decide
    have h2 : ((11 : Int) + 1) % 12 = 0 := by decide
    rw [h1, h2]
    unfold dayFromYearMonth
    rw [dayFromYear_succ]
    have h3 := monthStart_last (leapOfYear y)
    have h4 : monthStart (leapOfYear (y + 1)) 0 = 0 := by unfold monthStart; simp
    rcases leapOfYear_cases y with ⟨a, b⟩ | ⟨a, b⟩ <;> omega
  · have h1 : (m + 1) / 12 = 0 := by omega
    have h2 : (m + 1) % 12 = m + 1 := by omega
    rw [h1, h2, add_zero]
    unfold dayFromYearMonth
    rw [monthStart_next _ _ (by omega)]
    omega

theorem daysInMonth_range (l m : Int) (hl : l = 0 ∨ l = 1) :
    28 ≤ daysInMonth l m ∧ daysInMonth l m ≤ 31 := by
  unfold daysInMonth
  omega

theorem leapOfYear_range (y : Int) : leapOfYear y = 0 ∨ leapOfYear y = 1 := by
  rcases leapOfYear_cases y with ⟨a, _⟩ | ⟨a, _⟩
  · exact Or.inl a
  · exact Or.inr a

theorem setMonth_plus (env : Env) (t : Int) :
    setMonth env t (getMonth env t + 1) =
      timeClip (utc env (localTime env t +
        daysInMonth (inLeapYear (localTime env t)) (monthFromTime (localTime env t))
          * msPerDay)) := by
  unfold setMonth getMonth
  simp only
  have hm := monthFromTime_range (localTime env t)
  have h := makeDay_fields (localTime env t)
  rw [makeDay_of_month _ _ _ hm] at h
  unfold makeDay
  rw [dayFromYearMonth_next _ _ hm]
  have : dayFromYearMonth (yearFromTime (localTime env t)) (monthFromTime (localTime env t)) +
      daysInMonth (leapOfYear (yearFromTime (localTime env t))) (monthFromTime (localTime env t)) +
      dateFromTime (localTime env t) - 1 =
      day (localTime env t) +
        daysInMonth (inLeapYear (localTime env t)) (monthFromTime (localTime env t)) := by
    unfold inLeapYear
    omega
  rw [this, makeDate_day]

theorem monthStart_leap (l m : Int) (hm : 0 ≤ m ∧ m ≤ 11) :
    monthStart l m = monthStart 0 m + (if m ≤ 1 then 0 else l) := by
  unfold monthStart
  omega

theorem leap_next (y : Int) :
    daysInYear y + leapOfYear (y + 1) - leapOfYear y = daysInYear (y + 1) := by
  unfold leapOfYear daysInYear
  omega

theorem dayFromYearMonth_nextYear (y m : Int) (hm : 0 ≤ m ∧ m ≤ 11) :
    dayFromYearMonth (y + 1) m = dayFromYearMonth y m + daysToNextYear y m := by
  unfold dayFromYearMonth daysToNextYear
  rw [dayFromYear_succ, monthStart_leap (leapOfYear (y + 1)) m hm,
    monthStart_leap (leapOfYear y) m hm]
  have := leap_next y
  split_ifs <;> omega

theorem setFullYear_plus (env : Env) (t : Int) :
    setFullYear env t (getFullYear env t + 1) =
      timeClip (utc env (localTime env t +
        daysToNextYear (yearFromTime (localTime env t)) (monthFromTime (localTime env t))
          * msPerDay)) := by
  unfold setFullYear getFullYear
  simp only
  have hm := monthFromTime_range (localTime env t)
  have h := makeDay_fields (localTime env t)
  rw [makeDay_of_month _ _ _ hm] at h
  rw [makeDay_of_month _ _ _ hm, dayFromYearMonth_nextYear _ _ hm]
  have : dayFromYearMonth (yearFromTime (localTime env t)) (monthFromTime (localTime env t)) +
      daysToNextYear (yearFromTime (localTime env t)) (monthFromTime (localTime env t)) +
      dateFromTime (localTime env t) - 1 =
      day (localTime env t) +
        daysToNextYear (yearFromTime (localTime env t)) (monthFromTime (localTime env t)) := by
    omega
  rw [this, makeDate_day]

theorem daysToNextYear_range (y m : Int) :
    daysToNextYear y m = 365 ∨ daysToNextYear y m = 366 := by
  unfold daysToNextYear daysInYear
  omega

theorem monthOfYearDay_bounds (l w : Int) (hw : 0 ≤ w ∧ w < 365 + l) :
    monthStart l (monthOfYearDay l w) ≤ w ∧
      w < monthStart l (monthOfYearDay l w) + daysInMonth l (monthOfYearDay l w) := by
  unfold monthOfYearDay
  by_cases h0 : w < 31
  · rw [if_pos h0]; unfold monthStart daysInMonth; omega
  rw [if_neg h0]
  by_cases h1 : w < 59 + l
  · rw [if_pos h1]; unfold monthStart daysInMonth; omega
  rw [if_neg h1]
  by_cases h2 : w < 90 + l
  · rw [if_pos h2]; unfold monthStart daysInMonth; omega
  rw [if_neg h2]
  by_cases h3 : w < 120 + l
  · rw [if_pos h3]; unfold monthStart daysInMonth; omega
  rw [if_neg h3]
  by_cases h4 : w < 151 + l
  · rw [if_pos h4]; unfold monthStart daysInMonth; omega
  rw [if_neg h4]
  by_cases h5 : w < 181 + l
  · rw [if_pos h5]; unfold monthStart daysInMonth; omega
  rw [if_neg h5]
  by_cases h6 : w < 212 + l
  · rw [if_pos h6]; unfold monthStart daysInMonth; omega
  rw [if_neg h6]
  by_cases h7 : w < 243 + l
  · rw [if_pos h7]; unfold monthStart daysInMonth; omega
  rw [if_neg h7]
  by_cases h8 : w < 273 + l
  · rw [if_pos h8]; unfold monthStart daysInMonth; omega
  rw [if_neg h8]
  by_cases h9 : w < 304 + l
  · rw [if_pos h9]; unfold monthStart daysInMonth; omega
  rw [if_neg h9]
  by_cases h10 : w < 334 + l
  · rw [if_pos h10]; unfold monthStart daysInMonth; omega
  rw [if_neg h10]
  unfold monthStart daysInMonth; omega

theorem monthOfYearDay_of_bounds (l w m : Int) (hl : l = 0 ∨ l = 1) (hm : 0 ≤ m ∧ m ≤ 11)
    (h1 : monthStart l m ≤ w) (h2 : w < monthStart l m + daysInMonth l m) :
    monthOfYearDay l w = m := by
  unfold monthStart at h1 h2
  unfold daysInMonth at h2
  unfold monthOfYearDay
  omega

theorem dayWithinYear_range (t : Int) :
    0 ≤ dayWithinYear t ∧ dayWithinYear t < 365 + inLeapYear t := by
  unfold dayWithinYear inLeapYear yearFromTime
  have h := yearFromDay_spec (day t)
  rw [dayFromYear_succ] at h
  rcases leapOfYear_cases (yearFromDay (day t)) with ⟨a, b⟩ | ⟨a, b⟩ <;> omega

/-- The day of the month lies within the month. -/
theorem dateFromTime_range (t : Int) :
    1 ≤ dateFromTime t ∧ dateFromTime t ≤ daysInMonth (inLeapYear t) (monthFromTime t) := by
  have hw := dayWithinYear_range t
  have h := monthOfYearDay_bounds (inLeapYear t) (dayWithinYear t) hw
  unfold dateFromTime monthFromTime
  omega

theorem monthStart_end (l m : Int) (hl : l = 0 ∨ l = 1) (hm : 0 ≤ m ∧ m ≤ 11) :
    0 ≤ monthStart l m ∧ monthStart l m + daysInMonth l m ≤ 365 + l := by
  unfold monthStart daysInMonth
  omega

/-- Reading back the calendar fields of the time value built from a calendar date
that exists. -/
theorem civil_fields (y m dt tod : Int) (hm : 0 ≤ m ∧ m ≤ 11)
    (hd : 1 ≤ dt ∧ dt ≤ daysInMonth (leapOfYear y) m) (htod : 0 ≤ tod ∧ tod < msPerDay) :
    yearFromTime (makeDate (dayFromYearMonth y m + dt - 1) tod) = y ∧
    monthFromTime (makeDate (dayFromYearMonth y m + dt - 1) tod) = m ∧
    dateFromTime (makeDate (dayFromYearMonth y m + dt - 1) tod) = dt ∧
    timeWithinDay (makeDate (dayFromYearMonth y m + dt - 1) tod) = tod := by
  have hday := day_makeDate (dayFromYearMonth y m + dt - 1) tod htod
  have hl := leapOfYear_range y
  have hs := monthStart_end (leapOfYear y) m hl hm
  have hy : yearFromTime (makeDate (dayFromYearMonth y m + dt - 1) tod) = y := by
    unfold yearFromTime
    rw [hday.1]
    apply yearFromDay_unique
    · unfold dayFromYearMonth; omega
    · rw [dayFromYear_succ]
      unfold dayFromYearMonth
      rcases leapOfYear_cases y with ⟨a, b⟩ | ⟨a, b⟩ <;> omega
  have hw : dayWithinYear (makeDate (dayFromYearMonth y m + dt - 1) tod) =
      monthStart (leapOfYear y) m + dt - 1 := by
    unfold dayWithinYear
    rw [hy, hday.1]
    unfold dayFromYearMonth
    omega
  have hleap : inLeapYear (makeDate (dayFromYearMonth y m + dt - 1) tod) = leapOfYear y := by
    unfold inLeapYear
    rw [hy]
  have hmo : monthFromTime (makeDate (dayFromYearMonth y m + dt - 1) tod) = m := by
    unfold monthFromTime
    rw [hw, hleap]
    exact monthOfYearDay_of_bounds _ _ _ hl hm (by omega) (by omega)
  refine ⟨hy, hmo, ?_, hday.2⟩
  unfold dateFromTime
  rw [hw, hleap, hmo]
  omega

/-- Calendar fields one month after a local time `l`, when the day of month exists in
the next month. -/
theorem fields_next_month (l n : Int)
    (hn : n = daysInMonth (inLeapYear l) (monthFromTime l))
    (hfit : dateFromTime l ≤
      daysInMonth (leapOfYear (yearFromTime l + (monthFromTime l + 1) / 12))
        ((monthFromTime l + 1) % 12)) :
    yearFromTime (l + n * msPerDay) = yearFromTime l + (monthFromTime l + 1) / 12 ∧
    monthFromTime (l + n * msPerDay) = (monthFromTime l + 1) % 12 ∧
    dateFromTime (l + n * msPerDay) = dateFromTime l ∧
    timeWithinDay (l + n * msPerDay) = timeWithinDay l := by
  have hm := monthFromTime_range l
  have hd := dateFromTime_range l
  have hf := makeDay_fields l
  rw [makeDay_of_month _ _ _ hm] at hf
  have hnext := dayFromYearMonth_next (yearFromTime l) (monthFromTime l) hm
  have hrepr : l + n * msPerDay =
      makeDate (dayFromYearMonth (yearFromTime l + (monthFromTime l + 1) / 12)
        ((monthFromTime l + 1) % 12) + dateFromTime l - 1) (timeWithinDay l) := by
    rw [hnext, hn]
    have : dayFromYearMonth (yearFromTime l) (monthFromTime l) +
        daysInMonth (leapOfYear (yearFromTime l)) (monthFromTime l) + dateFromTime l - 1 =
        day l + daysInMonth (inLeapYear l) (monthFromTime l) := by
      unfold inLeapYear
      omega
    rw [this, makeDate_day]
  rw [hrepr]
  exact civil_fields _ _ _ _ (by omega) ⟨hd.1, hfit⟩ (timeWithinDay_range l)

/-- Calendar fields one year after a local time `l` that is not on 29 February. -/
theorem fields_next_year (l n : Int)
    (hn : n = daysToNextYear (yearFromTime l) (monthFromTime l))
    (hfit : ¬ (monthFromTime l = 1 ∧ dateFromTime l = 29)) :
    yearFromTime (l + n * msPerDay) = yearFromTime l + 1 ∧
    monthFromTime (l + n * msPerDay) = monthFromTime l ∧
    dateFromTime (l + n * msPerDay) = dateFromTime l ∧
    timeWithinDay (l + n * msPerDay) = timeWithinDay l := by
  have hm := monthFromTime_range l
  have hd := dateFromTime_range l
  have hf := makeDay_fields l
  rw [makeDay_of_month _ _ _ hm] at hf
  have hnext := dayFromYearMonth_nextYear (yearFromTime l) (monthFromTime l) hm
  have hrepr : l + n * msPerDay =
      makeDate (dayFromYearMonth (yearFromTime l + 1) (monthFromTime l) + dateFromTime l - 1)
        (timeWithinDay l) := by
    rw [hnext, hn]
    have : dayFromYearMonth (yearFromTime l) (monthFromTime l) +
        daysToNextYear (yearFromTime l) (monthFromTime l) + dateFromTime l - 1 =
        day l + daysToNextYear (yearFromTime l) (monthFromTime l) := by
      omega
    rw [this, makeDate_day]
  rw [hrepr]
  refine civil_fields _ _ _ _ hm ⟨hd.1, ?_⟩ (timeWithinDay_range l)
  have h1 := leapOfYear_range (yearFromTime l)
  have h2 := leapOfYear_range (yearFromTime l + 1)
  have h3 := hd.2
  unfold inLeapYear at h3
  unfold daysInMonth at h3 ⊢
  omega

/-- Calendar fields one year after a local time `l` on 29 February: 1 March of the
next year, at the same time of day. -/
theorem fields_after_leap_day (l n : Int)
    (hn : n = daysToNextYear (yearFromTime l) (monthFromTime l))
    (hleap : monthFromTime l = 1 ∧ dateFromTime l = 29) :
    yearFromTime (l + n * msPerDay) = yearFromTime l + 1 ∧
    monthFromTime (l + n * msPerDay) = 2 ∧
    dateFromTime (l + n * msPerDay) = 1 ∧
    timeWithinDay (l + n * msPerDay) = timeWithinDay l := by
  have hm := monthFromTime_range l
  have hd := dateFromTime_range l
  have hf := makeDay_fields l
  rw [makeDay_of_month _ _ _ hm] at hf
  have hnext := dayFromYearMonth_nextYear (yearFromTime l) (monthFromTime l) hm
  have hlp : leapOfYear (yearFromTime l) = 1 := by
    have h3 := hd.2
    have h1 := leapOfYear_range (yearFromTime l)
    unfold inLeapYear at h3
    rw [hleap.1, hleap.2] at h3
    unfold daysInMonth at h3
    omega
  have hnl : leapOfYear (yearFromTime l + 1) = 0 := by
    unfold leapOfYear daysInYear at hlp ⊢
    omega
  have hmarch : dayFromYearMonth (yearFromTime l + 1) 2 =
      dayFromYearMonth (yearFromTime l + 1) 1 + 28 := by
    unfold dayFromYearMonth
    rw [hnl]
    unfold monthStart
    omega
  have hrepr : l + n * msPerDay =
      makeDate (dayFromYearMonth (yearFromTime l + 1) 2 + 1 - 1) (timeWithinDay l) := by
    rw [hmarch, hn]
    rw [hleap.1] at hnext hf ⊢
    rw [hnext]
    have : dayFromYearMonth (yearFromTime l) 1 + daysToNextYear (yearFromTime l) 1 + 28 + 1 - 1 =
        day l + daysToNextYear (yearFromTime l) 1 := by
      omega
    rw [this, makeDate_day]
  rw [hrepr]
  refine civil_fields _ _ _ _ (by omega) ⟨by omega, ?_⟩ (timeWithinDay_range l)
  unfold daysInMonth
  omega

theorem timeClip_of_range (t : Int) (h1 : -8640000000000000 ≤ t) (h2 : t ≤ 8640000000000000) :
    timeClip t = some t := by
  unfold timeClip
  rw [if_neg (by omega)]

/-- The due date that `createRecurringTask` computes under one of the four patterns:
the time value that the zone assigns to the advanced local time, or the `RangeError`
of `toISOString()` when that is not a valid time value. -/
theorem nextDueDate_eq (env : Env) (pattern : String) (d : Int)
    (hlo : -8640000000000000 ≤ d) (hhi : d ≤ 8640000000000000)
    (hpat : pattern ∈ ["daily", "weekly", "monthly", "yearly"]) :
    nextDueDate env pattern (some d) =
      match timeClip (utc env (advancedLocal pattern (localTime env d))) with
      | none => .error .rangeError
      | some t => .ok (some t) := by
  have hd : dateOfIso d = some d := timeClip_of_range d hlo hhi
  unfold nextDueDate
  simp only [hd, advanceDate]
  simp only [List.mem_cons, List.mem_singleton, List.not_mem_nil, or_false] at hpat
  rcases hpat with rfl | rfl | rfl | rfl
  · simp only [advancedLocal, if_true, setDate_plus, one_mul]
  · simp only [advancedLocal, String.reduceEq, if_false, if_true, setDate_plus]
  · simp only [advancedLocal, String.reduceEq, if_false, if_true, setMonth_plus]
  · simp only [advancedLocal, String.reduceEq, if_false, if_true, setFullYear_plus]

/-- With a fixed offset, `UTC` undoes `LocalTime` up to the advance. -/
theorem utc_localTime_add (env : Env) (h : FixedOffset env) (t k : Int) :
    utc env (localTime env t + k) = t + k ∧ localTime env (t + k) = localTime env t + k := by
  obtain ⟨z, hz⟩ := h
  unfold utc localTime
  simp only [hz]
  omega

/-! ## Lemmas on lists of tasks -/

theorem find_some_split (p : Task → Bool) (l : List Task) (found : Task)
    (h : l.find? p = some found) :
    ∃ pre post, l = pre ++ found :: post ∧ (∀ t ∈ pre, p t = false) ∧ p found = true ∧
      ∀ f, modifyFirst p f l = pre ++ f found :: post := by
  induction l with
  | nil => simp at h
  | cons a l ih =>
    by_cases ha : p a = true
    · have hfa : found = a := by simpa [List.find?, ha] using h.symm
      subst hfa
      exact ⟨[], l, rfl, by simp, ha, fun f => by simp [modifyFirst, ha]⟩
    · have h2 : l.find? p = some found := by simpa [List.find?, ha] using h
      obtain ⟨pre, post, hl, hpre, hp, hmod⟩ := ih h2
      refine ⟨a :: pre, post, by simp [hl], ?_, hp, fun f => ?_⟩
      · intro t ht
        rcases List.mem_cons.mp ht with rfl | ht
        · simpa using ha
        · exact hpre t ht
      · simp [modifyFirst, ha, hmod f]

theorem modifyFirst_length (p : Task → Bool) (f : Task → Task) (l : List Task) :
    (modifyFirst p f l).length = l.length := by
  induction l with
  | nil => rfl
  | cons a l ih =>
    by_cases ha : p a = true <;> simp [modifyFirst, ha, ih]

theorem modifyFirst_map_id (p : Task → Bool) (f : Task → Task) (l : List Task)
    (hf : ∀ t, (f t).id = t.id) :
    (modifyFirst p f l).map (fun t => t.id) = l.map (fun t => t.id) := by
  induction l with
  | nil => rfl
  | cons a l ih =>
    by_cases ha : p a = true <;> simp [modifyFirst, ha, ih, hf]

theorem mem_modifyFirst (p : Task → Bool) (f : Task → Task) (l : List Task) (t : Task)
    (h : t ∈ modifyFirst p f l) : t ∈ l ∨ ∃ t0 ∈ l, t = f t0 := by
  induction l with
  | nil => simp [modifyFirst] at h
  | cons a l ih =>
    by_cases ha : p a = true
    · simp only [modifyFirst, ha, if_true, List.mem_cons] at h
      rcases h with rfl | h
      · exact Or.inr ⟨a, by simp, rfl⟩
      · exact Or.inl (by simp [h])
    · simp only [modifyFirst, ha, List.mem_cons] at h
      simp only [Bool.false_eq_true, if_false, List.mem_cons] at h
      rcases h with rfl | h
      · exact Or.inl (by simp)
      · rcases ih h with h | ⟨t0, ht0, rfl⟩
        · exact Or.inl (by simp [h])
        · exact Or.inr ⟨t0, by simp [ht0], rfl⟩

theorem plusOne_of_lt (n : Nat) (h : n < 9007199254740992) : plusOne n = n + 1 := by
  unfold plusOne
  rw [if_pos h]

theorem le_plusOne (n : Nat) : n ≤ plusOne n := by
  unfold plusOne
  split_ifs <;> omega

theorem lt_of_plusOne_lt (n : Nat) (h : plusOne n < 9007199254740992) :
    n < 9007199254740992 := by
  have := le_plusOne n
  omega

theorem endCall_snd {α : Type} (env : Env) (value : α) (s : TaskManager) :
    (endCall env value s).2 = s := by
  unfold endCall
  split <;> rfl

theorem endCall_of_ok {α : Type} (env : Env) (value : α) (s : TaskManager)
    (h : updateUI env s = .ok ()) : endCall env value s = (.returned value, s) := by
  unfold endCall
  rw [h]

theorem endCall_of_error {α : Type} (env : Env) (value : α) (s : TaskManager) (e : JsError)
    (h : updateUI env s = .error e) : endCall env value s = (.threw e, s) := by
  unfold endCall
  rw [h]

theorem endCall_fst {α : Type} (env : Env) (value : α) (s : TaskManager) :
    (endCall env value s).1 = .returned value ∨ ∃ e, (endCall env value s).1 = .threw e := by
  unfold endCall
  split
  · exact Or.inr ⟨_, rfl⟩
  · exact Or.inl rfl

theorem endCall_fst_ne_false (env : Env) (s : TaskManager) :
    (endCall env true s).1 ≠ .returned false := by
  rcases endCall_fst env true s with h | ⟨e, h⟩ <;> rw [h] <;> simp

theorem createRecurringTask_fst (env : Env) (o : Task) (s : TaskManager) :
    ∃ e, (createRecurringTask env o s).1 = .threw e := by
  unfold createRecurringTask
  cases nextDueDate env o.recurrencePattern o.dueDate with
  | error e => exact ⟨e, rfl⟩
  | ok due => exact ⟨.typeError, rfl⟩

theorem createRecurringTask_snd (env : Env) (o : Task) (s : TaskManager) :
    (createRecurringTask env o s).2 =
      match nextDueDate env o.recurrencePattern o.dueDate with
      | .error _ => { s with nextId := plusOne s.nextId }
      | .ok due =>
        { s with
          nextId := plusOne s.nextId
          tasks :=
            { o with
              id := s.nextId
              completed := false
              completedAt := none
              createdAt := env.now
              dueDate := due
              subtasks := o.subtasks.map (fun st => { st with completed := false })
              timeSpent := 0 } :: s.tasks } := by
  unfold createRecurringTask
  cases nextDueDate env o.recurrencePattern o.dueDate with
  | error e => rfl
  | ok due => rfl

/-- State after `toggleTask` when the identifier is found. -/
theorem toggleTask_snd_of_find (env : Env) (id : Nat) (s : TaskManager) (found : Task)
    (h : s.tasks.find? (fun t => t.id == id) = some found) :
    (toggleTask env id s).2 =
      if found.completed = false ∧ found.recurring = true then
        (createRecurringTask env (flipCompleted env found)
          { s with tasks := modifyFirst (fun t => t.id == id) (flipCompleted env) s.tasks }).2
      else
        saveTasks
          { s with tasks := modifyFirst (fun t => t.id == id) (flipCompleted env) s.tasks } := by
  obtain ⟨e, he⟩ := createRecurringTask_fst env (flipCompleted env found)
    { s with tasks := modifyFirst (fun t => t.id == id) (flipCompleted env) s.tasks }
  simp only [toggleTask, h]
  by_cases hc : found.completed = false ∧ found.recurring = true
  · have : ((flipCompleted env found).completed && (flipCompleted env found).recurring) = true := by
      simp [flipCompleted, hc.1, hc.2]
    rw [if_pos this, if_pos hc]
    generalize hr : createRecurringTask env (flipCompleted env found)
      { s with tasks := modifyFirst (fun t => t.id == id) (flipCompleted env) s.tasks } = r at he
    obtain ⟨o, s2⟩ := r
    simp only at he
    subst he
    rfl
  · have : ¬ ((flipCompleted env found).completed && (flipCompleted env found).recurring) = true := by
      simp only [flipCompleted, Bool.and_eq_true, Bool.not_eq_true', not_and] 
      intro h1 h2
      exact hc ⟨h1, h2⟩
    rw [if_neg this, if_neg hc]
    exact endCall_snd _ _ _

theorem find_of_exists (l : List Task) (id : Nat) (h : ∃ t ∈ l, t.id = id) :
    ∃ found, l.find? (fun t => t.id == id) = some found := by
  cases hf : l.find? (fun t => t.id == id) with
  | some found => exact ⟨found, rfl⟩
  | none =>
    obtain ⟨t, ht, hid⟩ := h
    have := List.find?_eq_none.mp hf t ht
    simp [hid] at this

theorem flipCompleted_eq (env : Env) (t : Task) :
    flipCompleted env t =
      { t with completed := !t.completed
               completedAt := if t.completed = true then none else some env.now } := by
  unfold flipCompleted
  cases h : t.completed <;> simp

/-- The call `toggleTask` on a task that does not spawn: the list is changed and
saved, and the call ends as `updateUI` does. -/
theorem toggleTask_of_plain (env : Env) (id : Nat) (s : TaskManager) (found : Task)
    (h : s.tasks.find? (fun t => t.id == id) = some found)
    (hplain : found.completed = true ∨ found.recurring = false) :
    toggleTask env id s =
      endCall env true
        (saveTasks
          { s with tasks := modifyFirst (fun t => t.id == id) (flipCompleted env) s.tasks }) := by
  simp only [toggleTask, h]
  have : ¬ ((flipCompleted env found).completed && (flipCompleted env found).recurring) = true := by
    simp only [flipCompleted, Bool.and_eq_true, Bool.not_eq_true', not_and]
    intro h1 h2
    rcases hplain with h3 | h3
    · rw [h3] at h1; exact absurd h1 (by decide)
    · rw [h3] at h2; exact absurd h2 (by decide)
  rw [if_neg this]

theorem find_of_split (p : Task → Bool) (pre post : List Task) (found : Task)
    (hpre : ∀ t ∈ pre, p t = false) (hp : p found = true) :
    (pre ++ found :: post).find? p = some found ∧
      ∀ f, modifyFirst p f (pre ++ found :: post) = pre ++ f found :: post := by
  induction pre with
  | nil => simp [List.find?, modifyFirst, hp]
  | cons a pre ih =>
    have ha : p a = false := hpre a (by simp)
    have ih2 := ih (fun t ht => hpre t (by simp [ht]))
    constructor
    · simpa [List.find?, ha] using ih2.1
    · intro f
      simpa [modifyFirst, ha] using ih2.2 f

/-- State and result of `toggleTask` on a task that does not spawn. -/
theorem toggleTask_plain (env : Env) (s : TaskManager) (pre post : List Task) (found : Task)
    (hl : s.tasks = pre ++ found :: post) (hpre : ∀ t ∈ pre, t.id ≠ found.id)
    (hplain : found.completed = true ∨ found.recurring = false) :
    toggleTask env found.id s =
      endCall env true
        (saveTasks { s with tasks := pre ++ flipCompleted env found :: post }) := by
  have hsplit := find_of_split (fun t => t.id == found.id) pre post found
    (fun t ht => by simpa using hpre t ht) (by simp)
  rw [← hl] at hsplit
  rw [toggleTask_of_plain env found.id s found hsplit.1 hplain, hsplit.2]

/-- A task without due date always spawns. -/
theorem createRecurringTask_spawn_of_no_due (env : Env) (o : Task) (s : TaskManager)
    (h : o.dueDate = none) : (createRecurringTask env o s).2.tasks ≠ s.tasks := by
  rw [createRecurringTask_snd, h]
  simp only [nextDueDate]
  intro hc
  have := congrArg List.length hc
  simp at this

theorem toggleTask_fst_of_spawn (env : Env) (id : Nat) (s : TaskManager) (found : Task)
    (h : s.tasks.find? (fun t => t.id == id) = some found)
    (hpend : found.completed = false) (hrec : found.recurring = true) :
    ∃ e, (toggleTask env id s).1 = .threw e := by
  obtain ⟨e, he⟩ := createRecurringTask_fst env (flipCompleted env found)
    { s with tasks := modifyFirst (fun t => t.id == id) (flipCompleted env) s.tasks }
  refine ⟨e, ?_⟩
  simp only [toggleTask, h]
  have : ((flipCompleted env found).completed && (flipCompleted env found).recurring) = true := by
    simp [flipCompleted, hpend, hrec]
  rw [if_pos this]
  generalize createRecurringTask env (flipCompleted env found)
    { s with tasks := modifyFirst (fun t => t.id == id) (flipCompleted env) s.tasks } = r at he
  obtain ⟨o, s2⟩ := r
  simp only at he
  subst he
  rfl

/-! ## Lemmas on the state after each operation -/

theorem addTask_snd (env : Env) (taskData : TaskData) (s : TaskManager) :
    addTask env taskData s = (.returned false, s) ∨
    ∃ r : Task, r.id = s.nextId ∧ r.completed = false ∧ r.completedAt = none ∧
      (∃ tags, r.tags = .list tags) ∧
      addTask env taskData s =
        endCall env true
          (saveTasks { s with nextId := plusOne s.nextId, tasks := r :: s.tasks }) := by
  unfold addTask
  cases taskData.title with
  | none => exact Or.inl rfl
  | some title =>
    simp only
    split
    · exact Or.inl rfl
    · exact Or.inr ⟨_, rfl, rfl, rfl, ⟨_, rfl⟩, rfl⟩

theorem addTask_state (env : Env) (taskData : TaskData) (s : TaskManager) :
    (addTask env taskData s).2 = s ∨
    ∃ r : Task, r.id = s.nextId ∧ r.completed = false ∧ r.completedAt = none ∧
      (addTask env taskData s).2 =
        saveTasks { s with nextId := plusOne s.nextId, tasks := r :: s.tasks } := by
  rcases addTask_snd env taskData s with h | ⟨r, h1, h2, h3, _, h⟩
  · exact Or.inl (by rw [h])
  · exact Or.inr ⟨r, h1, h2, h3, by rw [h, endCall_snd]⟩

/-- The call `addTask` with a title that is not blank. -/
theorem addTask_of_title (env : Env) (taskData : TaskData) (s : TaskManager)
    (hnb : ¬ blankTitle taskData.title) :
    ∃ t : Task, t.id = s.nextId ∧ HasTagList t ∧
      addTask env taskData s =
        endCall env true
          (saveTasks { s with nextId := plusOne s.nextId, tasks := t :: s.tasks }) := by
  cases htitle : taskData.title with
  | none =>
    rw [htitle] at hnb
    exact absurd trivial hnb
  | some title =>
    rw [htitle] at hnb
    have htrim : jsTrim title ≠ "" := fun h => hnb ((jsTrim_eq_empty_iff title).mp h)
    have hne : title ≠ "" := by
      intro h
      apply htrim
      rw [h]
      rfl
    rcases addTask_snd env taskData s with h | ⟨t, hid, _, _, ⟨tags, htags⟩, h⟩
    · exfalso
      simp only [addTask, htitle] at h
      rw [if_neg (by simp [hne, htrim])] at h
      exact endCall_fst_ne_false env _ (congrArg Prod.fst h)
    · refine ⟨t, hid, ?_, h⟩
      unfold HasTagList
      rw [htags]
      trivial

theorem updateTask_snd (env : Env) (id : Nat) (updates : TaskPatch) (s : TaskManager) :
    (updateTask env id updates s).2 = s ∨
    (updateTask env id updates s).2 =
      saveTasks
        { s with tasks := modifyFirst (fun t => t.id == id)
                            (applyPatch (parsePatchTags env updates)) s.tasks } := by
  unfold updateTask
  split
  · exact Or.inl rfl
  · exact Or.inr (endCall_snd _ _ _)

theorem toggleTask_snd (env : Env) (id : Nat) (s : TaskManager) :
    (toggleTask env id s).2 = s ∨
    (toggleTask env id s).2 =
      saveTasks
        { s with tasks := modifyFirst (fun t => t.id == id) (flipCompleted env) s.tasks } ∨
    (toggleTask env id s).2 =
      { s with tasks := modifyFirst (fun t => t.id == id) (flipCompleted env) s.tasks
               nextId := plusOne s.nextId } ∨
    ∃ clone : Task, clone.id = s.nextId ∧ clone.completed = false ∧ clone.completedAt = none ∧
      (toggleTask env id s).2 =
        { s with
          tasks := clone :: modifyFirst (fun t => t.id == id) (flipCompleted env) s.tasks
          nextId := plusOne s.nextId } := by
  cases hf : s.tasks.find? (fun t => t.id == id) with
  | none => left; simp [toggleTask, hf]
  | some found =>
    right
    rw [toggleTask_snd_of_find env id s found hf]
    split
    · right
      rw [createRecurringTask_snd]
      split
      · left; rfl
      · right; exact ⟨_, rfl, rfl, rfl, rfl⟩
    · left; rfl

theorem toggleSubtask_snd (env : Env) (taskId subtaskIndex : Nat) (s : TaskManager) :
    (toggleSubtask env taskId subtaskIndex s).2 = s ∨
    (toggleSubtask env taskId subtaskIndex s).2 =
      saveTasks
        { s with tasks := modifyFirst (fun t => t.id == taskId) (flipSubtask subtaskIndex)
                            s.tasks } := by
  unfold toggleSubtask
  split
  · exact Or.inl rfl
  · split
    · exact Or.inl rfl
    · exact Or.inr (endCall_snd _ _ _)

theorem deleteTask_snd (env : Env) (id : Nat) (s : TaskManager) :
    (deleteTask env id s).2 = s ∨
    (deleteTask env id s).2 =
      saveTasks
        { s with tasks := s.tasks.eraseP (fun t => t.id == id)
                 selectedTasks := s.selectedTasks.filter (fun i => i != id) } := by
  unfold deleteTask
  split
  · exact Or.inl rfl
  · exact Or.inr (endCall_snd _ _ _)

theorem deleteSelectedTasks_snd (env : Env) (s : TaskManager) :
    (deleteSelectedTasks env s).2 = s ∨
    (deleteSelectedTasks env s).2 =
      saveTasks
        { s with tasks := s.tasks.filter (fun task => !(s.selectedTasks.contains task.id))
                 selectedTasks := [] } := by
  unfold deleteSelectedTasks
  split
  · exact Or.inl rfl
  · exact Or.inr (endCall_snd _ _ _)

theorem clearCompletedTasks_snd (env : Env) (s : TaskManager) :
    (clearCompletedTasks env s).2 = s ∨
    (clearCompletedTasks env s).2 =
      saveTasks
        { s with tasks := s.tasks.filter (fun task => !task.completed)
                 selectedTasks := [] } := by
  unfold clearCompletedTasks
  split
  · exact Or.inl rfl
  · exact Or.inr (endCall_snd _ _ _)

theorem toggleTaskSelection_tasks (env : Env) (id : Nat) (s : TaskManager) :
    (toggleTaskSelection env id s).2.tasks = s.tasks ∧
      (toggleTaskSelection env id s).2.nextId = s.nextId := by
  unfold toggleTaskSelection
  split <;> rw [endCall_snd] <;> exact ⟨rfl, rfl⟩

theorem setSearchQuery_snd (env : Env) (query : String) (s : TaskManager) :
    (setSearchQuery env query s).2 = { s with searchQuery := query, selectedTasks := [] } :=
  endCall_snd _ _ _

theorem setFilter_snd (env : Env) (selector : String) (s : TaskManager) :
    (setFilter env selector s).2 = { s with currentFilter := selector, selectedTasks := [] } :=
  endCall_snd _ _ _

/-! ## Invariants -/

theorem IdsFresh.of_sublist {s s' : TaskManager} (h : IdsFresh s)
    (hsub : (s'.tasks.map (fun t => t.id)).Sublist (s.tasks.map (fun t => t.id)))
    (hn : s.nextId ≤ s'.nextId) : IdsFresh s' := by
  refine ⟨h.1.sublist hsub, fun t ht => ?_⟩
  have hmem : t.id ∈ s.tasks.map (fun t => t.id) :=
    hsub.subset (List.mem_map_of_mem (fun t => t.id) ht)
  obtain ⟨t0, ht0, hid⟩ := List.mem_map.mp hmem
  have := h.2 t0 ht0
  omega

theorem IdsFresh.of_cons {s s' : TaskManager} (h : IdsFresh s) (clone : Task) (l : List Task)
    (htasks : s'.tasks = clone :: l) (hid : clone.id = s.nextId)
    (hsub : (l.map (fun t => t.id)).Sublist (s.tasks.map (fun t => t.id)))
    (hn : s.nextId < s'.nextId) : IdsFresh s' := by
  have hl : IdsFresh { s with tasks := l } := IdsFresh.of_sublist h hsub (le_refl _)
  refine ⟨?_, fun t ht => ?_⟩
  · rw [htasks, List.map_cons, List.nodup_cons]
    refine ⟨fun hmem => ?_, hl.1⟩
    obtain ⟨t0, ht0, h0⟩ := List.mem_map.mp hmem
    have := hl.2 t0 ht0
    simp only at h0 this
    omega
  · rw [htasks] at ht
    rcases List.mem_cons.mp ht with rfl | ht
    · omega
    · have := hl.2 t ht
      simp only at this
      omega

theorem parsePatchTags_fields (env : Env) (u : TaskPatch) :
    (parsePatchTags env u).id = u.id ∧ (parsePatchTags env u).completed = u.completed ∧
      (parsePatchTags env u).completedAt = u.completedAt := by
  unfold parsePatchTags
  split
  · split <;> exact ⟨rfl, rfl, rfl⟩
  · exact ⟨rfl, rfl, rfl⟩

/-- What a call does to the counter: nothing, or one increment. -/
theorem step_nextId_cases (s : TaskManager) (op : Op) :
    (step s op).nextId = s.nextId ∨ (step s op).nextId = plusOne s.nextId := by
  cases op with
  | create env taskData =>
    simp only [step]
    rcases addTask_state env taskData s with h1 | ⟨r, _, _, _, h1⟩
    · rw [h1]; exact Or.inl rfl
    · rw [h1]; exact Or.inr rfl
  | update env id updates =>
    simp only [step]
    rcases updateTask_snd env id updates s with h1 | h1 <;> rw [h1] <;> exact Or.inl rfl
  | toggleCompletion env id =>
    simp only [step]
    rcases toggleTask_snd env id s with h1 | h1 | h1 | ⟨clone, _, _, _, h1⟩
    · rw [h1]; exact Or.inl rfl
    · rw [h1]; exact Or.inl rfl
    · rw [h1]; exact Or.inr rfl
    · rw [h1]; exact Or.inr rfl
  | toggleSubtask env taskId subtaskIndex =>
    simp only [step]
    rcases toggleSubtask_snd env taskId subtaskIndex s with h1 | h1 <;> rw [h1] <;>
      exact Or.inl rfl
  | delete env id =>
    simp only [step]
    rcases deleteTask_snd env id s with h1 | h1 <;> rw [h1] <;> exact Or.inl rfl
  | select env id =>
    simp only [step]
    exact Or.inl (toggleTaskSelection_tasks env id s).2
  | bulkDelete env =>
    simp only [step]
    rcases deleteSelectedTasks_snd env s with h1 | h1 <;> rw [h1] <;> exact Or.inl rfl
  | clearCompleted env =>
    simp only [step]
    rcases clearCompletedTasks_snd env s with h1 | h1 <;> rw [h1] <;> exact Or.inl rfl
  | search env query =>
    simp only [step]
    rw [setSearchQuery_snd]
    exact Or.inl rfl
  | filter env selector =>
    simp only [step]
    rw [setFilter_snd]
    exact Or.inl rfl

theorem step_nextId_le (s : TaskManager) (op : Op) : s.nextId ≤ (step s op).nextId := by
  rcases step_nextId_cases s op with h | h <;> rw [h]
  exact le_plusOne _

theorem run_nextId_le (ops : List Op) (s : TaskManager) : s.nextId ≤ (run s ops).nextId := by
  induction ops generalizing s with
  | nil => exact le_refl _
  | cons op ops ih =>
    simp only [run, List.foldl_cons]
    exact le_trans (step_nextId_le s op) (ih (step s op))

/-- A counter that is below `2^53` after a call was below `2^53` before it, and the
call moved it by at most one. -/
theorem step_nextId_exact (s : TaskManager) (op : Op)
    (hb : (step s op).nextId < 9007199254740992) :
    s.nextId < 9007199254740992 ∧ plusOne s.nextId = s.nextId + 1 := by
  have h1 : s.nextId < 9007199254740992 := lt_of_le_of_lt (step_nextId_le s op) hb
  exact ⟨h1, plusOne_of_lt _ h1⟩

theorem step_idsFresh (s : TaskManager) (op : Op) (h : IdsFresh s) (hop : op.keepsId)
    (hb : (step s op).nextId < 9007199254740992) : IdsFresh (step s op) := by
  have hexact := (step_nextId_exact s op hb).2
  cases op with
  | create env taskData =>
    simp only [step] at hb ⊢
    rcases addTask_state env taskData s with h1 | ⟨r, hid, _, _, h1⟩
    · rw [h1]; exact h
    · rw [h1]
      refine IdsFresh.of_cons h r s.tasks rfl hid (List.Sublist.refl _) ?_
      simp only [saveTasks, hexact]
      omega
  | update env id updates =>
    simp only [step]
    rcases updateTask_snd env id updates s with h1 | h1
    · rw [h1]; exact h
    · rw [h1]
      refine IdsFresh.of_sublist h ?_ (le_refl _)
      simp only [saveTasks]
      rw [modifyFirst_map_id]
      intro t
      have hu : updates.id = none := hop
      simp [applyPatch, (parsePatchTags_fields env updates).1, hu]
  | toggleCompletion env id =>
    simp only [step]
    rcases toggleTask_snd env id s with h1 | h1 | h1 | ⟨clone, hid, _, _, h1⟩
    · rw [h1]; exact h
    · rw [h1]
      refine IdsFresh.of_sublist h ?_ (le_refl _)
      simp only [saveTasks]
      rw [modifyFirst_map_id _ (flipCompleted env) _ (fun t => rfl)]
    · rw [h1]
      refine IdsFresh.of_sublist h ?_ (le_plusOne _)
      simp only
      rw [modifyFirst_map_id _ (flipCompleted env) _ (fun t => rfl)]
    · rw [h1]
      refine IdsFresh.of_cons h clone _ rfl hid ?_ ?_
      · rw [modifyFirst_map_id _ (flipCompleted env) _ (fun t => rfl)]
      · simp only [hexact]
        omega
  | toggleSubtask env taskId subtaskIndex =>
    simp only [step]
    rcases toggleSubtask_snd env taskId subtaskIndex s with h1 | h1
    · rw [h1]; exact h
    · rw [h1]
      refine IdsFresh.of_sublist h ?_ (le_refl _)
      simp only [saveTasks]
      rw [modifyFirst_map_id _ (flipSubtask subtaskIndex) _ (fun t => rfl)]
  | delete env id =>
    simp only [step]
    rcases deleteTask_snd env id s with h1 | h1
    · rw [h1]; exact h
    · rw [h1]
      refine IdsFresh.of_sublist h ?_ (le_refl _)
      simp only [saveTasks]
      exact List.Sublist.map _ (List.eraseP_sublist _)
  | select env id =>
    simp only [step]
    have := toggleTaskSelection_tasks env id s
    apply IdsFresh.of_sublist h
    · rw [this.1]
    · rw [this.2]
  | bulkDelete env =>
    simp only [step]
    rcases deleteSelectedTasks_snd env s with h1 | h1
    · rw [h1]; exact h
    · rw [h1]
      refine IdsFresh.of_sublist h ?_ (le_refl _)
      simp only [saveTasks]
      exact List.Sublist.map _ (List.filter_sublist _)
  | clearCompleted env =>
    simp only [step]
    rcases clearCompletedTasks_snd env s with h1 | h1
    · rw [h1]; exact h
    · rw [h1]
      refine IdsFresh.of_sublist h ?_ (le_refl _)
      simp only [saveTasks]
      exact List.Sublist.map _ (List.filter_sublist _)
  | search env query =>
    simp only [step]
    rw [setSearchQuery_snd]
    exact IdsFresh.of_sublist h (List.Sublist.refl _) (le_refl _)
  | filter env selector =>
    simp only [step]
    rw [setFilter_snd]
    exact IdsFresh.of_sublist h (List.Sublist.refl _) (le_refl _)

theorem run_idsFresh (ops : List Op) (s : TaskManager) (h : IdsFresh s)
    (hops : ∀ op ∈ ops, op.keepsId) (hb : (run s ops).nextId < 9007199254740992) :
    IdsFresh (run s ops) := by
  induction ops generalizing s with
  | nil => exact h
  | cons op ops ih =>
    simp only [run, List.foldl_cons] at hb ⊢
    have hb1 : (step s op).nextId < 9007199254740992 :=
      lt_of_le_of_lt (run_nextId_le ops (step s op)) hb
    exact ih (step s op) (step_idsFresh s op h (hops op (by simp)) hb1)
      (fun o ho => hops o (by simp [ho])) hb

theorem emptyStore_idsFresh : IdsFresh emptyStore := by
  constructor
  · simp [emptyStore]
  · intro t ht
    simp [emptyStore] at ht

theorem consistent_of_mem {s s' : TaskManager} (h : CompletedAtConsistent s)
    (hmem : ∀ t ∈ s'.tasks, t ∈ s.tasks ∨ CompletedAtMatches t) : CompletedAtConsistent s' := by
  intro t ht
  rcases hmem t ht with h1 | h1
  · exact h t h1
  · exact h1

theorem consistent_modifyFirst {s : TaskManager} (h : CompletedAtConsistent s)
    (p : Task → Bool) (f : Task → Task)
    (hf : ∀ t, CompletedAtMatches t → CompletedAtMatches (f t)) :
    ∀ t ∈ modifyFirst p f s.tasks, t ∈ s.tasks ∨ CompletedAtMatches t := by
  intro t ht
  rcases mem_modifyFirst p f s.tasks t ht with h1 | ⟨t0, ht0, rfl⟩
  · exact Or.inl h1
  · exact Or.inr (hf t0 (h t0 ht0))

theorem flipCompleted_matches (env : Env) (t : Task) : CompletedAtMatches (flipCompleted env t) := by
  unfold CompletedAtMatches flipCompleted
  cases t.completed <;> simp

theorem applyPatch_matches (env : Env) (updates : TaskPatch)
    (hop : updates.keepsCompletion) (t : Task) (ht : CompletedAtMatches t) :
    CompletedAtMatches (applyPatch (parsePatchTags env updates) t) := by
  have hf := parsePatchTags_fields env updates
  unfold CompletedAtMatches applyPatch
  simp only [hf.2.1, hf.2.2]
  unfold TaskPatch.keepsCompletion at hop
  split at hop
  · rename_i h1 h2
    rw [h1, h2]
    exact ht
  · rename_i c ca h1 h2
    rw [h1, h2]
    simp only [Option.getD_some]
    rw [hop]
  · exact absurd hop id

theorem step_consistent (s : TaskManager) (op : Op) (h : CompletedAtConsistent s)
    (hop : op.keepsCompletion) : CompletedAtConsistent (step s op) := by
  cases op with
  | create env taskData =>
    simp only [step]
    rcases addTask_state env taskData s with h1 | ⟨r, _, hc, hca, h1⟩
    · rw [h1]; exact h
    · rw [h1]
      refine consistent_of_mem h (fun t ht => ?_)
      rcases List.mem_cons.mp ht with rfl | ht
      · right; unfold CompletedAtMatches; rw [hc, hca]; simp
      · exact Or.inl ht
  | update env id updates =>
    simp only [step]
    rcases updateTask_snd env id updates s with h1 | h1
    · rw [h1]; exact h
    · rw [h1]
      exact consistent_of_mem h
        (consistent_modifyFirst h _ _ (applyPatch_matches env updates hop))
  | toggleCompletion env id =>
    simp only [step]
    have hm := consistent_modifyFirst h (fun t => t.id == id) (flipCompleted env)
      (fun t _ => flipCompleted_matches env t)
    rcases toggleTask_snd env id s with h1 | h1 | h1 | ⟨clone, _, hc, hca, h1⟩
    · rw [h1]; exact h
    · rw [h1]; exact consistent_of_mem h hm
    · rw [h1]; exact consistent_of_mem h hm
    · rw [h1]
      refine consistent_of_mem h (fun t ht => ?_)
      rcases List.mem_cons.mp ht with rfl | ht
      · right; unfold CompletedAtMatches; rw [hc, hca]; simp
      · exact hm t ht
  | toggleSubtask env taskId subtaskIndex =>
    simp only [step]
    rcases toggleSubtask_snd env taskId subtaskIndex s with h1 | h1
    · rw [h1]; exact h
    · rw [h1]
      exact consistent_of_mem h
        (consistent_modifyFirst h _ (flipSubtask subtaskIndex) (fun t ht => ht))
  | delete env id =>
    simp only [step]
    rcases deleteTask_snd env id s with h1 | h1
    · rw [h1]; exact h
    · rw [h1]
      exact consistent_of_mem h (fun t ht => Or.inl ((List.eraseP_sublist _).subset ht))
  | select env id =>
    simp only [step]
    refine consistent_of_mem h (fun t ht => Or.inl ?_)
    rw [(toggleTaskSelection_tasks env id s).1] at ht
    exact ht
  | bulkDelete env =>
    simp only [step]
    rcases deleteSelectedTasks_snd env s with h1 | h1
    · rw [h1]; exact h
    · rw [h1]
      exact consistent_of_mem h (fun t ht => Or.inl ((List.filter_sublist _).subset ht))
  | clearCompleted env =>
    simp only [step]
    rcases clearCompletedTasks_snd env s with h1 | h1
    · rw [h1]; exact h
    · rw [h1]
      exact consistent_of_mem h (fun t ht => Or.inl ((List.filter_sublist _).subset ht))
  | search env query =>
    simp only [step]
    rw [setSearchQuery_snd]
    exact consistent_of_mem h (fun t ht => Or.inl ht)
  | filter env selector =>
    simp only [step]
    rw [setFilter_snd]
    exact consistent_of_mem h (fun t ht => Or.inl ht)

theorem run_consistent (ops : List Op) (s : TaskManager) (h : CompletedAtConsistent s)
    (hops : ∀ op ∈ ops, op.keepsCompletion) : CompletedAtConsistent (run s ops) := by
  induction ops generalizing s with
  | nil => exact h
  | cons op ops ih =>
    simp only [run, List.foldl_cons]
    exact ih (step s op) (step_consistent s op h (hops op (by simp)))
      (fun o ho => hops o (by simp [ho]))

/-- The identifiers that a call takes from the counter are the counter values that
it passes over, as long as the counter stays below `2^53`. -/
theorem step_nextId (s : TaskManager) (op : Op)
    (hb : (step s op).nextId < 9007199254740992) :
    issuedBy s op = List.range' s.nextId ((step s op).nextId - s.nextId) := by
  have hexact := (step_nextId_exact s op hb).2
  cases op with
  | create env taskData =>
    simp only [step, issuedBy]
    rcases addTask_snd env taskData s with h1 | ⟨r, _, _, _, _, h1⟩
    · rw [h1]
      simp
    · rw [h1, if_neg (endCall_fst_ne_false env _), endCall_snd]
      simp [saveTasks, hexact]
  | update env id updates =>
    simp only [step, issuedBy]
    rcases updateTask_snd env id updates s with h1 | h1 <;> rw [h1] <;> simp [saveTasks]
  | toggleCompletion env id =>
    simp only [step, issuedBy]
    cases hf : s.tasks.find? (fun t => t.id == id) with
    | none => simp [toggleTask, hf]
    | some found =>
      rw [toggleTask_snd_of_find env id s found hf]
      simp only
      by_cases hc : found.completed = false ∧ found.recurring = true
      · rw [if_pos hc, createRecurringTask_snd]
        have : (!found.completed && found.recurring) = true := by simp [hc.1, hc.2]
        rw [if_pos this]
        split <;> simp [hexact]
      · rw [if_neg hc]
        have : ¬ (!found.completed && found.recurring) = true := by
          simp only [Bool.and_eq_true, Bool.not_eq_true', not_and]
          intro a b
          exact hc ⟨a, b⟩
        rw [if_neg this]
        simp [saveTasks]
  | toggleSubtask env taskId subtaskIndex =>
    simp only [step, issuedBy]
    rcases toggleSubtask_snd env taskId subtaskIndex s with h1 | h1 <;> rw [h1] <;>
      simp [saveTasks]
  | delete env id =>
    simp only [step, issuedBy]
    rcases deleteTask_snd env id s with h1 | h1 <;> rw [h1] <;> simp [saveTasks]
  | select env id =>
    simp only [step, issuedBy]
    rw [(toggleTaskSelection_tasks env id s).2]
    simp
  | bulkDelete env =>
    simp only [step, issuedBy]
    rcases deleteSelectedTasks_snd env s with h1 | h1 <;> rw [h1] <;> simp [saveTasks]
  | clearCompleted env =>
    simp only [step, issuedBy]
    rcases clearCompletedTasks_snd env s with h1 | h1 <;> rw [h1] <;> simp [saveTasks]
  | search env query =>
    simp only [step, issuedBy]
    rw [setSearchQuery_snd]
    simp
  | filter env selector =>
    simp only [step, issuedBy]
    rw [setFilter_snd]
    simp

theorem issued_eq_range (ops : List Op) (s : TaskManager)
    (hb : (run s ops).nextId < 9007199254740992) :
    issued s ops = List.range' s.nextId ((run s ops).nextId - s.nextId) := by
  induction ops generalizing s with
  | nil => simp [issued, run]
  | cons op ops ih =>
    simp only [run, List.foldl_cons] at hb
    have hle2 := run_nextId_le ops (step s op)
    have hle1 := step_nextId_le s op
    have h1 := step_nextId s op (lt_of_le_of_lt hle2 hb)
    have h2 := ih (step s op) hb
    simp only [issued, run, List.foldl_cons] at h2 hle2 ⊢
    rw [h1, h2]
    have e1 : (step s op).nextId = s.nextId + 1 * ((step s op).nextId - s.nextId) := by omega
    conv_lhs => rw [e1]
    rw [← e1]
    have := List.range'_append s.nextId ((step s op).nextId - s.nextId)
      ((List.foldl step (step s op) ops).nextId - (step s op).nextId) 1
    rw [← e1] at this
    rw [this]
    congr 1
    omega

/-- State after an `addTask` with a title that is not blank: the new record, with the
counter value as identifier, in front of the list, and the counter after
`this.nextId++`. -/
theorem step_create_of_title (env : Env) (taskData : TaskData) (s : TaskManager)
    (hnb : ¬ blankTitle taskData.title) :
    ∃ r : Task, r.id = s.nextId ∧
      (step s (.create env taskData)).tasks = r :: s.tasks ∧
      (step s (.create env taskData)).nextId = plusOne s.nextId := by
  obtain ⟨r, hid, _, hcall⟩ := addTask_of_title env taskData s hnb
  refine ⟨r, hid, ?_, ?_⟩
  · show (addTask env taskData s).2.tasks = r :: s.tasks
    rw [hcall, endCall_snd]
    rfl
  · show (addTask env taskData s).2.nextId = plusOne s.nextId
    rw [hcall, endCall_snd]
    rfl

/-- Below `2^53` every accepted `addTask` raises the counter by one. -/
theorem run_creates_nextId (env : Env) (taskData : TaskData)
    (hnb : ¬ blankTitle taskData.title) (k : Nat) (s : TaskManager)
    (h : s.nextId + k ≤ 9007199254740992) :
    (run s (List.replicate k (.create env taskData))).nextId = s.nextId + k := by
  induction k generalizing s with
  | zero => rfl
  | succ k ih =>
    obtain ⟨_, _, _, hn⟩ := step_create_of_title env taskData s hnb
    have hs : plusOne s.nextId = s.nextId + 1 := plusOne_of_lt _ (by omega)
    show (run (step s (.create env taskData)) (List.replicate k (.create env taskData))).nextId =
      s.nextId + (k + 1)
    rw [ih (step s (.create env taskData)) (by rw [hn, hs]; omega), hn, hs]
    omega

/-- From the empty store, `2^53 - 1` accepted calls of `addTask` bring the counter to
`2^53`, where `this.nextId++` leaves it: the next two calls both take the
identifier `2^53`. -/
theorem creates_repeat_identifier (env : Env) (taskData : TaskData)
    (hnb : ¬ blankTitle taskData.title) :
    ∃ (r1 r2 : Task) (rest : List Task),
      (run emptyStore
          (List.replicate 9007199254740991 (.create env taskData) ++
            [.create env taskData, .create env taskData])).tasks = r2 :: r1 :: rest ∧
      r1.id = 9007199254740992 ∧ r2.id = 9007199254740992 := by
  have hk := run_creates_nextId env taskData hnb 9007199254740991 emptyStore (by decide)
  have hk2 : (run emptyStore (List.replicate 9007199254740991 (.create env taskData))).nextId =
      9007199254740992 := by
    rw [hk]
    decide
  obtain ⟨r1, hid1, ht1, hn1⟩ := step_create_of_title env taskData
    (run emptyStore (List.replicate 9007199254740991 (.create env taskData))) hnb
  obtain ⟨r2, hid2, ht2, _⟩ := step_create_of_title env taskData
    (step (run emptyStore (List.replicate 9007199254740991 (.create env taskData)))
      (.create env taskData)) hnb
  refine ⟨r1, r2,
    (run emptyStore (List.replicate 9007199254740991 (.create env taskData))).tasks,
    ?_, ?_, ?_⟩
  · show (List.foldl step emptyStore _).tasks = _
    rw [List.foldl_append]
    show (step (step (run emptyStore (List.replicate 9007199254740991 (.create env taskData)))
      (.create env taskData)) (.create env taskData)).tasks = _
    rw [ht2, ht1]
  · rw [hid1, hk2]
  · rw [hid2, hn1, hk2]
    decide

/-! ## Lemmas on refreshing the page -/

theorem insertSorted_perm (cmp : Task → Task → Int) (a : Task) (l : List Task) :
    (insertSorted cmp a l).Perm (a :: l) := by
  induction l with
  | nil => exact List.Perm.refl _
  | cons b l ih =>
    unfold insertSorted
    split
    · exact List.Perm.refl _
    · exact (List.Perm.cons b ih).trans (List.Perm.swap a b l)

theorem jsSort_perm (cmp : Task → Task → Int) (l : List Task) : (jsSort cmp l).Perm l := by
  induction l with
  | nil => exact List.Perm.refl _
  | cons b l ih =>
    unfold jsSort
    exact (insertSorted_perm cmp b (jsSort cmp l)).trans (List.Perm.cons b ih)

theorem filterSearch_sublist (env : Env) (query : String) (l r : List Task)
    (h : filterSearch env query l = .ok r) : r.Sublist l := by
  induction l generalizing r with
  | nil =>
    simp only [filterSearch] at h
    injection h with h
    rw [← h]
  | cons t l ih =>
    unfold filterSearch at h
    cases hm : matchesSearch env query t with
    | error e => rw [hm] at h; simp at h
    | ok keep =>
      rw [hm] at h
      simp only at h
      cases hf : filterSearch env query l with
      | error e => rw [hf] at h; simp at h
      | ok kept =>
        rw [hf] at h
        simp only at h
        injection h with h
        have hk := ih kept hf
        rw [← h]
        split
        · exact List.Sublist.cons₂ t hk
        · exact List.Sublist.cons t hk

theorem matchesSearch_of_list (env : Env) (query : String) (t : Task) (tags : List String)
    (h : t.tags = .list tags) :
    matchesSearch env query t = .ok (searchKeeps env query t) := by
  unfold searchKeeps matchesSearch
  rw [h]
  split
  · rfl
  · split <;> rfl

theorem filterSearch_of_lists (env : Env) (query : String) (l : List Task)
    (h : ∀ t ∈ l, ∃ tags, t.tags = .list tags) :
    filterSearch env query l = .ok (l.filter (searchKeeps env query)) := by
  induction l with
  | nil => rfl
  | cons t l ih =>
    obtain ⟨tags, ht⟩ := h t (by simp)
    have ih2 := ih (fun x hx => h x (by simp [hx]))
    unfold filterSearch
    rw [matchesSearch_of_list env query t tags ht, ih2]
    simp only [List.filter_cons]

theorem getFilteredTasks_no_search (env : Env) (currentFilter : String) (s : TaskManager) :
    getFilteredTasks env currentFilter "" s =
      (.returned (jsSort sortCompare (s.tasks.filter (keepsFilter env currentFilter))), s) := by
  simp [getFilteredTasks]

theorem getFilteredTasks_of_lists (env : Env) (currentFilter searchQuery : String)
    (s : TaskManager) (hq : searchQuery ≠ "") (h : ∀ t ∈ s.tasks, ∃ tags, t.tags = .list tags) :
    getFilteredTasks env currentFilter searchQuery s =
      (.returned (jsSort sortCompare
        ((s.tasks.filter (searchKeeps env (env.toLowerCase searchQuery))).filter
          (keepsFilter env currentFilter))), s) := by
  simp only [getFilteredTasks, if_neg hq, filterSearch_of_lists env _ s.tasks h]

theorem getFilteredTasks_returned (env : Env) (currentFilter searchQuery : String)
    (s : TaskManager) (out : List Task)
    (h : (getFilteredTasks env currentFilter searchQuery s).1 = .returned out) :
    ∃ filtered : List Task, filtered.Sublist s.tasks ∧ out = jsSort sortCompare filtered := by
  unfold getFilteredTasks at h
  simp only at h
  by_cases hq : searchQuery = ""
  · rw [if_pos hq] at h
    simp only at h
    injection h with h
    exact ⟨_, List.filter_sublist _, h.symm⟩
  · rw [if_neg hq] at h
    cases hf : filterSearch env (env.toLowerCase searchQuery) s.tasks with
    | error e => rw [hf] at h; simp at h
    | ok r =>
      rw [hf] at h
      simp only at h
      injection h with h
      exact ⟨_, (List.filter_sublist _).trans (filterSearch_sublist env _ _ _ hf), h.symm⟩

theorem getFilteredTasks_state (env : Env) (currentFilter searchQuery : String)
    (s : TaskManager) : (getFilteredTasks env currentFilter searchQuery s).2 = s := by
  unfold getFilteredTasks
  simp only
  split <;> rfl

theorem HasTagList.tags {t : Task} (h : HasTagList t) : ∃ tags, t.tags = .list tags := by
  unfold HasTagList at h
  cases ht : t.tags with
  | list tags => exact ⟨tags, rfl⟩
  | text raw => rw [ht] at h; exact absurd h id

theorem createTaskHTML_of_list (t : Task) (h : HasTagList t) : createTaskHTML t = .ok () := by
  obtain ⟨tags, ht⟩ := h.tags
  unfold createTaskHTML
  rw [ht]

theorem renderAll_of_lists (l : List Task) (h : ∀ t ∈ l, HasTagList t) :
    renderAll l = .ok () := by
  induction l with
  | nil => rfl
  | cons t l ih =>
    unfold renderAll
    rw [createTaskHTML_of_list t (h t (by simp))]
    exact ih (fun x hx => h x (by simp [hx]))

/-- The page is refreshed without an exception when every task holds its tags as a
list. -/
theorem updateUI_of_lists (env : Env) (s : TaskManager) (h : ∀ t ∈ s.tasks, HasTagList t) :
    updateUI env s = .ok () := by
  have hout : ∃ out, (getFilteredTasks env s.currentFilter s.searchQuery s).1 = .returned out := by
    by_cases hq : s.searchQuery = ""
    · rw [hq, getFilteredTasks_no_search]
      exact ⟨_, rfl⟩
    · rw [getFilteredTasks_of_lists env s.currentFilter s.searchQuery s hq
        (fun t ht => (h t ht).tags)]
      exact ⟨_, rfl⟩
  obtain ⟨out, hout⟩ := hout
  obtain ⟨filtered, hsub, rfl⟩ := getFilteredTasks_returned env _ _ s out hout
  have hmem : ∀ t ∈ jsSort sortCompare filtered, HasTagList t :=
    fun t ht => h t (hsub.subset ((jsSort_perm sortCompare filtered).subset ht))
  have hr : renderTasks env s = .ok () := by
    unfold renderTasks
    rw [hout]
    simp only
    by_cases hlen : (jsSort sortCompare filtered).length = 0
    · rw [if_pos hlen]
    · rw [if_neg hlen, renderAll_of_lists _ hmem]
  have hb : updateBulkActions env s = .ok () := by
    unfold updateBulkActions
    rw [hout]
  unfold updateUI
  rw [hr]
  exact hb

theorem filterSearch_error (env : Env) (query : String) (l : List Task) (e : JsError)
    (h : filterSearch env query l = .error e) : e = .typeError := by
  induction l generalizing e with
  | nil => simp [filterSearch] at h
  | cons t l ih =>
    unfold filterSearch at h
    cases hm : matchesSearch env query t with
    | error e1 =>
      rw [hm] at h
      simp only at h
      injection h with h
      unfold matchesSearch at hm
      split at hm
      · simp at hm
      · split at hm
        · simp at hm
        · split at hm
          · injection hm with hm
            rw [← h, ← hm]
          · simp at hm
    | ok keep =>
      rw [hm] at h
      simp only at h
      cases hf : filterSearch env query l with
      | error e2 =>
        rw [hf] at h
        simp only at h
        injection h with h
        rw [← h]
        exact ih e2 hf
      | ok kept => rw [hf] at h; simp at h

theorem getFilteredTasks_threw (env : Env) (currentFilter searchQuery : String)
    (s : TaskManager) (e : JsError)
    (h : (getFilteredTasks env currentFilter searchQuery s).1 = .threw e) : e = .typeError := by
  unfold getFilteredTasks at h
  simp only at h
  by_cases hq : searchQuery = ""
  · rw [if_pos hq] at h
    simp at h
  · rw [if_neg hq] at h
    cases hf : filterSearch env (env.toLowerCase searchQuery) s.tasks with
    | error e1 =>
      rw [hf] at h
      simp only at h
      injection h with h
      rw [← h]
      exact filterSearch_error env _ _ e1 hf
    | ok r => rw [hf] at h; simp at h

theorem renderAll_error (l : List Task) (e : JsError) (h : renderAll l = .error e) :
    e = .typeError := by
  induction l with
  | nil => simp [renderAll] at h
  | cons t l ih =>
    unfold renderAll at h
    cases hc : createTaskHTML t with
    | error e1 =>
      rw [hc] at h
      simp only at h
      injection h with h
      unfold createTaskHTML at hc
      split at hc
      · simp at hc
      · split at hc
        · injection hc with hc
          rw [← h, ← hc]
        · simp at hc
    | ok u =>
      rw [hc] at h
      exact ih h

theorem hasTagList_modifyFirst (p : Task → Bool) (f : Task → Task) (l : List Task)
    (hf : ∀ t, HasTagList t → HasTagList (f t)) (h : ∀ t ∈ l, HasTagList t) :
    ∀ t ∈ modifyFirst p f l, HasTagList t := by
  intro t ht
  rcases mem_modifyFirst p f l t ht with h1 | ⟨t0, ht0, rfl⟩
  · exact h t h1
  · exact hf t0 (h t0 ht0)

/-- The only exception of `updateUI` is a `TypeError`. -/
theorem updateUI_cases (env : Env) (s : TaskManager) :
    updateUI env s = .ok () ∨ updateUI env s = .error .typeError := by
  cases hg : (getFilteredTasks env s.currentFilter s.searchQuery s).1 with
  | threw e =>
    have := getFilteredTasks_threw env _ _ s e hg
    subst this
    right
    unfold updateUI renderTasks
    rw [hg]
  | returned out =>
    have hb : updateBulkActions env s = .ok () := by
      unfold updateBulkActions
      rw [hg]
    have hr : renderTasks env s = if out.length = 0 then .ok () else renderAll out := by
      unfold renderTasks
      rw [hg]
    unfold updateUI
    rw [hr]
    by_cases hlen : out.length = 0
    · rw [if_pos hlen]
      exact Or.inl hb
    · rw [if_neg hlen]
      cases hr2 : renderAll out with
      | error e =>
        have := renderAll_error out e hr2
        subst this
        exact Or.inr rfl
      | ok u => exact Or.inl hb

/-- How a call that ends with `endCall` ends: with the value, or with the `TypeError`
of `updateUI`; with the value when every task holds its tags as a list. -/
theorem endCall_outcome {α : Type} (env : Env) (value : α) (s : TaskManager) :
    ((endCall env value s).1 = .returned value ∨ (endCall env value s).1 = .threw .typeError) ∧
    ((endCall env value s).1 = .returned value ↔ updateUI env s = .ok ()) ∧
    ((∀ t ∈ s.tasks, HasTagList t) → (endCall env value s).1 = .returned value) := by
  have hlists : (∀ t ∈ s.tasks, HasTagList t) → (endCall env value s).1 = .returned value := by
    intro h
    rw [endCall_of_ok env value s (updateUI_of_lists env s h)]
  rcases updateUI_cases env s with h | h
  · rw [endCall_of_ok env value s h]
    exact ⟨Or.inl rfl, ⟨fun _ => h, fun _ => rfl⟩, fun _ => rfl⟩
  · rw [endCall_of_error env value s _ h] at hlists ⊢
    refine ⟨Or.inr rfl, ⟨fun hc => ?_, fun hc => ?_⟩, hlists⟩
    · simp at hc
    · rw [h] at hc
      simp at hc

/-! ## Creating tasks -/

/-- C9: when the title of the input is missing, empty or made of white space only,
`addTask` returns `false` and the store (task list, counter, selection, saved
lists) is exactly what it was. -/
theorem addTask_blank_title_rejected (env : Env) (taskData : TaskData) (s : TaskManager)
    (h : blankTitle taskData.title) :
    addTask env taskData s = (.returned false, s) := by
  unfold addTask
  cases ht : taskData.title with
  | none => rfl
  | some t =>
    rw [ht] at h
    have htrim : jsTrim t = "" := (jsTrim_eq_empty_iff t).mpr h
    simp [htrim]

theorem addTask_blank_title_rejected_witness :
    blankTitle (titleOnly " \t ").title ∧
      addTask sampleEnv (titleOnly " \t ") emptyStore = (.returned false, emptyStore) :=
  ⟨by decide, addTask_blank_title_rejected sampleEnv (titleOnly " \t ") emptyStore (by decide)⟩

/-- C10 (amended): with a title that is not blank, `addTask` puts the new record in
front of the previous list and saves the list; the record has the old counter value
as identifier, the trimmed title, `completed = false`, no `completedAt`,
`timeSpent = 0`, the parsed tags, and the defaults `medium` and `personal` when
priority and category are absent; the counter is the result of `this.nextId++`,
which is one more as long as the counter is below `2^53`.  The call returns `true`
exactly when `updateUI` does not throw on the new state, which is the case when
every task of the store holds its tags as a list; otherwise it ends with a
`TypeError`, after the record is stored and saved. -/
theorem addTask_creates_record (env : Env) (taskData : TaskData) (s : TaskManager)
    (title : String) (htitle : taskData.title = some title)
    (hnb : ¬ blankTitle taskData.title) :
    ∃ r : Task,
      (addTask env taskData s).2 =
        { s with tasks := r :: s.tasks, nextId := plusOne s.nextId,
                 saves := (r :: s.tasks) :: s.saves } ∧
      (s.nextId < 9007199254740992 → (addTask env taskData s).2.nextId = s.nextId + 1) ∧
      ((addTask env taskData s).1 = .returned true ∨
        (addTask env taskData s).1 = .threw .typeError) ∧
      ((addTask env taskData s).1 = .returned true ↔
        updateUI env (addTask env taskData s).2 = .ok ()) ∧
      ((∀ t ∈ s.tasks, HasTagList t) → (addTask env taskData s).1 = .returned true) ∧
      r.id = s.nextId ∧ r.title = jsTrim title ∧ r.completed = false ∧
      r.completedAt = none ∧ r.timeSpent = 0 ∧ r.createdAt = env.now ∧
      (∀ raw, taskData.tags = some raw → r.tags = .list (parseTags env raw)) ∧
      (taskData.tags = none → r.tags = .list []) ∧
      (taskData.priority = none → r.priority = "medium") ∧
      (taskData.category = none → r.category = "personal") := by
  rw [htitle] at hnb
  have htrim : jsTrim title ≠ "" := fun h => hnb ((jsTrim_eq_empty_iff title).mp h)
  have hne : title ≠ "" := by
    intro h
    apply htrim
    rw [h]
    rfl
  obtain ⟨r, hr, hres⟩ : ∃ r : Task,
      r = { id := s.nextId
            title := jsTrim title
            description := strOr taskData.description ""
            priority := strOr taskData.priority "medium"
            category := strOr taskData.category "personal"
            completed := false
            createdAt := env.now
            completedAt := none
            dueDate := taskData.dueDate
            estimatedTime := numOrNull taskData.estimatedTime
            tags := .list (parseTags env (strOr taskData.tags ""))
            subtasks := taskData.subtasks.getD []
            location := strOr taskData.location ""
            url := strOr taskData.url ""
            recurring := taskData.recurring.getD false
            recurrencePattern := strOr taskData.recurrencePattern "daily"
            timeSpent := 0 } ∧
      addTask env taskData s =
        endCall env true
          { s with tasks := r :: s.tasks, nextId := plusOne s.nextId,
                   saves := (r :: s.tasks) :: s.saves } := by
    refine ⟨_, rfl, ?_⟩
    simp only [addTask, htitle, saveTasks]
    rw [if_neg (by simp [hne, htrim])]
  have hout := endCall_outcome env true (addTask env taskData s).2
  rw [hres, endCall_snd] at hout
  refine ⟨r, ?_, ?_, ?_, ?_, ?_, by rw [hr], by rw [hr], by rw [hr], by rw [hr], by rw [hr],
    by rw [hr], ?_, ?_, ?_, ?_⟩
  · rw [hres, endCall_snd]
  · intro hb
    rw [hres, endCall_snd]
    exact plusOne_of_lt _ hb
  · rw [hres]
    exact hout.1
  · rw [hres, endCall_snd]
    exact hout.2.1
  · intro hl
    rw [hres]
    apply hout.2.2
    intro t ht
    rcases List.mem_cons.mp ht with rfl | ht
    · rw [hr]
      exact trivial
    · exact hl t ht
  · intro raw hraw
    rw [hr]
    simp only [hraw, strOr]
    by_cases h : raw = ""
    · simp [h]
    · simp [h]
  · intro h
    rw [hr]
    simp [h, strOr, parseTags]
  · intro h
    rw [hr]
    simp [h, strOr]
  · intro h
    rw [hr]
    simp [h, strOr]

theorem addTask_creates_record_witness :
    ¬ blankTitle (titleOnly " Buy milk ").title ∧
    ∃ r : Task,
      (addTask sampleEnv (titleOnly " Buy milk ") emptyStore).2 =
        { emptyStore with tasks := [r], nextId := 2, saves := [[r]] } ∧
      (addTask sampleEnv (titleOnly " Buy milk ") emptyStore).1 = .returned true ∧
      r.id = 1 ∧ r.title = "Buy milk" ∧ r.completed = false ∧
      r.completedAt = none ∧ r.timeSpent = 0 ∧ r.tags = .list [] ∧
      r.priority = "medium" ∧ r.category = "personal" :=
  match addTask_creates_record sampleEnv (titleOnly " Buy milk ") emptyStore " Buy milk " rfl
      (by decide) with
  | ⟨r, h1, _, _, _, h5, h6, h7, h8, h9, h10, _, _, h13, h14, h15⟩ =>
    ⟨by decide, r, h1, h5 (by decide), h6, h7.trans (by decide), h8, h9, h10, h13 rfl,
      h14 rfl, h15 rfl⟩

/-- C10 as stated fails on `rentStore`, where task 1 holds the tags `''` that an edit
with an empty tags box left (C13) and the search text is `rent`: the call stores
and saves the record and then ends with the `TypeError` of `task.tags.some` in
`getFilteredTasks`, so it does not return `true`.  At the counter `2^53` the
counter is not one greater afterwards. -/
theorem addTask_creates_record_counterexample :
    (rentStore.tasks.map (fun t => (t.id, t.tags)) = [(2, .list []), (1, .text "")] ∧
      rentStore.searchQuery = "rent" ∧
      ¬ blankTitle (titleOnly "Buy milk").title ∧
      (addTask sampleEnv (titleOnly "Buy milk") rentStore).1 = .threw .typeError ∧
      (addTask sampleEnv (titleOnly "Buy milk") rentStore).2.tasks.map (fun t => t.title) =
        ["Buy milk", "Call the bank", "Water the plants"] ∧
      (addTask sampleEnv (titleOnly "Buy milk") rentStore).2.saves.length =
        rentStore.saves.length + 1) ∧
    (limitStore.nextId = 9007199254740992 ∧
      (addTask sampleEnv (titleOnly "Buy milk") limitStore).2.nextId = 9007199254740992) :=
  ⟨⟨by decide, by decide, by decide, by decide, by decide, by decide⟩, by decide, by decide⟩

/-! ## Toggling completion -/

/-- C7: when no task has the identifier, `toggleTask` returns `false` and leaves the
store as it is.  Otherwise the first task carrying the identifier has `completed`
flipped (and `completedAt` set or cleared) and nothing else in it changes; the rest
of the list is untouched; a record is added in front only when the flip is from
`false` to `true` on a recurring task; in every other case the list keeps its
length and identifiers in order, the counter is unchanged, and the call returns
`true` unless `updateUI` throws its `TypeError`, which it does not when every task
holds its tags as a list. -/
theorem toggleTask_frame (env : Env) (id : Nat) (s : TaskManager) :
    ((∀ t ∈ s.tasks, t.id ≠ id) → toggleTask env id s = (.returned false, s)) ∧
    ((∃ t ∈ s.tasks, t.id = id) →
      ∃ pre found post,
        s.tasks = pre ++ found :: post ∧ (∀ t ∈ pre, t.id ≠ id) ∧ found.id = id ∧
        ∃ flipped : Task,
          flipped =
            { found with completed := !found.completed
                         completedAt := if found.completed = true then none else some env.now } ∧
          ((toggleTask env id s).2.tasks = pre ++ flipped :: post ∨
            ∃ clone, (toggleTask env id s).2.tasks = clone :: (pre ++ flipped :: post)) ∧
          ((toggleTask env id s).2.tasks ≠ pre ++ flipped :: post →
            found.completed = false ∧ found.recurring = true) ∧
          (found.completed = true ∨ found.recurring = false →
            ((toggleTask env id s).1 = .returned true ∨
              (toggleTask env id s).1 = .threw .typeError) ∧
            ((∀ t ∈ s.tasks, HasTagList t) → (toggleTask env id s).1 = .returned true) ∧
            (toggleTask env id s).2.tasks = pre ++ flipped :: post ∧
            (toggleTask env id s).2.tasks.length = s.tasks.length ∧
            (toggleTask env id s).2.tasks.map (fun t => t.id) = s.tasks.map (fun t => t.id) ∧
            (toggleTask env id s).2.nextId = s.nextId)) := by
  constructor
  · intro h
    have hf : s.tasks.find? (fun t => t.id == id) = none := by
      apply List.find?_eq_none.mpr
      intro t ht
      simpa using h t ht
    simp [toggleTask, hf]
  · intro h
    obtain ⟨found, hfind⟩ := find_of_exists s.tasks id h
    obtain ⟨pre, post, hl, hpre, hp, hmod⟩ := find_some_split _ _ _ hfind
    have hid : found.id = id := by simpa using hp
    refine ⟨pre, found, post, hl, ?_, hid, _, rfl, ?_⟩
    · intro t ht
      simpa using hpre t ht
    have hstate := toggleTask_snd_of_find env id s found hfind
    rw [hmod, flipCompleted_eq] at hstate
    by_cases hc : found.completed = false ∧ found.recurring = true
    · rw [if_pos hc, createRecurringTask_snd] at hstate
      refine ⟨?_, fun _ => hc, ?_⟩
      · split at hstate
        · left
          rw [hstate]
        · right
          rw [hstate]
          exact ⟨_, rfl⟩
      · intro hplain
        rcases hplain with h1 | h1
        · rw [hc.1] at h1; exact absurd h1 (by decide)
        · rw [hc.2] at h1; exact absurd h1 (by decide)
    · rw [if_neg hc] at hstate
      have htasks : (toggleTask env id s).2.tasks = pre ++
          { found with completed := !found.completed
                       completedAt := if found.completed = true then none else some env.now } :: post := by
        rw [hstate]; rfl
      refine ⟨Or.inl htasks, fun hne => absurd htasks hne, fun hplain => ?_⟩
      have heq := toggleTask_of_plain env id s found hfind hplain
      have hout := endCall_outcome env true
        (saveTasks
          { s with tasks := modifyFirst (fun t => t.id == id) (flipCompleted env) s.tasks })
      rw [← heq] at hout
      refine ⟨hout.1, fun hlists => hout.2.2 ?_, htasks, ?_, ?_, ?_⟩
      · exact hasTagList_modifyFirst _ _ _ (fun t ht => ht) hlists
      · rw [htasks, hl]; simp
      · rw [htasks, hl]; simp
      · rw [hstate]; rfl

/-- C6 (amended): let `found` be the task that `toggleTask(id)` addresses (the first
one carrying the identifier), with `recurring = false` and `completedAt` present
exactly when it is completed.  The first call flips `completed`, and after the
second the list is the original one except for the value of `completedAt` of that
task, whose presence is as before; `completed` is restored and the counter is
unchanged.  Both calls return `true` when every task holds its tags as a list. -/
theorem toggleTask_twice_restores (env1 env2 : Env) (s : TaskManager)
    (pre post : List Task) (found : Task)
    (hl : s.tasks = pre ++ found :: post) (hpre : ∀ t ∈ pre, t.id ≠ found.id)
    (hrec : found.recurring = false)
    (hcons : found.completedAt.isSome = true ↔ found.completed = true) :
    (∃ flipped : Task,
      (toggleTask env1 found.id s).2.tasks = pre ++ flipped :: post ∧
      flipped.completed = !found.completed) ∧
    (∃ restored : Task,
      (toggleTask env2 found.id (toggleTask env1 found.id s).2).2.tasks =
        pre ++ restored :: post ∧
      restored.completed = found.completed ∧
      restored.completedAt.isSome = found.completedAt.isSome ∧
      restored = { found with completedAt := restored.completedAt }) ∧
    (toggleTask env2 found.id (toggleTask env1 found.id s).2).2.nextId = s.nextId ∧
    ((∀ t ∈ s.tasks, HasTagList t) →
      (toggleTask env1 found.id s).1 = .returned true ∧
      (toggleTask env2 found.id (toggleTask env1 found.id s).2).1 = .returned true) := by
  have h1 := toggleTask_plain env1 s pre post found hl hpre (Or.inr hrec)
  have h2 := toggleTask_plain env2
    (saveTasks { s with tasks := pre ++ flipCompleted env1 found :: post }) pre post
    (flipCompleted env1 found) rfl hpre (Or.inr hrec)
  have hid : (flipCompleted env1 found).id = found.id := rfl
  rw [hid] at h2
  have hs1 : (toggleTask env1 found.id s).2 =
      saveTasks { s with tasks := pre ++ flipCompleted env1 found :: post } := by
    rw [h1, endCall_snd]
  rw [hs1]
  have hs2 := congrArg Prod.snd h2
  rw [endCall_snd] at hs2
  rw [hs2]
  refine ⟨⟨_, rfl, rfl⟩, ⟨_, rfl, ?_, ?_, ?_⟩, rfl, ?_⟩
  · simp [flipCompleted]
  · cases hc : found.completed with
    | false =>
      have : found.completedAt.isSome = false := by
        cases h : found.completedAt.isSome with
        | false => rfl
        | true => rw [hcons.mp h] at hc; exact absurd hc (by decide)
      simp [flipCompleted, hc, this]
    | true =>
      have : found.completedAt.isSome = true := hcons.mpr hc
      simp [flipCompleted, hc, this]
  · simp [flipCompleted]
  · intro hlists
    have hA : ∀ t ∈ pre ++ flipCompleted env1 found :: post, HasTagList t := by
      intro t ht
      rw [hl] at hlists
      rcases List.mem_append.mp ht with h | h
      · exact hlists t (List.mem_append_left _ h)
      · rcases List.mem_cons.mp h with rfl | h
        · exact hlists found (List.mem_append_right _ (List.mem_cons_self _ _))
        · exact hlists t (List.mem_append_right _ (List.mem_cons_of_mem _ h))
    have hB : ∀ t ∈ pre ++ flipCompleted env2 (flipCompleted env1 found) :: post,
        HasTagList t := by
      intro t ht
      rw [hl] at hlists
      rcases List.mem_append.mp ht with h | h
      · exact hlists t (List.mem_append_left _ h)
      · rcases List.mem_cons.mp h with rfl | h
        · exact hlists found (List.mem_append_right _ (List.mem_cons_self _ _))
        · exact hlists t (List.mem_append_right _ (List.mem_cons_of_mem _ h))
    constructor
    · rw [h1]
      exact (endCall_outcome env1 true _).2.2 hA
    · rw [h2]
      exact (endCall_outcome env2 true _).2.2 hB

/-! ## Recurrence -/

/-- C1 (amended): let every identifier of the store be below the counter, and let
`found` be the task that `toggleTask` addresses (the first one carrying its
identifier), not completed, recurring under one of the four patterns, with a due
date `d` that is a valid time value.  Let `l` be the local time of `d`, `l'` the
local time advanced by one unit of the pattern, and `d'` the time value that the
zone assigns to `l'`, which is assumed valid.  After the call the list is one new
record followed by the old list in which `found` is completed; the new record is
not completed, its identifier differs from every identifier of the old list, and
its due date is `d'`.  `l'` is one day (daily) or seven days (weekly) after `l`;
monthly it is `l` plus the length of the month of `l`, which is the same day of
month and time of day in the next month whenever that month has such a day; yearly
it is the same month, day and time of day in the next year, and 1 March of the next
year when `l` is on 29 February.  The local time of `d'` is `l'` whenever the zone
reads `l'` back (`l'` is not skipped by a daylight-saving change), and with a fixed
offset `d' = d + (l' - l)`. -/
theorem toggleTask_spawns_recurrence (env : Env) (s : TaskManager) (pre post : List Task)
    (found : Task) (d : Int)
    (hl : s.tasks = pre ++ found :: post) (hpre : ∀ t ∈ pre, t.id ≠ found.id)
    (hbelow : ∀ t ∈ s.tasks, t.id < s.nextId)
    (hpend : found.completed = false) (hrec : found.recurring = true)
    (hpat : found.recurrencePattern ∈ ["daily", "weekly", "monthly", "yearly"])
    (hdue : found.dueDate = some d) (hd : ValidTime d)
    (hnext : ValidTime (utc env (advancedLocal found.recurrencePattern (localTime env d)))) :
    ∃ (clone : Task) (l l' d' : Int),
      l = localTime env d ∧ l' = advancedLocal found.recurrencePattern l ∧ d' = utc env l' ∧
      (toggleTask env found.id s).2.tasks =
        clone :: (pre ++
          { found with completed := true, completedAt := some env.now } :: post) ∧
      clone.completed = false ∧
      (∀ t ∈ s.tasks, t.id ≠ clone.id) ∧
      clone.dueDate = some d' ∧
      (found.recurrencePattern = "daily" → l' = l + msPerDay) ∧
      (found.recurrencePattern = "weekly" → l' = l + 7 * msPerDay) ∧
      (found.recurrencePattern = "monthly" →
        l' = l + daysInMonth (inLeapYear l) (monthFromTime l) * msPerDay ∧
        (dateFromTime l ≤
            daysInMonth (leapOfYear (yearFromTime l + (monthFromTime l + 1) / 12))
              ((monthFromTime l + 1) % 12) →
          yearFromTime l' = yearFromTime l + (monthFromTime l + 1) / 12 ∧
          monthFromTime l' = (monthFromTime l + 1) % 12 ∧
          dateFromTime l' = dateFromTime l ∧
          timeWithinDay l' = timeWithinDay l)) ∧
      (found.recurrencePattern = "yearly" →
        l' = l + daysToNextYear (yearFromTime l) (monthFromTime l) * msPerDay ∧
        (¬ (monthFromTime l = 1 ∧ dateFromTime l = 29) →
          yearFromTime l' = yearFromTime l + 1 ∧
          monthFromTime l' = monthFromTime l ∧
          dateFromTime l' = dateFromTime l ∧
          timeWithinDay l' = timeWithinDay l) ∧
        (monthFromTime l = 1 ∧ dateFromTime l = 29 →
          yearFromTime l' = yearFromTime l + 1 ∧
          monthFromTime l' = 2 ∧
          dateFromTime l' = 1 ∧
          timeWithinDay l' = timeWithinDay l)) ∧
      (localTime env (utc env l') = l' → localTime env d' = l') ∧
      (FixedOffset env → d' = d + (l' - l) ∧ localTime env d' = l') := by
  have hsplit := find_of_split (fun t => t.id == found.id) pre post found
    (fun t ht => by simpa using hpre t ht) (by simp)
  rw [← hl] at hsplit
  have hstate := toggleTask_snd_of_find env found.id s found hsplit.1
  rw [if_pos ⟨hpend, hrec⟩, hsplit.2, createRecurringTask_snd] at hstate
  have hnd := nextDueDate_eq env found.recurrencePattern d hd.1 hd.2 hpat
  rw [timeClip_of_range _ hnext.1 hnext.2] at hnd
  have hflip : flipCompleted env found =
      { found with completed := true, completedAt := some env.now } := by
    simp [flipCompleted, hpend]
  have hp1 : (flipCompleted env found).recurrencePattern = found.recurrencePattern := rfl
  have hp2 : (flipCompleted env found).dueDate = some d := hdue
  rw [hp1, hp2, hnd] at hstate
  simp only at hstate
  have htasks := congrArg TaskManager.tasks hstate
  simp only at htasks
  rw [hflip] at htasks
  refine ⟨_, localTime env d, advancedLocal found.recurrencePattern (localTime env d), _,
    rfl, rfl, rfl, htasks, rfl, ?_, rfl, ?_, ?_, ?_, ?_, fun h => h, ?_⟩
  · intro t ht
    exact Nat.ne_of_lt (hbelow t ht)
  · intro h
    simp only [advancedLocal, h, if_true]
  · intro h
    simp only [advancedLocal, h, String.reduceEq, if_false, if_true]
  · intro h
    have hadv : advancedLocal found.recurrencePattern (localTime env d) =
        localTime env d + daysInMonth (inLeapYear (localTime env d))
          (monthFromTime (localTime env d)) * msPerDay := by
      simp only [advancedLocal, h, String.reduceEq, if_false, if_true]
    rw [hadv]
    exact ⟨rfl, fun hfit => fields_next_month _ _ rfl hfit⟩
  · intro h
    have hadv : advancedLocal found.recurrencePattern (localTime env d) =
        localTime env d + daysToNextYear (yearFromTime (localTime env d))
          (monthFromTime (localTime env d)) * msPerDay := by
      simp only [advancedLocal, h, String.reduceEq, if_false, if_true]
    rw [hadv]
    exact ⟨rfl, fun hfit => fields_next_year _ _ rfl hfit,
      fun hleap => fields_after_leap_day _ _ rfl hleap⟩
  · intro hfix
    have h1 := utc_localTime_add env hfix d
      (advancedLocal found.recurrencePattern (localTime env d) - localTime env d)
    have e : localTime env d +
        (advancedLocal found.recurrencePattern (localTime env d) - localTime env d) =
        advancedLocal found.recurrencePattern (localTime env d) := by omega
    rw [e] at h1
    refine ⟨h1.1, ?_⟩
    rw [h1.1, h1.2]

/-- C8 (amended): whenever `createRecurringTask` adds a record for the original task
`o`, the new list is the clone followed by the previous list (so `o` and every other
task stay where and as they were), the clone has the counter value as identifier
and the counter is the result of `this.nextId++`, which is one more as long as the
counter is below `2^53`; the clone has `completed = false`, no `completedAt`,
`timeSpent = 0`, the subtasks of `o` with the same titles in the same order and all
not completed, and the title, description, priority, category, tags, estimated
time, location, url, recurring flag and recurrence pattern of `o`; without a due
date on `o` the clone has none. -/
theorem createRecurringTask_spawn (env : Env) (o : Task) (s : TaskManager)
    (hspawn : (createRecurringTask env o s).2.tasks ≠ s.tasks) :
    ∃ clone : Task,
      (createRecurringTask env o s).2.tasks = clone :: s.tasks ∧
      (createRecurringTask env o s).2.nextId = plusOne s.nextId ∧
      (s.nextId < 9007199254740992 →
        (createRecurringTask env o s).2.nextId = s.nextId + 1) ∧
      clone.id = s.nextId ∧
      clone.completed = false ∧ clone.completedAt = none ∧ clone.timeSpent = 0 ∧
      clone.createdAt = env.now ∧
      clone.subtasks.map (fun st => st.title) = o.subtasks.map (fun st => st.title) ∧
      (∀ st ∈ clone.subtasks, st.completed = false) ∧
      clone.title = o.title ∧ clone.description = o.description ∧
      clone.priority = o.priority ∧ clone.category = o.category ∧ clone.tags = o.tags ∧
      clone.estimatedTime = o.estimatedTime ∧ clone.location = o.location ∧
      clone.url = o.url ∧ clone.recurring = o.recurring ∧
      clone.recurrencePattern = o.recurrencePattern ∧
      (o.dueDate = none → clone.dueDate = none) ∧
      (∀ t ∈ s.tasks, t ∈ (createRecurringTask env o s).2.tasks) := by
  rw [createRecurringTask_snd] at hspawn ⊢
  cases hnd : nextDueDate env o.recurrencePattern o.dueDate with
  | error e =>
    rw [hnd] at hspawn
    exact absurd rfl hspawn
  | ok due =>
    refine ⟨_, rfl, rfl, fun hb => plusOne_of_lt _ hb, rfl, rfl, rfl, rfl, rfl, ?_, ?_, rfl,
      rfl, rfl, rfl, rfl, rfl, rfl, rfl, rfl, rfl, ?_, ?_⟩
    · simp [List.map_map, Function.comp_def]
    · intro st hst
      simp only [List.mem_map] at hst
      obtain ⟨st0, _, rfl⟩ := hst
      rfl
    · intro hnone
      rw [hnone] at hnd
      simp only [nextDueDate] at hnd
      injection hnd with hnd
      exact hnd.symm
    · intro t ht
      exact List.mem_cons_of_mem _ ht

/-- C2 (the claim fails on `toggleTask`): when the task that `toggleTask` addresses
is pending and recurring, the call ends with an exception, the task list has
changed, and nothing was handed to the persistence collaborator. -/
theorem toggleTask_recurring_skips_save (env : Env) (s : TaskManager) (pre post : List Task)
    (found : Task)
    (hl : s.tasks = pre ++ found :: post) (hpre : ∀ t ∈ pre, t.id ≠ found.id)
    (hpend : found.completed = false) (hrec : found.recurring = true) :
    (∃ e, (toggleTask env found.id s).1 = .threw e) ∧
    (toggleTask env found.id s).2.tasks ≠ s.tasks ∧
    (toggleTask env found.id s).2.saves = s.saves := by
  have hsplit := find_of_split (fun t => t.id == found.id) pre post found
    (fun t ht => by simpa using hpre t ht) (by simp)
  rw [← hl] at hsplit
  have hstate := toggleTask_snd_of_find env found.id s found hsplit.1
  rw [if_pos ⟨hpend, hrec⟩, hsplit.2, createRecurringTask_snd] at hstate
  refine ⟨toggleTask_fst_of_spawn env found.id s found hsplit.1 hpend hrec, ?_, ?_⟩
  · rw [hstate, hl]
    split
    · intro hc
      have h1 := List.append_cancel_left hc
      have h2 := congrArg Task.completed (List.cons.inj h1).1
      simp [flipCompleted, hpend] at h2
    · intro hc
      have := congrArg List.length hc
      simp at this
  · rw [hstate]
    split <;> rfl

theorem toggleTask_recurring_skips_save_witness :
    toggleTask sampleEnv 1 sampleStore =
      (.threw .typeError,
        { tasks :=
            [{ sampleTask with id := 3, createdAt := sampleEnv.now,
                               dueDate := some 1709337600000,
                               subtasks := [{ title := "fill the can", completed := false }] },
             plainTask,
             { sampleTask with completed := true, completedAt := some sampleEnv.now }],
          nextId := 4, selectedTasks := [], saves := [] }) ∧
    ((∃ e, (toggleTask sampleEnv sampleTask.id sampleStore).1 = .threw e) ∧
      (toggleTask sampleEnv sampleTask.id sampleStore).2.tasks ≠ sampleStore.tasks ∧
      (toggleTask sampleEnv sampleTask.id sampleStore).2.saves = sampleStore.saves) :=
  ⟨by decide,
    toggleTask_recurring_skips_save sampleEnv sampleStore [plainTask] [] sampleTask
      (by decide) (by decide) (by decide) (by decide)⟩

/-! ## Invariants of reachable stores -/

/-- C3 (amended): in every store reached from the empty store by a sequence of
`addTask`, `updateTask` with a patch that does not carry `id`, `toggleTask`,
`toggleSubtask`, `deleteTask`, selection, search, filter, `deleteSelectedTasks` and
`clearCompletedTasks`, with the counter still below `2^53`, the identifiers of the
tasks are pairwise distinct, and all are below the counter. -/
theorem ids_distinct_of_reachable (ops : List Op) (hops : ∀ op ∈ ops, op.keepsId)
    (hbound : (run emptyStore ops).nextId < 9007199254740992) :
    ((run emptyStore ops).tasks.map (fun t => t.id)).Nodup ∧
      ∀ t ∈ (run emptyStore ops).tasks, t.id < (run emptyStore ops).nextId :=
  run_idsFresh ops emptyStore emptyStore_idsFresh hops hbound

/-- C4 (amended): along every sequence of calls from every store that leaves the
counter below `2^53`, the identifiers taken from the counter are exactly the
counter values passed over, in increasing order, so none is taken twice; and an
`addTask` with a title that is not blank after the sequence puts in front of the
list a record whose identifier is the current counter value, raises the counter by
one, and that identifier is greater than every identifier taken from the counter
before (by `addTask` or by a recurrence spawn), whatever was deleted in between. -/
theorem addTask_identifier_above_issued (s0 : TaskManager) (ops : List Op) (env : Env)
    (taskData : TaskData) (hbound : (run s0 ops).nextId < 9007199254740992) :
    issued s0 ops = List.range' s0.nextId ((run s0 ops).nextId - s0.nextId) ∧
    (issued s0 ops).Pairwise (fun i j => i < j) ∧
    (¬ blankTitle taskData.title →
      ∃ r : Task,
        (addTask env taskData (run s0 ops)).2.tasks = r :: (run s0 ops).tasks ∧
        r.id = (run s0 ops).nextId ∧
        (addTask env taskData (run s0 ops)).2.nextId = (run s0 ops).nextId + 1 ∧
        ∀ i ∈ issued s0 ops, i < r.id) := by
  have h := issued_eq_range ops s0 hbound
  refine ⟨h, ?_, ?_⟩
  · rw [h]
    exact List.pairwise_lt_range' _ _
  · intro hnb
    obtain ⟨r, hid, _, hcall⟩ := addTask_of_title env taskData (run s0 ops) hnb
    have hadd : (addTask env taskData (run s0 ops)).2 =
        saveTasks
          { run s0 ops with nextId := plusOne (run s0 ops).nextId,
                            tasks := r :: (run s0 ops).tasks } := by
      rw [hcall, endCall_snd]
    refine ⟨r, ?_, hid, ?_, fun i hi => ?_⟩
    · rw [hadd]
      rfl
    · rw [hadd]
      exact plusOne_of_lt _ hbound
    · rw [h] at hi
      have := List.mem_range'_1.mp hi
      have := run_nextId_le ops s0
      omega

/-- C5 (amended): in every store reached from the empty store by a sequence of
`addTask`, `updateTask` with a patch that carries neither `completed` nor
`completedAt` (or both, in step), `toggleTask`, `toggleSubtask`, `deleteTask`,
selection, `deleteSelectedTasks` and `clearCompletedTasks`, every task has
`completedAt` present exactly when `completed` is `true`. -/
theorem completedAt_iff_completed_of_reachable (ops : List Op)
    (hops : ∀ op ∈ ops, op.keepsCompletion) :
    ∀ t ∈ (run emptyStore ops).tasks, (t.completedAt.isSome = true ↔ t.completed = true) :=
  run_consistent ops emptyStore (fun t ht => by simp [emptyStore] at ht) hops

/-! ## Instances on the sample stores -/

theorem toggleTask_spawns_recurrence_witness :
    FixedOffset sampleEnv ∧
    ∃ (clone : Task) (d' : Int),
      (toggleTask sampleEnv sampleTask.id sampleStore).2.tasks =
        clone :: ([plainTask] ++
          { sampleTask with completed := true, completedAt := some sampleEnv.now } :: []) ∧
      clone.completed = false ∧
      (∀ t ∈ sampleStore.tasks, t.id ≠ clone.id) ∧
      clone.dueDate = some d' ∧
      d' = 1706659200000 + 31 * msPerDay :=
  have hfix : FixedOffset sampleEnv := ⟨3600000, fun _ _ => rfl⟩
  have h := toggleTask_spawns_recurrence sampleEnv sampleStore [plainTask] [] sampleTask
    1706659200000 (by decide) (by decide) (by decide) (by decide) (by decide) (by decide)
    (by decide) (by decide) (by decide)
  match h with
  | ⟨clone, l, l', d', h1, h2, _, h4, h5, h6, h7, _, _, _, _, _, h13⟩ =>
    ⟨hfix, clone, d', h4, h5, h6, h7,
      (h13 hfix).1.trans (by rw [h2, h1]; decide)⟩

/-- C1 as stated fails.  In the store left by importing `sampleTask` into the empty
store the counter is 1, and the record spawned by toggling task 1 gets the
identifier 1 again.  In `lateStore` the task is due at the last time value; the
call ends with the `RangeError` of `toISOString()` and no record is added. -/
theorem toggleTask_spawn_counterexample :
    (importedStore.tasks.map
        (fun t => (t.id, t.completed, t.recurring, t.recurrencePattern, t.dueDate)) =
        [(1, false, true, "monthly", some 1706659200000)] ∧
      (toggleTask sampleEnv 1 importedStore).2.tasks.map (fun t => (t.id, t.completed)) =
        [(1, false), (1, true)]) ∧
    (lateStore.tasks.map
        (fun t => (t.id, t.completed, t.recurring, t.recurrencePattern, t.dueDate)) =
        [(1, false, true, "daily", some 8640000000000000)] ∧
      (toggleTask sampleEnv 1 lateStore).1 = .threw .rangeError ∧
      (toggleTask sampleEnv 1 lateStore).2.tasks.map (fun t => (t.id, t.completed)) =
        [(1, true)]) :=
  ⟨⟨by decide, by decide⟩, by decide, by decide, by decide⟩

theorem ids_distinct_of_reachable_witness :
    (∀ op ∈ sampleOps, op.keepsId) ∧ (run emptyStore sampleOps).nextId = 6 ∧
      ((run emptyStore sampleOps).tasks.map (fun t => t.id)).Nodup ∧
      ∀ t ∈ (run emptyStore sampleOps).tasks, t.id < (run emptyStore sampleOps).nextId :=
  ⟨by decide, by decide, ids_distinct_of_reachable sampleOps (by decide) (by decide)⟩

/-- C3 as stated fails: a patch that carries `id` gives two tasks the identifier 2.
It also fails without such a patch once the counter has reached `2^53`: after
`2^53 - 1` calls of `addTask` from the empty store, the next two calls both take the
identifier 9007199254740992. -/
theorem ids_distinct_counterexample :
    (run emptyStore idPatchOps).tasks.map (fun t => t.id) = [2, 2] ∧
    ¬ ((run emptyStore idPatchOps).tasks.map (fun t => t.id)).Nodup ∧
    (∀ op ∈ List.replicate 9007199254740991 (Op.create sampleEnv (titleOnly "Buy milk")) ++
        [.create sampleEnv (titleOnly "Buy milk"), .create sampleEnv (titleOnly "Buy milk")],
      op.keepsId) ∧
    ¬ ((run emptyStore
        (List.replicate 9007199254740991 (Op.create sampleEnv (titleOnly "Buy milk")) ++
          [.create sampleEnv (titleOnly "Buy milk"),
           .create sampleEnv (titleOnly "Buy milk")])).tasks.map (fun t => t.id)).Nodup := by
  refine ⟨by decide, by decide, ?_, ?_⟩
  · intro op hop
    rcases List.mem_append.mp hop with h | h
    · rw [List.eq_of_mem_replicate h]
      trivial
    · simp only [List.mem_cons, List.mem_singleton, List.not_mem_nil, or_false, or_self] at h
      rw [h]
      trivial
  · obtain ⟨r1, r2, rest, ht, h1, h2⟩ :=
      creates_repeat_identifier sampleEnv (titleOnly "Buy milk") (by decide)
    rw [ht]
    intro hnd
    have := (List.nodup_cons.mp hnd).1
    apply this
    simp [h1, h2]

theorem completedAt_iff_completed_of_reachable_witness :
    (∀ op ∈ sampleOps, op.keepsCompletion) ∧
      ∀ t ∈ (run emptyStore sampleOps).tasks,
        (t.completedAt.isSome = true ↔ t.completed = true) :=
  ⟨by decide, completedAt_iff_completed_of_reachable sampleOps (by decide)⟩

/-- C5 as stated fails: a patch that carries `completed = true` alone leaves a
completed task without `completedAt`. -/
theorem completedAt_iff_completed_counterexample :
    (run emptyStore completedPatchOps).tasks.map (fun t => (t.id, t.completed, t.completedAt)) =
        [(1, true, none)] ∧
      ¬ ∀ t ∈ (run emptyStore completedPatchOps).tasks,
          (t.completedAt.isSome = true ↔ t.completed = true) := by
  decide

theorem addTask_identifier_above_issued_witness :
    issued emptyStore sampleOps = [1, 2, 3, 4, 5] ∧
    ¬ blankTitle (titleOnly "Plan the week").title ∧
    ∃ r : Task,
      (addTask sampleEnv (titleOnly "Plan the week") (run emptyStore sampleOps)).2.tasks =
        r :: (run emptyStore sampleOps).tasks ∧
      r.id = 6 ∧ ∀ i ∈ issued emptyStore sampleOps, i < r.id :=
  have h := addTask_identifier_above_issued emptyStore sampleOps sampleEnv
    (titleOnly "Plan the week") (by decide)
  match h.2.2 (by decide) with
  | ⟨r, h1, h2, _, h4⟩ => ⟨by decide, by decide, r, h1, h2.trans (by decide), h4⟩

/-- C4 as stated fails once the counter reaches `2^53`.  `limitStore` is the store
that `loadTasks` builds from a saved list whose only record has the identifier
`2^53 - 1`; the counter is `2^53`, `this.nextId++` leaves it there, and two calls of
`addTask` both take the identifier 9007199254740992. -/
theorem addTask_identifier_counterexample :
    loadTasks sampleEnv
        (.parsed (.array [some { toRaw plainTask with id := 9007199254740991 }])) emptyStore =
      (.returned (), .store limitStore) ∧
    issued limitStore
        [.create sampleEnv (titleOnly "Buy milk"), .create sampleEnv (titleOnly "Pay rent")] =
      [9007199254740992, 9007199254740992] ∧
    (run limitStore
        [.create sampleEnv (titleOnly "Buy milk"),
         .create sampleEnv (titleOnly "Pay rent")]).tasks.map (fun t => (t.id, t.title)) =
      [(9007199254740992, "Pay rent"), (9007199254740992, "Buy milk"),
       (9007199254740991, "Call the bank")] :=
  ⟨by decide, by decide, by decide⟩

theorem toggleTask_twice_restores_witness :
    (∀ t ∈ sampleStore.tasks, HasTagList t) ∧
    (∃ flipped : Task,
      (toggleTask sampleEnv plainTask.id sampleStore).2.tasks = [] ++ flipped :: [sampleTask] ∧
      flipped.completed = !plainTask.completed) ∧
    (∃ restored : Task,
      (toggleTask sampleEnv plainTask.id
          (toggleTask sampleEnv plainTask.id sampleStore).2).2.tasks =
        [] ++ restored :: [sampleTask] ∧
      restored.completed = plainTask.completed ∧
      restored.completedAt.isSome = plainTask.completedAt.isSome ∧
      restored = { plainTask with completedAt := restored.completedAt }) ∧
    (toggleTask sampleEnv plainTask.id
      (toggleTask sampleEnv plainTask.id sampleStore).2).2.nextId = sampleStore.nextId ∧
    (toggleTask sampleEnv plainTask.id sampleStore).1 = .returned true ∧
    (toggleTask sampleEnv plainTask.id (toggleTask sampleEnv plainTask.id sampleStore).2).1 =
      .returned true :=
  match toggleTask_twice_restores sampleEnv sampleEnv sampleStore [] [sampleTask] plainTask
      (by decide) (by decide) (by decide) (by decide) with
  | ⟨h1, h2, h3, h4⟩ => ⟨by decide, h1, h2, h3, (h4 (by decide)).1, (h4 (by decide)).2⟩

/-- C6 as stated fails when an earlier task carries the same identifier.  In
`twinStore` the recurring task 1 is followed by an imported task that does not
recur and carries the identifier 1 too.  `toggleTask(1)` addresses the first of
the two: the first call completes it and spawns a record, the second call makes it
pending again; the list has three tasks and the counter has moved from 2 to 3. -/
theorem toggleTask_twice_counterexample :
    twinStore.tasks.map (fun t => (t.id, t.recurring, t.completed, t.completedAt)) =
      [(1, true, false, none), (1, false, false, none)] ∧
    twinStore.nextId = 2 ∧
    (toggleTask sampleEnv 1 (toggleTask sampleEnv 1 twinStore).2).2.tasks.map
        (fun t => (t.id, t.recurring, t.completed)) =
      [(2, true, false), (1, true, false), (1, false, false)] ∧
    (toggleTask sampleEnv 1 (toggleTask sampleEnv 1 twinStore).2).2.nextId = 3 :=
  ⟨by decide, by decide, by decide, by decide⟩

theorem toggleTask_frame_witness :
    toggleTask sampleEnv 99 sampleStore = (.returned false, sampleStore) ∧
    ∃ pre found post,
      sampleStore.tasks = pre ++ found :: post ∧ (∀ t ∈ pre, t.id ≠ 2) ∧ found.id = 2 ∧
      ∃ flipped : Task,
        flipped =
          { found with completed := !found.completed
                       completedAt :=
                         if found.completed = true then none else some sampleEnv.now } ∧
        ((toggleTask sampleEnv 2 sampleStore).2.tasks = pre ++ flipped :: post ∨
          ∃ clone, (toggleTask sampleEnv 2 sampleStore).2.tasks =
            clone :: (pre ++ flipped :: post)) ∧
        ((toggleTask sampleEnv 2 sampleStore).2.tasks ≠ pre ++ flipped :: post →
          found.completed = false ∧ found.recurring = true) ∧
        (found.completed = true ∨ found.recurring = false →
          ((toggleTask sampleEnv 2 sampleStore).1 = .returned true ∨
            (toggleTask sampleEnv 2 sampleStore).1 = .threw .typeError) ∧
          ((∀ t ∈ sampleStore.tasks, HasTagList t) →
            (toggleTask sampleEnv 2 sampleStore).1 = .returned true) ∧
          (toggleTask sampleEnv 2 sampleStore).2.tasks = pre ++ flipped :: post ∧
          (toggleTask sampleEnv 2 sampleStore).2.tasks.length = sampleStore.tasks.length ∧
          (toggleTask sampleEnv 2 sampleStore).2.tasks.map (fun t => t.id) =
            sampleStore.tasks.map (fun t => t.id) ∧
          (toggleTask sampleEnv 2 sampleStore).2.nextId = sampleStore.nextId) :=
  ⟨(toggleTask_frame sampleEnv 99 sampleStore).1 (by decide),
    (toggleTask_frame sampleEnv 2 sampleStore).2 ⟨plainTask, by decide, rfl⟩⟩

theorem createRecurringTask_spawn_witness :
    ∃ clone : Task,
      (createRecurringTask sampleEnv sampleTask sampleStore).2.tasks =
        clone :: sampleStore.tasks ∧
      (createRecurringTask sampleEnv sampleTask sampleStore).2.nextId =
        plusOne sampleStore.nextId ∧
      (sampleStore.nextId < 9007199254740992 →
        (createRecurringTask sampleEnv sampleTask sampleStore).2.nextId =
          sampleStore.nextId + 1) ∧
      clone.id = sampleStore.nextId ∧
      clone.completed = false ∧ clone.completedAt = none ∧ clone.timeSpent = 0 ∧
      clone.createdAt = sampleEnv.now ∧
      clone.subtasks.map (fun st => st.title) = sampleTask.subtasks.map (fun st => st.title) ∧
      (∀ st ∈ clone.subtasks, st.completed = false) ∧
      clone.title = sampleTask.title ∧ clone.description = sampleTask.description ∧
      clone.priority = sampleTask.priority ∧ clone.category = sampleTask.category ∧
      clone.tags = sampleTask.tags ∧
      clone.estimatedTime = sampleTask.estimatedTime ∧ clone.location = sampleTask.location ∧
      clone.url = sampleTask.url ∧ clone.recurring = sampleTask.recurring ∧
      clone.recurrencePattern = sampleTask.recurrencePattern ∧
      (sampleTask.dueDate = none → clone.dueDate = none) ∧
      (∀ t ∈ sampleStore.tasks,
        t ∈ (createRecurringTask sampleEnv sampleTask sampleStore).2.tasks) :=
  createRecurringTask_spawn sampleEnv sampleTask sampleStore (by decide)

/-- C8 as stated fails at the counter `2^53`: the clone gets the identifier
9007199254740992 and the counter stays 9007199254740992, since
`9007199254740992 + 1` is not a number and rounds back. -/
theorem createRecurringTask_spawn_counterexample :
    limitStore.nextId = 9007199254740992 ∧
    (createRecurringTask sampleEnv sampleTask limitStore).2.tasks.map (fun t => t.id) =
      [9007199254740992, 9007199254740991] ∧
    (createRecurringTask sampleEnv sampleTask limitStore).2.nextId = 9007199254740992 :=
  ⟨by decide, by decide, by decide⟩

/-! ## Lemmas on tags, updates, sorting and the query engine -/

theorem find_none_of_absent (l : List Task) (id : Nat) (h : ∀ t ∈ l, t.id ≠ id) :
    l.find? (fun t => t.id == id) = none := by
  apply List.find?_eq_none.mpr
  intro t ht
  simpa using h t ht

theorem eraseP_of_split (p : Task → Bool) (pre post : List Task) (found : Task)
    (hpre : ∀ t ∈ pre, p t = false) (hp : p found = true) :
    (pre ++ found :: post).eraseP p = pre ++ post := by
  induction pre with
  | nil => simp [List.eraseP, hp]
  | cons a pre ih =>
    have ha : p a = false := hpre a (by simp)
    have ih2 := ih (fun t ht => hpre t (by simp [ht]))
    simp [List.eraseP, ha, ih2]

/-- Result and state of `updateTask` on a task that exists. -/
theorem updateTask_of_split (env : Env) (id : Nat) (updates : TaskPatch) (s : TaskManager)
    (pre post : List Task) (old : Task)
    (hl : s.tasks = pre ++ old :: post) (hpre : ∀ t ∈ pre, t.id ≠ id) (hid : old.id = id) :
    updateTask env id updates s =
      endCall env true
        (saveTasks
          { s with tasks := pre ++ applyPatch (parsePatchTags env updates) old :: post }) := by
  have hsplit := find_of_split (fun t => t.id == id) pre post old
    (fun t ht => by simpa using hpre t ht) (by simp [hid])
  rw [← hl] at hsplit
  simp only [updateTask, hsplit.1, hsplit.2]

theorem updateTask_state_of_split (env : Env) (id : Nat) (updates : TaskPatch)
    (s : TaskManager) (pre post : List Task) (old : Task)
    (hl : s.tasks = pre ++ old :: post) (hpre : ∀ t ∈ pre, t.id ≠ id) (hid : old.id = id) :
    (updateTask env id updates s).2 =
      saveTasks
        { s with tasks := pre ++ applyPatch (parsePatchTags env updates) old :: post } := by
  rw [updateTask_of_split env id updates s pre post old hl hpre hid, endCall_snd]

/-- Membership in a list after one element is replaced. -/
theorem forall_mem_replace (P : Task → Prop) (pre post : List Task) (old new : Task)
    (h : ∀ t ∈ pre ++ old :: post, P t) (hnew : P new) : ∀ t ∈ pre ++ new :: post, P t := by
  intro t ht
  rcases List.mem_append.mp ht with h1 | h1
  · exact h t (List.mem_append_left _ h1)
  · rcases List.mem_cons.mp h1 with rfl | h1
    · exact hnew
    · exact h t (List.mem_append_right _ (List.mem_cons_of_mem _ h1))

theorem parsePatchTags_tags (env : Env) (u : TaskPatch) :
    (parsePatchTags env u).tags =
      match u.tags with
      | none => none
      | some (.list l) => some (.list l)
      | some (.text raw) => if raw = "" then some (.text "") else some (.list (parseTags env raw)) := by
  unfold parsePatchTags
  split
  · rename_i raw h
    rw [h]
    split
    · rename_i h2
      simp [h, h2]
    · rename_i h2
      simp [h2]
  · rename_i h
    cases hu : u.tags with
    | none => rfl
    | some v =>
      cases v with
      | list l => rfl
      | text raw => exact absurd hu (h raw)

theorem parsePatchTags_others (env : Env) (u : TaskPatch) :
    parsePatchTags env u = { u with tags := (parsePatchTags env u).tags } := by
  unfold parsePatchTags
  split
  · split <;> rfl
  · rfl

theorem splitComma_ne_nil (cs : List Char) : splitComma cs ≠ [] := by
  cases cs with
  | nil => simp [splitComma]
  | cons c cs =>
    unfold splitComma
    split
    · simp
    · split <;> simp

theorem splitComma_intercalate (cs : List Char) :
    List.intercalate [','] (splitComma cs) = cs := by
  induction cs with
  | nil => simp [splitComma, List.intercalate]
  | cons c cs ih =>
    unfold splitComma
    by_cases hc : c = ','
    · rw [if_pos hc]
      cases hs : splitComma cs with
      | nil => exact absurd hs (splitComma_ne_nil cs)
      | cons p ps =>
        rw [hs] at ih
        simp only [List.intercalate, List.intersperse, List.flatten] at ih ⊢
        simp [hc, ← ih]
    · rw [if_neg hc]
      cases hs : splitComma cs with
      | nil => exact absurd hs (splitComma_ne_nil cs)
      | cons p ps =>
        rw [hs] at ih
        simp only
        cases ps with
        | nil =>
          simp only [List.intercalate, List.intersperse, List.flatten] at ih ⊢
          simp [← ih]
        | cons q qs =>
          simp only [List.intercalate, List.intersperse, List.flatten] at ih ⊢
          simp [← ih]

theorem splitComma_no_comma (cs : List Char) : ∀ p ∈ splitComma cs, ',' ∉ p := by
  induction cs with
  | nil => simp [splitComma]
  | cons c cs ih =>
    unfold splitComma
    by_cases hc : c = ','
    · rw [if_pos hc]
      intro p hp
      rcases List.mem_cons.mp hp with rfl | hp
      · simp
      · exact ih p hp
    · rw [if_neg hc]
      cases hs : splitComma cs with
      | nil => exact absurd hs (splitComma_ne_nil cs)
      | cons q qs =>
        rw [hs] at ih
        intro p hp
        simp only at hp
        rcases List.mem_cons.mp hp with rfl | hp
        · intro hmem
          rcases List.mem_cons.mp hmem with h | h
          · exact hc h.symm
          · exact ih q (by simp) h
        · exact ih p (by simp [hp])

theorem trimChars_eq_rdropWhile (cs : List Char) :
    trimChars cs = (cs.dropWhile isJsWhitespace).rdropWhile isJsWhitespace := rfl

theorem trimChars_sublist (cs : List Char) : (trimChars cs).Sublist cs := by
  rw [trimChars_eq_rdropWhile]
  exact (List.rdropWhile_prefix isJsWhitespace _).sublist.trans
    (List.dropWhile_suffix isJsWhitespace).sublist

theorem dropWhile_of_prefix_dropWhile (p : Char → Bool) (cs l : List Char)
    (h : l <+: cs.dropWhile p) : l.dropWhile p = l := by
  cases l with
  | nil => rfl
  | cons a l =>
    have hhead := List.head?_dropWhile_not p cs
    obtain ⟨t, ht⟩ := h
    rw [← ht] at hhead
    simp only [List.cons_append, List.head?_cons] at hhead
    simp [List.dropWhile, hhead]

theorem trimChars_idempotent (cs : List Char) : trimChars (trimChars cs) = trimChars cs := by
  rw [trimChars_eq_rdropWhile (trimChars cs)]
  have h1 : (trimChars cs).dropWhile isJsWhitespace = trimChars cs :=
    dropWhile_of_prefix_dropWhile isJsWhitespace cs _
      (by rw [trimChars_eq_rdropWhile]; exact List.rdropWhile_prefix isJsWhitespace _)
  rw [h1, trimChars_eq_rdropWhile, List.rdropWhile_idempotent]

theorem jsTrim_idempotent (s : String) : jsTrim (jsTrim s) = jsTrim s := by
  unfold jsTrim
  simp only
  rw [trimChars_idempotent]

theorem length_pos_iff_ne_empty (p : String) : decide (p.length > 0) = decide (p ≠ "") := by
  have h : p.length > 0 ↔ p ≠ "" := by
    constructor
    · intro h he
      rw [he] at h
      exact absurd h (by decide)
    · intro h
      apply Nat.pos_of_ne_zero
      intro h0
      apply h
      have : p.data = [] := List.length_eq_zero.mp h0
      exact String.ext this
  exact decide_eq_decide.mpr h

theorem toLower_cases (c : Char) :
    c.toLower = c ∨
      (65 ≤ c.toNat ∧ c.toNat ≤ 90 ∧ 97 ≤ c.toLower.toNat ∧ c.toLower.toNat ≤ 122) := by
  unfold Char.toLower
  simp only
  by_cases h : c.toNat ≥ 65 ∧ c.toNat ≤ 90
  · rw [if_pos h]
    right
    obtain ⟨h1, h2⟩ := h
    refine ⟨h1, h2, ?_⟩
    generalize c.toNat = n at h1 h2
    interval_cases n <;> decide
  · rw [if_neg h]
    left
    rfl

theorem toLower_idempotent (c : Char) : c.toLower.toLower = c.toLower := by
  rcases toLower_cases c with h | ⟨_, _, h3, h4⟩
  · rw [h, h]
  · rcases toLower_cases c.toLower with h | ⟨_, h6, _, _⟩
    · exact h
    · omega

theorem toLower_whitespace (c : Char) : isJsWhitespace c.toLower = isJsWhitespace c := by
  rcases toLower_cases c with h | ⟨h1, h2, h3, h4⟩
  · rw [h]
  · have a : isJsWhitespace c.toLower = false := by
      unfold isJsWhitespace
      simp only
      generalize c.toLower.toNat = n at h3 h4
      interval_cases n <;> decide
    have b : isJsWhitespace c = false := by
      unfold isJsWhitespace
      simp only
      generalize c.toNat = n at h1 h2
      interval_cases n <;> decide
    rw [a, b]

theorem toLower_comma (c : Char) (h : c.toLower = ',') : c = ',' := by
  rcases toLower_cases c with h0 | ⟨_, _, h3, h4⟩
  · rw [← h0, h]
  · rw [h] at h3
    exact absurd h3 (by decide)

theorem trimChars_map_toLower (cs : List Char) :
    trimChars (cs.map Char.toLower) = (trimChars cs).map Char.toLower := by
  have hp : (isJsWhitespace ∘ Char.toLower) = isJsWhitespace := by
    funext c
    exact toLower_whitespace c
  unfold trimChars
  rw [List.dropWhile_map, hp, ← List.map_reverse, List.dropWhile_map, hp, ← List.map_reverse]

/-- Lower-casing of the ASCII letters satisfies the laws. -/
theorem sampleEnv_lowerCaseLaws : LowerCaseLaws sampleEnv.toLowerCase := by
  refine ⟨?_, ?_, ?_, ?_⟩
  · intro s hs h
    apply hs
    have hd := congrArg String.data h
    simp only [sampleEnv] at hd
    have : s.data = [] := by simpa using hd
    exact String.ext this
  · intro s hs
    have hd : trimChars s.data = s.data := by
      have := congrArg String.data hs
      simpa [jsTrim] using this
    simp only [sampleEnv, jsTrim]
    rw [trimChars_map_toLower, hd]
  · intro s hs hmem
    simp only [sampleEnv] at hmem
    obtain ⟨c, hc, hcomma⟩ := List.mem_map.mp hmem
    have := toLower_comma c hcomma
    rw [this] at hc
    exact hs hc
  · intro s
    simp only [sampleEnv, List.map_map]
    congr 1
    apply List.map_congr_left
    intro c _
    exact toLower_idempotent c

theorem DueValid.valid {t : Task} (h : DueValid t) (d : Int) (hd : t.dueDate = some d) :
    ValidTime d := by
  unfold DueValid at h
  rw [hd] at h
  exact h

theorem insertSorted_pairwise (cmp : Task → Task → Int) (S : Task → Prop)
    (htot : ∀ a b, S a → S b → cmp a b ≤ 0 ∨ cmp b a ≤ 0)
    (htrans : ∀ a b c, S a → S b → S c → cmp a b ≤ 0 → cmp b c ≤ 0 → cmp a c ≤ 0)
    (a : Task) (l : List Task) (ha : S a) (hl : ∀ x ∈ l, S x)
    (hp : l.Pairwise (fun x y => cmp x y ≤ 0)) :
    (insertSorted cmp a l).Pairwise (fun x y => cmp x y ≤ 0) := by
  induction l with
  | nil => simp [insertSorted]
  | cons b l ih =>
    have hb : S b := hl b (by simp)
    have hl2 : ∀ x ∈ l, S x := fun x hx => hl x (by simp [hx])
    rw [List.pairwise_cons] at hp
    unfold insertSorted
    by_cases hab : cmp a b ≤ 0
    · rw [if_pos hab]
      rw [List.pairwise_cons]
      refine ⟨?_, List.pairwise_cons.mpr hp⟩
      intro x hx
      rcases List.mem_cons.mp hx with rfl | hx
      · exact hab
      · exact htrans a b x ha hb (hl2 x hx) hab (hp.1 x hx)
    · rw [if_neg hab]
      rw [List.pairwise_cons]
      refine ⟨?_, ih hl2 hp.2⟩
      intro x hx
      have hx2 := (insertSorted_perm cmp a l).subset hx
      rcases List.mem_cons.mp hx2 with rfl | hx2
      · rcases htot x b ha hb with h | h
        · exact absurd h hab
        · exact h
      · exact hp.1 x hx2

theorem jsSort_pairwise (cmp : Task → Task → Int) (S : Task → Prop)
    (htot : ∀ a b, S a → S b → cmp a b ≤ 0 ∨ cmp b a ≤ 0)
    (htrans : ∀ a b c, S a → S b → S c → cmp a b ≤ 0 → cmp b c ≤ 0 → cmp a c ≤ 0)
    (l : List Task) (hl : ∀ x ∈ l, S x) :
    (jsSort cmp l).Pairwise (fun x y => cmp x y ≤ 0) := by
  induction l with
  | nil => simp [jsSort]
  | cons b l ih =>
    unfold jsSort
    have hl2 : ∀ x ∈ l, S x := fun x hx => hl x (by simp [hx])
    exact insertSorted_pairwise cmp S htot htrans b (jsSort cmp l) (hl b (by simp))
      (fun x hx => hl2 x ((jsSort_perm cmp l).subset hx)) (ih hl2)

theorem priorityOrder_eq_rank (p : String) (h : p ∈ ["low", "medium", "high", "urgent"]) :
    priorityOrder p = some (priorityRank p) ∧ 1 ≤ priorityRank p ∧ priorityRank p ≤ 4 := by
  simp only [List.mem_cons, List.mem_singleton, List.not_mem_nil, or_false] at h
  rcases h with rfl | rfl | rfl | rfl <;> decide

theorem priorityRank_injective (p q : String) (hp : p ∈ ["low", "medium", "high", "urgent"])
    (hq : q ∈ ["low", "medium", "high", "urgent"]) (h : priorityRank p = priorityRank q) :
    p = q := by
  simp only [List.mem_cons, List.mem_singleton, List.not_mem_nil, or_false] at hp hq
  rcases hp with rfl | rfl | rfl | rfl <;> rcases hq with rfl | rfl | rfl | rfl <;>
    first | rfl | exact absurd h (by decide)

theorem dateDiff_of_valid (x y : Int) (hx : ValidTime x) (hy : ValidTime y) :
    dateDiff x y = some (x - y) := by
  unfold dateDiff dateOfIso
  rw [timeClip_of_range x hx.1 hx.2, timeClip_of_range y hy.1 hy.2]

/-- The comparator on tasks with valid priorities and dates. -/
theorem sortCompare_of_sortable (a b : Task) (ha : Sortable a) (hb : Sortable b) :
    sortCompare a b =
      if a.completed ≠ b.completed then boolNum a.completed - boolNum b.completed
      else if priorityRank a.priority ≠ priorityRank b.priority then
        priorityRank b.priority - priorityRank a.priority
      else
        match a.dueDate, b.dueDate with
        | some da, some db => da - db
        | some _, none => -1
        | none, some _ => 1
        | none, none => b.createdAt - a.createdAt := by
  have hpa := priorityOrder_eq_rank a.priority ha.1
  have hpb := priorityOrder_eq_rank b.priority hb.1
  unfold sortCompare compareTasks
  by_cases hc : a.completed ≠ b.completed
  · rw [if_pos hc, if_pos hc]
    rfl
  · rw [if_neg hc, if_neg hc, hpa.1, hpb.1]
    by_cases hr : priorityRank a.priority ≠ priorityRank b.priority
    · have : (some (priorityRank a.priority) : Option Int) ≠ some (priorityRank b.priority) :=
        fun h => hr (Option.some.inj h)
      rw [if_pos this, if_pos hr]
      rfl
    · have : ¬ ((some (priorityRank a.priority) : Option Int) ≠ some (priorityRank b.priority)) := by
        intro h
        apply h
        rw [not_not.mp hr]
      rw [if_neg this, if_neg hr]
      cases hda : a.dueDate with
      | none =>
        cases hdb : b.dueDate with
        | none =>
          simp only
          rw [dateDiff_of_valid _ _ hb.2.1 ha.2.1]
          rfl
        | some db => rfl
      | some da =>
        cases hdb : b.dueDate with
        | none => rfl
        | some db =>
          simp only
          rw [dateDiff_of_valid _ _ (ha.2.2.valid da hda) (hb.2.2.valid db hdb)]
          rfl

theorem boolNum_cases (b : Bool) : (b = false ∧ boolNum b = 0) ∨ (b = true ∧ boolNum b = 1) := by
  cases b
  · exact Or.inl ⟨rfl, rfl⟩
  · exact Or.inr ⟨rfl, rfl⟩

theorem sortCompare_total (a b : Task) (ha : Sortable a) (hb : Sortable b) :
    sortCompare a b ≤ 0 ∨ sortCompare b a ≤ 0 := by
  rw [sortCompare_of_sortable a b ha hb, sortCompare_of_sortable b a hb ha]
  cases hca : a.completed <;> cases hcb : b.completed <;>
    cases hda : a.dueDate <;> cases hdb : b.dueDate <;>
    simp only [boolNum, ne_eq, not_true_eq_false, not_false_eq_true, if_true, if_false,
      Bool.false_eq_true, Bool.true_eq_false, reduceCtorEq] <;>
    omega

theorem sortCompare_trans (a b c : Task) (ha : Sortable a) (hb : Sortable b) (hc : Sortable c)
    (hab : sortCompare a b ≤ 0) (hbc : sortCompare b c ≤ 0) : sortCompare a c ≤ 0 := by
  rw [sortCompare_of_sortable a b ha hb] at hab
  rw [sortCompare_of_sortable b c hb hc] at hbc
  rw [sortCompare_of_sortable a c ha hc]
  cases hca : a.completed <;> cases hcb : b.completed <;> cases hcc : c.completed <;>
    cases hda : a.dueDate <;> cases hdb : b.dueDate <;> cases hdc : c.dueDate <;>
    simp only [hca, hcb, hcc, hda, hdb, hdc, boolNum, ne_eq, not_true_eq_false,
      not_false_eq_true, if_true, if_false,
      Bool.false_eq_true, Bool.true_eq_false, reduceCtorEq] at hab hbc ⊢ <;>
    omega

/-- What the comparator says about two sortable tasks that it puts in order. -/
theorem order_of_sortCompare (a b : Task) (ha : Sortable a) (hb : Sortable b)
    (h : sortCompare a b ≤ 0) :
    ¬ (a.completed = true ∧ b.completed = false) ∧
    (a.completed = b.completed →
      priorityRank b.priority ≤ priorityRank a.priority ∧
      (a.priority = b.priority →
        ¬ (a.dueDate = none ∧ b.dueDate ≠ none) ∧
        (∀ da db, a.dueDate = some da → b.dueDate = some db → da ≤ db) ∧
        (a.dueDate = none → b.dueDate = none → b.createdAt ≤ a.createdAt))) := by
  rw [sortCompare_of_sortable a b ha hb] at h
  refine ⟨?_, ?_⟩
  · intro ⟨h1, h2⟩
    simp [h1, h2, boolNum] at h
  · intro hc
    rw [if_neg (by simp [hc])] at h
    refine ⟨?_, ?_⟩
    · by_cases hr : priorityRank a.priority ≠ priorityRank b.priority
      · rw [if_pos hr] at h
        omega
      · omega
    · intro hp
      rw [if_neg (by simp [hp])] at h
      refine ⟨?_, ?_, ?_⟩
      · intro ⟨h1, h2⟩
        cases hdb : b.dueDate with
        | none => exact h2 hdb
        | some db =>
          rw [h1, hdb] at h
          simp at h
      · intro da db h1 h2
        rw [h1, h2] at h
        simp only at h
        omega
      · intro h1 h2
        rw [h1, h2] at h
        simp only at h
        omega

theorem todayStart_eq (env : Env) (hfix : FixedOffset env) (h : ClockInRange env) :
    todayStart env = some (localMidnight env) ∧
      todayEnd env = some (localMidnight env + msPerDay) := by
  obtain ⟨hy, h2, h3⟩ := h
  obtain ⟨z, hz⟩ := hfix
  unfold getFullYear at hy
  have hf := makeDay_fields (localTime env env.now)
  have htod := timeWithinDay_range (localTime env env.now)
  have hms : msPerDay = 86400000 := rfl
  have hstart : todayStart env = some (localMidnight env) := by
    unfold todayStart dateOfFields getFullYear getMonth getDate
    simp only
    rw [if_neg (by omega), hf]
    have : utc env (makeDate (day (localTime env env.now)) 0) = localMidnight env := by
      unfold utc makeDate localMidnight day timeWithinDay localTime msPerDay
      simp only [hz]
      omega
    rw [this]
    apply timeClip_of_range
    · unfold localMidnight; omega
    · unfold localMidnight; omega
  refine ⟨hstart, ?_⟩
  unfold todayEnd
  rw [hstart]
  simp only
  have : (24 : Int) * 60 * 60 * 1000 = msPerDay := by decide
  rw [this]
  apply timeClip_of_range
  · unfold localMidnight; omega
  · unfold localMidnight; omega

/-- With a fixed offset, the due dates of the current local calendar day are those
from the local midnight of the day up to, not including, the next one. -/
theorem same_local_day_iff (env : Env) (hfix : FixedOffset env) (due : Int) :
    day (localTime env due) = day (localTime env env.now) ↔
      localMidnight env ≤ due ∧ due < localMidnight env + msPerDay := by
  obtain ⟨z, hz⟩ := hfix
  unfold localMidnight day timeWithinDay localTime msPerDay
  simp only [hz]
  omega

theorem keepsFilter_all (env : Env) (t : Task) : keepsFilter env "all" t = true := by
  unfold keepsFilter
  simp

theorem dateLt_of_valid (x y : Int) (hx : ValidTime x) :
    dateLt (dateOfIso x) (some y) = decide (x < y) := by
  unfold dateOfIso
  rw [timeClip_of_range x hx.1 hx.2]
  rfl

theorem dateGe_of_valid (x y : Int) (hx : ValidTime x) :
    dateGe (dateOfIso x) (some y) = decide (y ≤ x) := by
  unfold dateOfIso
  rw [timeClip_of_range x hx.1 hx.2]
  rfl

theorem keepsFilter_eq_selectorHolds (env : Env) (selector : String)
    (hsel : selector ∈ ["all", "pending", "completed", "high", "urgent"]) (t : Task) :
    keepsFilter env selector t = selectorHolds env selector t := by
  simp only [List.mem_cons, List.mem_singleton, List.not_mem_nil, or_false] at hsel
  rcases hsel with rfl | rfl | rfl | rfl | rfl
  · simp [keepsFilter, selectorHolds]
  · cases hc : t.completed <;> simp [keepsFilter, selectorHolds, hc]
  · cases hc : t.completed <;> simp [keepsFilter, selectorHolds, hc]
  · simp [keepsFilter, selectorHolds]
  · simp [keepsFilter, selectorHolds]

theorem keepsFilter_overdue (env : Env) (t : Task) (hdue : DueValid t) :
    keepsFilter env "overdue" t = selectorHolds env "overdue" t := by
  simp only [keepsFilter, selectorHolds]
  simp only [String.reduceEq, if_false, if_true]
  cases hd : t.dueDate with
  | none => rfl
  | some due =>
    simp only
    rw [dateLt_of_valid due env.now (hdue.valid due hd)]
    cases hc : t.completed <;> simp

theorem keepsFilter_today (env : Env) (hfix : FixedOffset env) (hclock : ClockInRange env)
    (t : Task) (hdue : DueValid t) :
    keepsFilter env "today" t = selectorHolds env "today" t := by
  have htoday := todayStart_eq env hfix hclock
  simp only [keepsFilter, selectorHolds]
  simp only [String.reduceEq, if_false, if_true]
  cases hd : t.dueDate with
  | none => rfl
  | some due =>
    simp only
    rw [htoday.1, htoday.2, dateLt_of_valid due _ (hdue.valid due hd),
      dateGe_of_valid due _ (hdue.valid due hd)]
    have hiff := same_local_day_iff env hfix due
    cases hc : t.completed
    · by_cases hday : day (localTime env due) = day (localTime env env.now)
      · have := hiff.mp hday
        simp [hday, this.1, this.2]
      · have hn : ¬ (localMidnight env ≤ due ∧ due < localMidnight env + msPerDay) :=
          fun h => hday (hiff.mpr h)
        simp only [hday, and_false, decide_False]
        by_cases h1 : localMidnight env ≤ due
        · have h2 : ¬ due < localMidnight env + msPerDay := fun h => hn ⟨h1, h⟩
          simp [h1, h2]
        · simp [h1]
    · simp

theorem localMidnight_spec (env : Env) (hfix : FixedOffset env) :
    timeWithinDay (localTime env (localMidnight env)) = 0 ∧ localMidnight env ≤ env.now ∧
      env.now < localMidnight env + msPerDay := by
  obtain ⟨z, hz⟩ := hfix
  unfold localMidnight localTime timeWithinDay msPerDay
  simp only [hz]
  omega

theorem searchKeeps_iff (env : Env) (searchQuery : String) (t : Task)
    (ht : TagsLowerCase env t) :
    searchKeeps env (env.toLowerCase searchQuery) t = true ↔
      (containsIgnoringCase env t.title searchQuery = true ∨
        containsIgnoringCase env t.description searchQuery = true ∨
        containsIgnoringCase env t.category searchQuery = true ∨
        ∃ tags tag, t.tags = .list tags ∧ tag ∈ tags ∧
          containsIgnoringCase env tag searchQuery = true) := by
  unfold TagsLowerCase at ht
  cases htags : t.tags with
  | text raw => rw [htags] at ht; exact absurd ht id
  | list tags =>
    rw [htags] at ht
    simp only at ht
    unfold searchKeeps matchesSearch containsIgnoringCase
    rw [htags]
    by_cases h1 : jsIncludes (env.toLowerCase t.title) (env.toLowerCase searchQuery) = true
    · simp [h1]
    · by_cases h2 : jsIncludes (env.toLowerCase t.description) (env.toLowerCase searchQuery) = true
      · simp [h1, h2]
      · simp only [h1, h2, if_false, Bool.false_eq_true, false_or, Bool.or_eq_true,
          List.any_eq_true]
        constructor
        · intro h
          rcases h with ⟨tag, htag, hinc⟩ | h
          · right
            refine ⟨tags, tag, rfl, htag, ?_⟩
            rw [ht tag htag]
            exact hinc
          · left
            exact h
        · intro h
          rcases h with h | ⟨tags2, tag, heq, htag, hinc⟩
          · right
            exact h
          · left
            injection heq with heq
            subst heq
            refine ⟨tag, htag, ?_⟩
            rw [ht tag htag] at hinc
            exact hinc

/-- Creation order without due dates. -/
theorem getFilteredTasks_created_order_without_due (env : Env)
    (currentFilter searchQuery : String) (s : TaskManager)
    (hvalid : ∀ t ∈ s.tasks, Sortable t) (out : List Task)
    (hout : (getFilteredTasks env currentFilter searchQuery s).1 = .returned out) :
    out.Pairwise (fun a b =>
      a.completed = b.completed → a.priority = b.priority → a.dueDate = none →
        b.dueDate = none → b.createdAt ≤ a.createdAt) := by
  obtain ⟨filtered, hsub, rfl⟩ := getFilteredTasks_returned env currentFilter searchQuery s out hout
  have hS : ∀ x ∈ filtered, Sortable x := fun x hx => hvalid x (hsub.subset hx)
  have hpw := jsSort_pairwise sortCompare Sortable sortCompare_total sortCompare_trans
    filtered hS
  have hmem : ∀ x ∈ jsSort sortCompare filtered, Sortable x :=
    fun x hx => hS x ((jsSort_perm sortCompare filtered).subset hx)
  refine ((List.Pairwise.and_mem.mp hpw).imp ?_)
  intro a b ⟨ha, hb, hab⟩ hc hp h1 h2
  exact ((order_of_sortCompare a b (hmem a ha) (hmem b hb) hab).2 hc).2 hp |>.2.2 h1 h2

/-! ## Tags, updates, deletions and the query engine -/

/-- C11: `parseTags(s)` is the list obtained by splitting `s` on commas, trimming
each piece, dropping the pieces that are empty after trimming and lower-casing the
rest, in order and with duplicates kept; the pieces of the split, joined by commas,
give back `s`, and none holds a comma.  When `toLowerCase` keeps a string
non-empty, trimmed and free of commas and is idempotent, every tag of the result is
non-empty, has no leading or trailing white space, holds no comma and is lower
case.  The text ` Work, URGENT ,, home ` gives the lower-cased `Work`, `URGENT` and
`home`. -/
theorem parseTags_pipeline (env : Env) (s : String) :
    parseTags env s =
      (((jsSplitComma s).map jsTrim).filter (fun piece => decide (piece ≠ ""))).map
        env.toLowerCase ∧
    (List.intercalate [','] ((jsSplitComma s).map String.data) = s.data ∧
      ∀ piece ∈ jsSplitComma s, ',' ∉ piece.data) ∧
    (LowerCaseLaws env.toLowerCase →
      ∀ tag ∈ parseTags env s,
        tag ≠ "" ∧ jsTrim tag = tag ∧ ',' ∉ tag.data ∧ env.toLowerCase tag = tag) ∧
    parseTags env " Work, URGENT ,, home " =
      [env.toLowerCase "Work", env.toLowerCase "URGENT", env.toLowerCase "home"] := by
  have hfilter : ((jsSplitComma s).map jsTrim).filter (fun tag => decide (tag.length > 0)) =
      ((jsSplitComma s).map jsTrim).filter (fun piece => decide (piece ≠ "")) := by
    apply List.filter_congr
    intro p _
    exact length_pos_iff_ne_empty p
  have hpipe : parseTags env s =
      (((jsSplitComma s).map jsTrim).filter (fun piece => decide (piece ≠ ""))).map
        env.toLowerCase := by
    unfold parseTags
    by_cases he : s = ""
    · rw [if_pos he, he]
      rfl
    · rw [if_neg he, hfilter]
  refine ⟨hpipe, ⟨?_, ?_⟩, ?_, rfl⟩
  · unfold jsSplitComma
    rw [List.map_map]
    have : (String.data ∘ String.mk) = id := by funext l; rfl
    rw [this, List.map_id]
    exact splitComma_intercalate s.data
  · intro piece hp
    unfold jsSplitComma at hp
    obtain ⟨cs, hcs, rfl⟩ := List.mem_map.mp hp
    exact splitComma_no_comma s.data cs hcs
  · intro laws tag htag
    rw [hpipe] at htag
    obtain ⟨p, hp, rfl⟩ := List.mem_map.mp htag
    rw [List.mem_filter] at hp
    obtain ⟨hp1, hp2⟩ := hp
    have hne : p ≠ "" := by simpa using hp2
    obtain ⟨piece, hpiece, rfl⟩ := List.mem_map.mp hp1
    unfold jsSplitComma at hpiece
    obtain ⟨cs, hcs, rfl⟩ := List.mem_map.mp hpiece
    refine ⟨laws.nonempty _ hne, laws.trimmed _ (jsTrim_idempotent _), ?_, laws.idempotent _⟩
    apply laws.noComma
    intro hmem
    exact splitComma_no_comma s.data cs hcs ((trimChars_sublist cs).subset hmem)

/-- C12 (amended): when no task has the identifier, `updateTask` returns `false` and
leaves the store as it is.  Otherwise the first task carrying the identifier is
replaced, at its position, by the old record in which every property that the patch
carries has the value of the patch and every other property is unchanged, where
tags carried as raw text are stored as `parseTags` of the text; the rest of the
list, its length and the counter are unchanged.  The call returns `true` unless
`updateUI` throws its `TypeError`, which it does not when every task holds its tags
as a list.  The patch does not carry the empty text as tags (that case is C13). -/
theorem updateTask_frame (env : Env) (id : Nat) (updates : TaskPatch) (s : TaskManager)
    (htags : updates.tags ≠ some (.text "")) :
    ((∀ t ∈ s.tasks, t.id ≠ id) → updateTask env id updates s = (.returned false, s)) ∧
    ((∃ t ∈ s.tasks, t.id = id) →
      ∃ pre old post,
        s.tasks = pre ++ old :: post ∧ (∀ t ∈ pre, t.id ≠ id) ∧ old.id = id ∧
        ((updateTask env id updates s).1 = .returned true ∨
          (updateTask env id updates s).1 = .threw .typeError) ∧
        ((∀ t ∈ s.tasks, HasTagList t) → (updateTask env id updates s).1 = .returned true) ∧
        (updateTask env id updates s).2.nextId = s.nextId ∧
        (updateTask env id updates s).2.tasks.length = s.tasks.length ∧
        ∃ new : Task,
          (updateTask env id updates s).2.tasks = pre ++ new :: post ∧
          new.id = updates.id.getD old.id ∧
          new.title = updates.title.getD old.title ∧
          new.description = updates.description.getD old.description ∧
          new.priority = updates.priority.getD old.priority ∧
          new.category = updates.category.getD old.category ∧
          new.completed = updates.completed.getD old.completed ∧
          new.createdAt = updates.createdAt.getD old.createdAt ∧
          new.completedAt = updates.completedAt.getD old.completedAt ∧
          new.dueDate = updates.dueDate.getD old.dueDate ∧
          new.estimatedTime = updates.estimatedTime.getD old.estimatedTime ∧
          new.subtasks = updates.subtasks.getD old.subtasks ∧
          new.location = updates.location.getD old.location ∧
          new.url = updates.url.getD old.url ∧
          new.recurring = updates.recurring.getD old.recurring ∧
          new.recurrencePattern = updates.recurrencePattern.getD old.recurrencePattern ∧
          new.timeSpent = updates.timeSpent.getD old.timeSpent ∧
          new.tags =
            (match updates.tags with
             | none => old.tags
             | some (.list l) => .list l
             | some (.text raw) => .list (parseTags env raw))) := by
  constructor
  · intro h
    simp [updateTask, find_none_of_absent s.tasks id h]
  · intro h
    obtain ⟨found, hfind⟩ := find_of_exists s.tasks id h
    obtain ⟨pre, post, hl, hpre, hp, _⟩ := find_some_split _ _ _ hfind
    have hid : found.id = id := by simpa using hp
    have hpre2 : ∀ t ∈ pre, t.id ≠ id := fun t ht => by simpa using hpre t ht
    have hcall := updateTask_of_split env id updates s pre post found hl hpre2 hid
    have hres := updateTask_state_of_split env id updates s pre post found hl hpre2 hid
    have hothers := parsePatchTags_others env updates
    have hpt := parsePatchTags_tags env updates
    have hnewtags : (applyPatch (parsePatchTags env updates) found).tags =
        (match updates.tags with
         | none => found.tags
         | some (.list l) => .list l
         | some (.text raw) => .list (parseTags env raw)) := by
      simp only [applyPatch]
      rw [hpt]
      cases hu : updates.tags with
      | none => rfl
      | some v =>
        cases v with
        | list l => rfl
        | text raw =>
          have hraw : raw ≠ "" := by
            intro he
            rw [hu, he] at htags
            exact htags rfl
          simp only [if_neg hraw, Option.getD_some]
    have hout := endCall_outcome env true
      (saveTasks
        { s with tasks := pre ++ applyPatch (parsePatchTags env updates) found :: post })
    rw [← hcall] at hout
    refine ⟨pre, found, post, hl, hpre2, hid, hout.1, ?_, ?_, ?_,
      applyPatch (parsePatchTags env updates) found, ?_, ?_⟩
    · intro hlists
      apply hout.2.2
      rw [hl] at hlists
      refine forall_mem_replace HasTagList pre post found _ hlists ?_
      have hf := hlists found (List.mem_append_right _ (List.mem_cons_self _ _))
      unfold HasTagList at hf ⊢
      rw [hnewtags]
      cases hu : updates.tags with
      | none => exact hf
      | some v =>
        cases v with
        | list l => trivial
        | text raw => trivial
    · rw [hres]; rfl
    · rw [hres, hl]; simp [saveTasks]
    · rw [hres]; rfl
    · rw [hothers]
      refine ⟨rfl, rfl, rfl, rfl, rfl, rfl, rfl, rfl, rfl, rfl, rfl, rfl, rfl, rfl, rfl, rfl, ?_⟩
      rw [← hothers]
      exact hnewtags

/-- C13 (the claim fails for the empty text): after `updateTask` with a patch that
carries `tags` as raw text, the stored tags are `parseTags` of the text when the
text is not empty, but the empty text is stored as it is, a string and not the
empty list that `parseTags` gives. -/
theorem updateTask_tags_text (env : Env) (id : Nat) (updates : TaskPatch) (s : TaskManager)
    (raw : String) (pre post : List Task) (old : Task)
    (hl : s.tasks = pre ++ old :: post) (hpre : ∀ t ∈ pre, t.id ≠ id) (hid : old.id = id)
    (htags : updates.tags = some (.text raw)) :
    ∃ new : Task,
      (updateTask env id updates s).2.tasks = pre ++ new :: post ∧
      (raw ≠ "" → new.tags = .list (parseTags env raw)) ∧
      (raw = "" → new.tags = .text "" ∧ new.tags ≠ .list (parseTags env raw)) := by
  have hres := updateTask_state_of_split env id updates s pre post old hl hpre hid
  have ht := parsePatchTags_tags env updates
  rw [htags] at ht
  simp only at ht
  refine ⟨applyPatch (parsePatchTags env updates) old, ?_, ?_, ?_⟩
  · rw [hres]; rfl
  · intro hne
    simp only [applyPatch]
    rw [ht, if_neg hne]
    rfl
  · intro he
    simp only [applyPatch]
    rw [ht, if_pos he]
    exact ⟨rfl, by simp⟩

/-- C14 (amended): for every store and every selection, the list that
`deleteSelectedTasks` leaves is the previous list restricted to the tasks whose
identifier is not selected (each unchanged, in the same order), so selected
identifiers without a task have no effect; the selection is empty afterwards and
the counter is unchanged.  The call returns normally unless `updateUI` throws its
`TypeError`, which it does not when every task holds its tags as a list. -/
theorem deleteSelectedTasks_removes_selected (env : Env) (s : TaskManager) :
    ((deleteSelectedTasks env s).1 = .returned () ∨
      (deleteSelectedTasks env s).1 = .threw .typeError) ∧
    ((∀ t ∈ s.tasks, HasTagList t) → (deleteSelectedTasks env s).1 = .returned ()) ∧
    (deleteSelectedTasks env s).2.tasks =
      s.tasks.filter (fun t => decide (t.id ∉ s.selectedTasks)) ∧
    (∀ t, t ∈ (deleteSelectedTasks env s).2.tasks ↔ t ∈ s.tasks ∧ t.id ∉ s.selectedTasks) ∧
    (deleteSelectedTasks env s).2.selectedTasks = [] ∧
    (deleteSelectedTasks env s).2.nextId = s.nextId := by
  have hfilter : s.tasks.filter (fun task => !(s.selectedTasks.contains task.id)) =
      s.tasks.filter (fun t => decide (t.id ∉ s.selectedTasks)) := by
    apply List.filter_congr
    intro t _
    simp
  have hmain : ((deleteSelectedTasks env s).1 = .returned () ∨
        (deleteSelectedTasks env s).1 = .threw .typeError) ∧
      ((∀ t ∈ s.tasks, HasTagList t) → (deleteSelectedTasks env s).1 = .returned ()) ∧
      (deleteSelectedTasks env s).2.tasks =
        s.tasks.filter (fun t => decide (t.id ∉ s.selectedTasks)) ∧
      (deleteSelectedTasks env s).2.selectedTasks = [] ∧
      (deleteSelectedTasks env s).2.nextId = s.nextId := by
    unfold deleteSelectedTasks
    by_cases h : s.selectedTasks.length = 0
    · rw [if_pos h]
      have hnil : s.selectedTasks = [] := List.length_eq_zero.mp h
      refine ⟨Or.inl rfl, fun _ => rfl, ?_, hnil, rfl⟩
      rw [hnil]
      simp
    · rw [if_neg h]
      have hout := endCall_outcome env ()
        (saveTasks
          { s with tasks := s.tasks.filter (fun task => !(s.selectedTasks.contains task.id))
                   selectedTasks := [] })
      refine ⟨hout.1, fun hlists => hout.2.2 ?_, ?_, ?_, ?_⟩
      · intro t ht
        exact hlists t ((List.filter_sublist _).subset ht)
      · rw [endCall_snd]
        exact hfilter
      · rw [endCall_snd]
        rfl
      · rw [endCall_snd]
        rfl
  refine ⟨hmain.1, hmain.2.1, hmain.2.2.1, ?_, hmain.2.2.2.1, hmain.2.2.2.2⟩
  intro t
  rw [hmain.2.2.1]
  simp [List.mem_filter]

/-- C15 (amended): when no task has the identifier, `deleteTask` returns `false` and
leaves the store as it is.  Otherwise it removes the first task carrying the
identifier: the list is one shorter, all other tasks are unchanged and in the same
order, the identifier leaves the selection (the other selected identifiers stay),
the counter is unchanged, and when the identifiers of the store are pairwise
distinct no task with that identifier remains.  The call returns `true` unless
`updateUI` throws its `TypeError`, which it does not when every task holds its tags
as a list. -/
theorem deleteTask_removes_one (env : Env) (id : Nat) (s : TaskManager) :
    ((∀ t ∈ s.tasks, t.id ≠ id) → deleteTask env id s = (.returned false, s)) ∧
    ((∃ t ∈ s.tasks, t.id = id) →
      ∃ pre gone post,
        s.tasks = pre ++ gone :: post ∧ (∀ t ∈ pre, t.id ≠ id) ∧ gone.id = id ∧
        ((deleteTask env id s).1 = .returned true ∨
          (deleteTask env id s).1 = .threw .typeError) ∧
        ((∀ t ∈ s.tasks, HasTagList t) → (deleteTask env id s).1 = .returned true) ∧
        (deleteTask env id s).2.tasks = pre ++ post ∧
        (deleteTask env id s).2.tasks.length + 1 = s.tasks.length ∧
        (∀ i, i ∈ (deleteTask env id s).2.selectedTasks ↔ i ∈ s.selectedTasks ∧ i ≠ id) ∧
        (deleteTask env id s).2.nextId = s.nextId ∧
        ((s.tasks.map (fun t => t.id)).Nodup →
          ∀ t ∈ (deleteTask env id s).2.tasks, t.id ≠ id)) := by
  constructor
  · intro h
    simp [deleteTask, find_none_of_absent s.tasks id h]
  · intro h
    obtain ⟨found, hfind⟩ := find_of_exists s.tasks id h
    obtain ⟨pre, post, hl, hpre, hp, _⟩ := find_some_split _ _ _ hfind
    have hid : found.id = id := by simpa using hp
    have herase := eraseP_of_split (fun t => t.id == id) pre post found hpre hp
    rw [← hl] at herase
    have hcall : deleteTask env id s =
        endCall env true
          (saveTasks
            { s with tasks := pre ++ post
                     selectedTasks := s.selectedTasks.filter (fun i => i != id) }) := by
      simp only [deleteTask, hfind, herase]
    have hres : (deleteTask env id s).2 =
        saveTasks
          { s with tasks := pre ++ post
                   selectedTasks := s.selectedTasks.filter (fun i => i != id) } := by
      rw [hcall, endCall_snd]
    have hout := endCall_outcome env true
      (saveTasks
        { s with tasks := pre ++ post
                 selectedTasks := s.selectedTasks.filter (fun i => i != id) })
    rw [← hcall] at hout
    refine ⟨pre, found, post, hl, fun t ht => by simpa using hpre t ht, hid, hout.1, ?_, ?_,
      ?_, ?_, ?_, ?_⟩
    · intro hlists
      apply hout.2.2
      intro t ht
      apply hlists t
      rw [hl]
      rcases List.mem_append.mp ht with h1 | h1
      · exact List.mem_append_left _ h1
      · exact List.mem_append_right _ (List.mem_cons_of_mem _ h1)
    · rw [hres]; rfl
    · rw [hres, hl]; simp [saveTasks]; omega
    · intro i
      rw [hres]
      simp [saveTasks, List.mem_filter]
    · rw [hres]; rfl
    · intro hnd t ht
      rw [hres] at ht
      simp only [saveTasks] at ht
      rw [hl] at hnd
      simp only [List.map_append, List.map_cons] at hnd
      have hnd2 := List.nodup_middle.mp hnd
      rw [List.nodup_cons] at hnd2
      intro hc
      apply hnd2.1
      rw [← List.map_append, hid, ← hc]
      exact List.mem_map_of_mem (fun t => t.id) ht

/-- C16: after `clearCompletedTasks` the list is the previous list restricted to the
tasks with `completed = false`, each unchanged and in the same order: a task is in
the new list exactly when it was in the old one and is not completed.  The call
returns normally unless `updateUI` throws its `TypeError`, which it does not when
every task holds its tags as a list. -/
theorem clearCompletedTasks_keeps_pending (env : Env) (s : TaskManager) :
    (clearCompletedTasks env s).2.tasks = s.tasks.filter (fun t => !t.completed) ∧
    (∀ t, t ∈ (clearCompletedTasks env s).2.tasks ↔ t ∈ s.tasks ∧ t.completed = false) ∧
    (clearCompletedTasks env s).2.nextId = s.nextId ∧
    ((clearCompletedTasks env s).1 = .returned () ∨
      (clearCompletedTasks env s).1 = .threw .typeError) ∧
    ((∀ t ∈ s.tasks, HasTagList t) → (clearCompletedTasks env s).1 = .returned ()) := by
  have hmain : (clearCompletedTasks env s).2.tasks = s.tasks.filter (fun t => !t.completed) ∧
      (clearCompletedTasks env s).2.nextId = s.nextId ∧
      ((clearCompletedTasks env s).1 = .returned () ∨
        (clearCompletedTasks env s).1 = .threw .typeError) ∧
      ((∀ t ∈ s.tasks, HasTagList t) → (clearCompletedTasks env s).1 = .returned ()) := by
    unfold clearCompletedTasks
    by_cases h : (s.tasks.filter (fun t => t.completed)).length = 0
    · rw [if_pos h]
      refine ⟨?_, rfl, Or.inl rfl, fun _ => rfl⟩
      have hnil := List.length_eq_zero.mp h
      rw [List.filter_eq_nil_iff] at hnil
      symm
      apply List.filter_eq_self.mpr
      intro t ht
      have := hnil t ht
      simpa using this
    · rw [if_neg h]
      have hout := endCall_outcome env ()
        (saveTasks
          { s with tasks := s.tasks.filter (fun task => !task.completed)
                   selectedTasks := [] })
      refine ⟨?_, ?_, hout.1, fun hlists => hout.2.2 ?_⟩
      · rw [endCall_snd]
        rfl
      · rw [endCall_snd]
        rfl
      · intro t ht
        exact hlists t ((List.filter_sublist _).subset ht)
  refine ⟨hmain.1, ?_, hmain.2.1, hmain.2.2.1, hmain.2.2.2⟩
  intro t
  rw [hmain.1]
  simp [List.mem_filter]

/-- C17 (amended): with selector `all` and an empty search text the output is a
rearrangement of the whole list.  With a non-empty search text, and every task
holding its tags as a list of lower-case strings, a task is in the output exactly
when it is in the list and the search text, compared without regard to case, is a
substring of its title, of its description, of its category, or of one of its
tags. -/
theorem getFilteredTasks_search (env : Env) (s : TaskManager) (searchQuery : String) :
    (searchQuery = "" →
      ∃ out : List Task,
        getFilteredTasks env "all" searchQuery s = (.returned out, s) ∧ out.Perm s.tasks) ∧
    (searchQuery ≠ "" → (∀ t ∈ s.tasks, TagsLowerCase env t) →
      ∃ out : List Task,
        getFilteredTasks env "all" searchQuery s = (.returned out, s) ∧
        ∀ t, t ∈ out ↔
          t ∈ s.tasks ∧
            (containsIgnoringCase env t.title searchQuery = true ∨
              containsIgnoringCase env t.description searchQuery = true ∨
              containsIgnoringCase env t.category searchQuery = true ∨
              ∃ tags tag, t.tags = .list tags ∧ tag ∈ tags ∧
                containsIgnoringCase env tag searchQuery = true)) := by
  have hall : ∀ l : List Task, l.filter (keepsFilter env "all") = l := by
    intro l
    apply List.filter_eq_self.mpr
    intro t _
    exact keepsFilter_all env t
  constructor
  · intro hq
    rw [hq]
    refine ⟨_, getFilteredTasks_no_search env "all" s, ?_⟩
    rw [hall]
    exact jsSort_perm sortCompare _
  · intro hq htags
    have hlists : ∀ t ∈ s.tasks, ∃ tags, t.tags = .list tags := by
      intro t ht
      have := htags t ht
      unfold TagsLowerCase at this
      cases h : t.tags with
      | list tags => exact ⟨tags, rfl⟩
      | text raw => rw [h] at this; exact absurd this id
    refine ⟨_, getFilteredTasks_of_lists env "all" searchQuery s hq hlists, ?_⟩
    intro t
    rw [hall, (jsSort_perm sortCompare _).mem_iff, List.mem_filter]
    constructor
    · intro ⟨hmem, hk⟩
      exact ⟨hmem, (searchKeeps_iff env searchQuery t (htags t hmem)).mp hk⟩
    · intro ⟨hmem, hk⟩
      exact ⟨hmem, (searchKeeps_iff env searchQuery t (htags t hmem)).mpr hk⟩

/-- C18 (amended): with an empty search text the call returns a rearrangement of the
tasks of the store that satisfy the predicate of the selector, and leaves the store
as it is: for `all`, `pending`, `completed`, `high` and `urgent` on every store and
at every instant; for `overdue` (due date present, not completed, due before now)
when the due dates are valid time values; for `today` (due date present, not
completed, due on the current calendar day in local time) when in addition the
zone has a fixed offset, the local year of the clock is not one of 0 to 99 and the
clock is at least a day away from the ends of the range of time values.  With a
fixed offset the current calendar day runs from the local midnight of the day up
to, not including, the next one, 24 hours later. -/
theorem getFilteredTasks_selects (env : Env) (s : TaskManager) :
    (∀ selector ∈ ["all", "pending", "completed", "high", "urgent"],
      ∃ out : List Task,
        getFilteredTasks env selector "" s = (.returned out, s) ∧
        out.Perm (s.tasks.filter (selectorHolds env selector))) ∧
    ((∀ t ∈ s.tasks, DueValid t) →
      ∃ out : List Task,
        getFilteredTasks env "overdue" "" s = (.returned out, s) ∧
        out.Perm (s.tasks.filter (selectorHolds env "overdue"))) ∧
    ((∀ t ∈ s.tasks, DueValid t) → FixedOffset env → ClockInRange env →
      (∃ out : List Task,
        getFilteredTasks env "today" "" s = (.returned out, s) ∧
        out.Perm (s.tasks.filter (selectorHolds env "today"))) ∧
      timeWithinDay (localTime env (localMidnight env)) = 0 ∧ localMidnight env ≤ env.now ∧
      env.now < localMidnight env + msPerDay ∧
      ∀ due, day (localTime env due) = day (localTime env env.now) ↔
        localMidnight env ≤ due ∧ due < localMidnight env + msPerDay) := by
  have hout : ∀ selector,
      (∀ t ∈ s.tasks, keepsFilter env selector t = selectorHolds env selector t) →
      ∃ out : List Task,
        getFilteredTasks env selector "" s = (.returned out, s) ∧
        out.Perm (s.tasks.filter (selectorHolds env selector)) := by
    intro selector h
    refine ⟨_, getFilteredTasks_no_search env selector s, ?_⟩
    rw [List.filter_congr h]
    exact jsSort_perm sortCompare _
  refine ⟨fun selector hsel => hout selector
      (fun t _ => keepsFilter_eq_selectorHolds env selector hsel t),
    fun hdue => hout "overdue" (fun t ht => keepsFilter_overdue env t (hdue t ht)),
    fun hdue hfix hclock => ⟨hout "today"
      (fun t ht => keepsFilter_today env hfix hclock t (hdue t ht)), ?_⟩⟩
  have hm := localMidnight_spec env hfix
  exact ⟨hm.1, hm.2.1, hm.2.2, same_local_day_iff env hfix⟩

/-- C19: for tasks with priorities among `low`, `medium`, `high`, `urgent` and valid
dates, with any filter and search text, the call returns (whenever the search text
is empty or all tags are lists), and in every list it returns, for two positions
`i < j`: the task at `i` is not completed while the task at `j` is pending; with
equal completion the rank of the priority at `i` is at least that at `j`; with
equal priority as well, the task at `i` does not lack a due date that the task at
`j` has, and when both have one the due date at `i` is not later. -/
theorem getFilteredTasks_sorted (env : Env) (currentFilter searchQuery : String)
    (s : TaskManager) (hvalid : ∀ t ∈ s.tasks, Sortable t) :
    ((searchQuery = "" ∨ ∀ t ∈ s.tasks, ∃ tags, t.tags = .list tags) →
      ∃ out, (getFilteredTasks env currentFilter searchQuery s).1 = .returned out) ∧
    ∀ out, (getFilteredTasks env currentFilter searchQuery s).1 = .returned out →
      out.Pairwise (fun a b =>
        ¬ (a.completed = true ∧ b.completed = false) ∧
        (a.completed = b.completed →
          priorityRank b.priority ≤ priorityRank a.priority ∧
          (a.priority = b.priority →
            ¬ (a.dueDate = none ∧ b.dueDate ≠ none) ∧
            ∀ da db, a.dueDate = some da → b.dueDate = some db → da ≤ db))) := by
  constructor
  · intro h
    by_cases hq : searchQuery = ""
    · rw [hq, getFilteredTasks_no_search]
      exact ⟨_, rfl⟩
    · rcases h with h | h
      · exact absurd h hq
      · rw [getFilteredTasks_of_lists env currentFilter searchQuery s hq h]
        exact ⟨_, rfl⟩
  · intro out hout
    obtain ⟨filtered, hsub, rfl⟩ := getFilteredTasks_returned env currentFilter searchQuery s out hout
    have hS : ∀ x ∈ filtered, Sortable x := fun x hx => hvalid x (hsub.subset hx)
    have hpw := jsSort_pairwise sortCompare Sortable sortCompare_total sortCompare_trans
      filtered hS
    have hmem : ∀ x ∈ jsSort sortCompare filtered, Sortable x :=
      fun x hx => hS x ((jsSort_perm sortCompare filtered).subset hx)
    refine ((List.Pairwise.and_mem.mp hpw).imp ?_)
    intro a b ⟨ha, hb, hab⟩
    have ho := order_of_sortCompare a b (hmem a ha) (hmem b hb) hab
    refine ⟨ho.1, fun hc => ⟨(ho.2 hc).1, fun hp => ?_⟩⟩
    have := (ho.2 hc).2 hp
    exact ⟨this.1, this.2.1⟩

/-- C20 (the claim fails for equal due dates): for two tasks with the same completion
state, the same priority and the same due date, listed with the one created
earlier first, the output keeps that order: the task created earlier comes before
the task created later. -/
theorem getFilteredTasks_same_due_keeps_list_order (env : Env) (s : TaskManager)
    (older newer : Task) (d : Int)
    (hs : s.tasks = [older, newer])
    (hc : older.completed = newer.completed) (hp : older.priority = newer.priority)
    (h1 : older.dueDate = some d) (h2 : newer.dueDate = some d)
    (hcreated : older.createdAt < newer.createdAt) :
    getFilteredTasks env "all" "" s = (.returned [older, newer], s) ∧
      older.createdAt < newer.createdAt := by
  refine ⟨?_, hcreated⟩
  rw [getFilteredTasks_no_search, hs]
  have hcmp : sortCompare older newer = 0 := by
    unfold sortCompare compareTasks
    rw [if_neg (by simp [hc]), if_neg (by simp [hp]), h1, h2]
    simp only [dateDiff]
    cases dateOfIso d <;> simp
  simp [List.filter, keepsFilter_all, jsSort, insertSorted, hcmp]

/-! ## Instances of the later results -/

theorem parseTags_pipeline_witness :
    LowerCaseLaws sampleEnv.toLowerCase ∧
    parseTags sampleEnv " Work, URGENT ,, home " = ["work", "urgent", "home"] ∧
    ∀ tag ∈ parseTags sampleEnv " Work, URGENT ,, home ",
      tag ≠ "" ∧ jsTrim tag = tag ∧ ',' ∉ tag.data ∧ sampleEnv.toLowerCase tag = tag :=
  ⟨sampleEnv_lowerCaseLaws, by decide,
    (parseTags_pipeline sampleEnv " Work, URGENT ,, home ").2.2.1 sampleEnv_lowerCaseLaws⟩

theorem updateTask_frame_witness :
    tagsPatch.tags ≠ some (.text "") ∧
    updateTask sampleEnv 99 tagsPatch sampleStore = (.returned false, sampleStore) ∧
    ∃ pre old post,
      sampleStore.tasks = pre ++ old :: post ∧ old.id = 1 ∧
      (updateTask sampleEnv 1 tagsPatch sampleStore).1 = .returned true ∧
      (updateTask sampleEnv 1 tagsPatch sampleStore).2.nextId = sampleStore.nextId ∧
      ∃ new : Task,
        (updateTask sampleEnv 1 tagsPatch sampleStore).2.tasks = pre ++ new :: post ∧
        new.title = tagsPatch.title.getD old.title ∧
        new.tags = .list (parseTags sampleEnv "Garden, HOME") :=
  ⟨by decide, (updateTask_frame sampleEnv 99 tagsPatch sampleStore (by decide)).1 (by decide),
    match (updateTask_frame sampleEnv 1 tagsPatch sampleStore (by decide)).2
        ⟨sampleTask, by decide, rfl⟩ with
    | ⟨pre, old, post, h1, _, h3, _, h5, h6, _, new, h8, _, h10, _, _, _, _, _, _, _, _, _, _,
        _, _, _, _, h25⟩ =>
      ⟨pre, old, post, h1, h3, h5 (by decide), h6, new, h8, h10, h25⟩⟩

/-- C12 as stated fails.  The patch carries the raw text `Garden, HOME` as tags, and
the record of task 1 gets the parsed list, not the value of the patch.  On
`rentStore`, where task 1 holds the tags `''` and the search text is `rent`, an
update of the title of task 2 is stored and saved, and the call then ends with a
`TypeError` instead of returning `true`. -/
theorem updateTask_frame_counterexample :
    (tagsPatch.tags = some (.text "Garden, HOME") ∧
      sampleStore.tasks.map (fun t => (t.id, t.tags)) =
        [(2, .list ["garden"]), (1, .list ["garden"])] ∧
      (updateTask sampleEnv 1 tagsPatch sampleStore).2.tasks.map (fun t => (t.id, t.tags)) =
        [(2, .list ["garden"]), (1, .list ["garden", "home"])]) ∧
    (rentStore.tasks.map (fun t => (t.id, t.tags)) = [(2, .list []), (1, .text "")] ∧
      rentStore.searchQuery = "rent" ∧
      (updateTask sampleEnv 2 { noPatch with title := some "Call the bank today" }
        rentStore).1 = .threw .typeError ∧
      (updateTask sampleEnv 2 { noPatch with title := some "Call the bank today" }
        rentStore).2.tasks.map (fun t => t.title) =
        ["Call the bank today", "Water the plants"]) :=
  ⟨⟨by decide, by decide, by decide⟩, by decide, by decide, by decide, by decide⟩

theorem updateTask_tags_text_witness :
    (∃ new : Task,
      (updateTask sampleEnv 1 emptyTagsPatch sampleStore).2.tasks =
        [plainTask] ++ new :: [] ∧
      new.tags = .text "" ∧ new.tags ≠ .list (parseTags sampleEnv "")) ∧
    (updateTask sampleEnv 1 emptyTagsPatch sampleStore).2.tasks.map (fun t => (t.id, t.tags)) =
      [(2, .list ["garden"]), (1, .text "")] ∧
    (getFilteredTasks sampleEnv "all" "rent"
      (updateTask sampleEnv 1 emptyTagsPatch sampleStore).2).1 = .threw .typeError :=
  ⟨match updateTask_tags_text sampleEnv 1 emptyTagsPatch sampleStore "" [plainTask] []
        sampleTask (by decide) (by decide) (by decide) (by decide) with
    | ⟨new, h1, _, h3⟩ => ⟨new, h1, h3 rfl⟩,
    by decide, by decide⟩

theorem deleteSelectedTasks_removes_selected_witness :
    searchStore.selectedTasks = [2, 7] ∧
    (∀ t ∈ searchStore.tasks, HasTagList t) ∧
    (deleteSelectedTasks sampleEnv searchStore).2.tasks = [buyMilk] ∧
    (deleteSelectedTasks sampleEnv searchStore).1 = .returned () ∧
    (deleteSelectedTasks sampleEnv searchStore).2.tasks =
      searchStore.tasks.filter (fun t => decide (t.id ∉ searchStore.selectedTasks)) ∧
    (∀ t, t ∈ (deleteSelectedTasks sampleEnv searchStore).2.tasks ↔
      t ∈ searchStore.tasks ∧ t.id ∉ searchStore.selectedTasks) ∧
    (deleteSelectedTasks sampleEnv searchStore).2.selectedTasks = [] ∧
    (deleteSelectedTasks sampleEnv searchStore).2.nextId = searchStore.nextId :=
  match deleteSelectedTasks_removes_selected sampleEnv searchStore with
  | ⟨_, h2, h3, h4, h5, h6⟩ => ⟨by decide, by decide, by decide, h2 (by decide), h3, h4, h5, h6⟩

/-- C14 as stated fails on `rentStore` with task 2 selected: the selected task is
removed and the list saved, and the call then fails with the `TypeError` of
`task.tags.some` on task 1, whose tags are `''`. -/
theorem deleteSelectedTasks_counterexample :
    (toggleTaskSelection sampleEnv 2 rentStore).2.tasks.map (fun t => (t.id, t.tags)) =
      [(2, .list []), (1, .text "")] ∧
    (toggleTaskSelection sampleEnv 2 rentStore).2.selectedTasks = [2] ∧
    (toggleTaskSelection sampleEnv 2 rentStore).2.searchQuery = "rent" ∧
    (deleteSelectedTasks sampleEnv (toggleTaskSelection sampleEnv 2 rentStore).2).1 =
      .threw .typeError ∧
    (deleteSelectedTasks sampleEnv
      (toggleTaskSelection sampleEnv 2 rentStore).2).2.tasks.map (fun t => t.id) = [1] :=
  ⟨by decide, by decide, by decide, by decide, by decide⟩

theorem deleteTask_removes_one_witness :
    deleteTask sampleEnv 99 searchStore = (.returned false, searchStore) ∧
    ∃ pre gone post,
      searchStore.tasks = pre ++ gone :: post ∧ gone.id = 2 ∧
      (deleteTask sampleEnv 2 searchStore).1 = .returned true ∧
      (deleteTask sampleEnv 2 searchStore).2.tasks = pre ++ post ∧
      (∀ i, i ∈ (deleteTask sampleEnv 2 searchStore).2.selectedTasks ↔
        i ∈ searchStore.selectedTasks ∧ i ≠ 2) :=
  ⟨(deleteTask_removes_one sampleEnv 99 searchStore).1 (by decide),
    match (deleteTask_removes_one sampleEnv 2 searchStore).2 ⟨callMom, by decide, rfl⟩ with
    | ⟨pre, gone, post, h1, _, h3, _, h5, h6, _, h8, _⟩ =>
      ⟨pre, gone, post, h1, h3, h5 (by decide), h6, h8⟩⟩

/-- C15 as stated fails on `rentStore`: `deleteTask(2)` removes task 2 and saves the
list, and the call then ends with the `TypeError` of `task.tags.some` on task 1,
whose tags are `''`, instead of returning `true`. -/
theorem deleteTask_counterexample :
    rentStore.tasks.map (fun t => (t.id, t.tags)) = [(2, .list []), (1, .text "")] ∧
    rentStore.searchQuery = "rent" ∧
    (deleteTask sampleEnv 2 rentStore).1 = .threw .typeError ∧
    (deleteTask sampleEnv 2 rentStore).2.tasks.map (fun t => t.id) = [1] ∧
    (deleteTask sampleEnv 2 rentStore).2.saves.length = rentStore.saves.length + 1 :=
  ⟨by decide, by decide, by decide, by decide, by decide⟩

theorem clearCompletedTasks_keeps_pending_witness :
    (∀ t ∈ sortStore.tasks, HasTagList t) ∧
    (clearCompletedTasks sampleEnv sortStore).2.tasks = [taskA, taskB] ∧
    (clearCompletedTasks sampleEnv sortStore).1 = .returned () ∧
    (clearCompletedTasks sampleEnv sortStore).2.tasks =
      sortStore.tasks.filter (fun t => !t.completed) ∧
    (∀ t, t ∈ (clearCompletedTasks sampleEnv sortStore).2.tasks ↔
      t ∈ sortStore.tasks ∧ t.completed = false) ∧
    (clearCompletedTasks sampleEnv sortStore).2.nextId = sortStore.nextId :=
  match clearCompletedTasks_keeps_pending sampleEnv sortStore with
  | ⟨h1, h2, h3, _, h5⟩ => ⟨by decide, by decide, h5 (by decide), h1, h2, h3⟩

theorem getFilteredTasks_search_witness :
    getFilteredTasks sampleEnv "all" "gro" searchStore = (.returned [buyMilk], searchStore) ∧
    ∃ out : List Task,
      getFilteredTasks sampleEnv "all" "gro" searchStore = (.returned out, searchStore) ∧
      ∀ t, t ∈ out ↔
        t ∈ searchStore.tasks ∧
          (containsIgnoringCase sampleEnv t.title "gro" = true ∨
            containsIgnoringCase sampleEnv t.description "gro" = true ∨
            containsIgnoringCase sampleEnv t.category "gro" = true ∨
            ∃ tags tag, t.tags = .list tags ∧ tag ∈ tags ∧
              containsIgnoringCase sampleEnv tag "gro" = true) :=
  ⟨by decide, (getFilteredTasks_search sampleEnv searchStore "gro").2 (by decide) (by decide)⟩

/-- C17 as stated fails: the imported task carries the tag `Grocery`; the search text
`gro` is, without regard to case, a substring of that tag, and the task is not in
the output. -/
theorem getFilteredTasks_search_counterexample :
    upperTagStore.tasks.map (fun t => (t.title, t.tags)) =
      [("Buy milk", .list ["Grocery"])] ∧
    containsIgnoringCase sampleEnv "Grocery" "gro" = true ∧
    (getFilteredTasks sampleEnv "all" "gro" upperTagStore).1 = .returned [] :=
  ⟨by decide, by decide, by decide⟩

theorem getFilteredTasks_selects_witness :
    (∀ t ∈ dueStore.tasks, DueValid t) ∧ FixedOffset sampleEnv ∧ ClockInRange sampleEnv ∧
    (localMidnight sampleEnv = 1699916400000 ∧
      (getFilteredTasks sampleEnv "overdue" "" dueStore).1 =
        .returned [dueTask 3 1699916399999, dueTask 1 1699999999999] ∧
      (getFilteredTasks sampleEnv "today" "" dueStore).1 =
        .returned [dueTask 1 1699999999999, dueTask 2 1700001000000]) ∧
    (∃ out : List Task,
      getFilteredTasks sampleEnv "overdue" "" dueStore = (.returned out, dueStore) ∧
      out.Perm (dueStore.tasks.filter (selectorHolds sampleEnv "overdue"))) ∧
    ∃ out : List Task,
      getFilteredTasks sampleEnv "today" "" dueStore = (.returned out, dueStore) ∧
      out.Perm (dueStore.tasks.filter (selectorHolds sampleEnv "today")) :=
  ⟨by decide, ⟨3600000, fun _ _ => rfl⟩, by decide, ⟨by decide, by decide, by decide⟩,
    (getFilteredTasks_selects sampleEnv dueStore).2.1 (by decide),
    ((getFilteredTasks_selects sampleEnv dueStore).2.2 (by decide)
      ⟨3600000, fun _ _ => rfl⟩ (by decide)).1⟩

/-- C18 as stated fails for `today`.  With the clock in the year 50 the window that
the code builds lies in the year 1950, and a task due at the current instant is
left out.  On the day on which the clocks go back the local day lasts 25 hours, the
window of the code ends 24 hours after the local midnight, and a task due at 23:30
local time of the current day is left out. -/
theorem getFilteredTasks_selects_counterexample :
    (getFullYear ancientEnv ancientEnv.now = 50 ∧
      ancientStore.tasks = [dueTask 1 ancientEnv.now] ∧
      selectorHolds ancientEnv "today" (dueTask 1 ancientEnv.now) = true ∧
      todayStart ancientEnv = some (-616896000000) ∧
      (getFilteredTasks ancientEnv "today" "" ancientStore).1 = .returned []) ∧
    (autumnStore.tasks = [dueTask 1 1698618600000] ∧
      day (localTime autumnEnv 1698618600000) = day (localTime autumnEnv autumnEnv.now) ∧
      timeWithinDay (localTime autumnEnv 1698618600000) = 23 * 3600000 + 30 * 60000 ∧
      selectorHolds autumnEnv "today" (dueTask 1 1698618600000) = true ∧
      todayStart autumnEnv = some 1698530400000 ∧
      todayEnd autumnEnv = some 1698616800000 ∧
      (getFilteredTasks autumnEnv "today" "" autumnStore).1 = .returned []) :=
  ⟨⟨by decide, by decide, by decide, by decide, by decide⟩,
    by decide, by decide, by decide, by decide, by decide, by decide, by decide⟩

theorem getFilteredTasks_sorted_witness :
    (∀ t ∈ sortStore.tasks, Sortable t) ∧
    getFilteredTasks sampleEnv "all" "" sortStore =
      (.returned [taskB, taskA, taskC], sortStore) ∧
    [taskB, taskA, taskC].Pairwise (fun a b =>
      ¬ (a.completed = true ∧ b.completed = false) ∧
      (a.completed = b.completed →
        priorityRank b.priority ≤ priorityRank a.priority ∧
        (a.priority = b.priority →
          ¬ (a.dueDate = none ∧ b.dueDate ≠ none) ∧
          ∀ da db, a.dueDate = some da → b.dueDate = some db → da ≤ db))) :=
  ⟨by decide, by decide,
    (getFilteredTasks_sorted sampleEnv "all" "" sortStore (by decide)).2
      [taskB, taskA, taskC] (by decide)⟩

theorem getFilteredTasks_same_due_keeps_list_order_witness :
    tieStore.tasks = [olderTask, newerTask] ∧
    (getFilteredTasks sampleEnv "all" "" tieStore =
        (.returned [olderTask, newerTask], tieStore) ∧
      olderTask.createdAt < newerTask.createdAt) :=
  ⟨by decide,
    getFilteredTasks_same_due_keeps_list_order sampleEnv tieStore olderTask newerTask
      1700086400000 (by decide) (by decide) (by decide) (by decide) (by decide) (by decide)⟩

/-! ## Lemmas on loading and on joined tags -/

theorem migrateTask_some (env : Env) (r : RawTask) :
    ∃ t, migrateTask env (some r) = .returned t ∧ t.id = r.id :=
  ⟨_, rfl, rfl⟩

theorem migrateAll_records (env : Env) (records : List RawTask) :
    ∃ tasks, migrateAll env (records.map some) = .returned tasks ∧
      List.Forall₂ (fun r t => migrateTask env (some r) = .returned t) records tasks ∧
      tasks.map (fun t => t.id) = records.map (fun r => r.id) := by
  induction records with
  | nil => exact ⟨[], rfl, List.Forall₂.nil, rfl⟩
  | cons r rest ih =>
    obtain ⟨ts, h1, h2, h3⟩ := ih
    obtain ⟨t, ht, hid⟩ := migrateTask_some env r
    refine ⟨t :: ts, ?_, List.Forall₂.cons ht h2, ?_⟩
    · simp only [List.map_cons, migrateAll, ht, h1]
    · simp only [List.map_cons, hid, h3]

theorem migrateAll_null (env : Env) (items : List (Option RawTask)) (h : none ∈ items) :
    migrateAll env items = .threw .typeError := by
  induction items with
  | nil => exact absurd h (List.not_mem_nil _)
  | cons task rest ih =>
    cases task with
    | none => simp only [migrateAll, migrateTask]
    | some r =>
      have hrest : none ∈ rest := by
        rcases List.mem_cons.mp h with h0 | h0
        · exact absurd h0 (by simp)
        · exact h0
      simp only [migrateAll, migrateTask, ih hrest]

theorem le_maxId (ids : List Nat) : ∀ i ∈ ids, i ≤ maxId ids := by
  induction ids with
  | nil => intro i hi; exact absurd hi (List.not_mem_nil _)
  | cons a rest ih =>
    intro i hi
    have hm : maxId (a :: rest) = max a (maxId rest) := rfl
    rcases List.mem_cons.mp hi with h | h
    · rw [hm, h]
      exact Nat.le_max_left _ _
    · rw [hm]
      exact (ih i h).trans (Nat.le_max_right _ _)

theorem maxId_mem (ids : List Nat) (h : ids ≠ []) : maxId ids ∈ ids := by
  induction ids with
  | nil => exact absurd rfl h
  | cons a rest ih =>
    have hm : maxId (a :: rest) = max a (maxId rest) := rfl
    by_cases hr : rest = []
    · subst hr
      have : maxId [a] = a := by simp [maxId]
      rw [this]
      exact List.mem_cons_self _ _
    · rw [hm]
      rcases Nat.le_total a (maxId rest) with hle | hle
      · rw [Nat.max_eq_right hle]
        exact List.mem_cons_of_mem _ (ih hr)
      · rw [Nat.max_eq_left hle]
        exact List.mem_cons_self _ _

theorem loadTasks_records (env : Env) (records : List RawTask) (s : TaskManager) :
    ∃ tasks,
      migrateAll env (records.map some) = .returned tasks ∧
      loadTasks env (.parsed (.array (records.map some))) s =
        (.returned (),
          .store
            { s with tasks := tasks, nextId := plusOne (maxId (records.map (fun r => r.id))) }) ∧
      tasks.map (fun t => t.id) = records.map (fun r => r.id) := by
  obtain ⟨tasks, h1, _, h3⟩ := migrateAll_records env records
  refine ⟨tasks, h1, ?_, h3⟩
  simp only [loadTasks, loadTasksBody, h1, h3]

theorem maxId_lt (ids : List Nat) (b : Nat) (hb : 0 < b) (h : ∀ i ∈ ids, i < b) :
    maxId ids < b := by
  by_cases hn : ids = []
  · subst hn
    exact hb
  · exact h _ (maxId_mem ids hn)

theorem splitComma_cons (c : Char) (cs : List Char) :
    splitComma (c :: cs) =
      if c = ',' then [] :: splitComma cs
      else
        match splitComma cs with
        | [] => [[c]]
        | p :: ps => (c :: p) :: ps := rfl

theorem splitComma_of_no_comma (p : List Char) (h : ',' ∉ p) : splitComma p = [p] := by
  induction p with
  | nil => rfl
  | cons c cs ih =>
    have hc : c ≠ ',' := fun e => h (by rw [e]; exact List.mem_cons_self _ _)
    have hcs : ',' ∉ cs := fun e => h (List.mem_cons_of_mem _ e)
    rw [splitComma_cons, if_neg hc, ih hcs]

theorem splitComma_append_comma (p rest : List Char) (h : ',' ∉ p) :
    splitComma (p ++ ',' :: rest) = p :: splitComma rest := by
  induction p with
  | nil =>
    rw [List.nil_append, splitComma_cons, if_pos rfl]
  | cons c cs ih =>
    have hc : c ≠ ',' := fun e => h (by rw [e]; exact List.mem_cons_self _ _)
    have hcs : ',' ∉ cs := fun e => h (List.mem_cons_of_mem _ e)
    rw [List.cons_append, splitComma_cons, if_neg hc, ih hcs]

theorem splitComma_space (cs : List Char) (p : List Char) (ps : List (List Char))
    (h : splitComma cs = p :: ps) : splitComma (' ' :: cs) = (' ' :: p) :: ps := by
  rw [splitComma_cons, if_neg (by decide), h]

theorem splitComma_joined (p : List Char) (ps : List (List Char))
    (h : ∀ q ∈ p :: ps, ',' ∉ q) :
    splitComma (List.intercalate [',', ' '] (p :: ps)) =
      p :: ps.map (fun q => ' ' :: q) := by
  induction ps generalizing p with
  | nil =>
    have : List.intercalate [',', ' '] [p] = p := by simp [List.intercalate]
    rw [this]
    exact splitComma_of_no_comma p (h p (List.mem_cons_self _ _))
  | cons q qs ih =>
    have hstep : List.intercalate [',', ' '] (p :: q :: qs) =
        p ++ ',' :: ' ' :: List.intercalate [',', ' '] (q :: qs) := by
      simp [List.intercalate]
    rw [hstep, splitComma_append_comma p _ (h p (List.mem_cons_self _ _))]
    have hq := ih q (fun r hr => h r (List.mem_cons_of_mem _ hr))
    rw [splitComma_space _ _ _ hq]
    rfl

theorem trimChars_space (cs : List Char) : trimChars (' ' :: cs) = trimChars cs := by
  unfold trimChars
  rw [List.dropWhile_cons_of_pos (by decide)]

theorem parseTags_mem_laws (env : Env) (laws : LowerCaseLaws env.toLowerCase) (s : String) :
    ∀ tag ∈ parseTags env s,
      tag ≠ "" ∧ jsTrim tag = tag ∧ ',' ∉ tag.data ∧ env.toLowerCase tag = tag := by
  intro tag htag
  unfold parseTags at htag
  by_cases he : s = ""
  · rw [if_pos he] at htag
    exact absurd htag (List.not_mem_nil _)
  · rw [if_neg he] at htag
    obtain ⟨p, hp, rfl⟩ := List.mem_map.mp htag
    rw [List.mem_filter] at hp
    obtain ⟨hp1, hp2⟩ := hp
    have hne : p ≠ "" := by
      rw [length_pos_iff_ne_empty] at hp2
      simpa using hp2
    obtain ⟨piece, hpiece, rfl⟩ := List.mem_map.mp hp1
    unfold jsSplitComma at hpiece
    obtain ⟨cs, hcs, rfl⟩ := List.mem_map.mp hpiece
    refine ⟨laws.nonempty _ hne, laws.trimmed _ (jsTrim_idempotent _), ?_, laws.idempotent _⟩
    apply laws.noComma
    intro hmem
    exact splitComma_no_comma s.data cs hcs ((trimChars_sublist cs).subset hmem)

theorem jsJoin_nil (sep : String) : jsJoin sep [] = "" := rfl

theorem jsJoin_ne_empty (sep first : String) (rest : List String) (h : first ≠ "") :
    jsJoin sep (first :: rest) ≠ "" := by
  intro he
  have hd := congrArg String.data he
  unfold jsJoin at hd
  simp only [List.map_cons] at hd
  have hfirst : first.data = [] := by
    cases rest with
    | nil => simpa [List.intercalate] using hd
    | cons q qs =>
      have : first.data ++ (sep.data ++ List.intercalate sep.data (q.data :: qs.map String.data))
          = [] := by
        simpa [List.intercalate] using hd
      exact (List.append_eq_nil.mp this).1
  apply h
  cases first
  simp only at hfirst
  subst hfirst
  rfl

theorem parseTags_join_of_tags (env : Env) (tags : List String)
    (h : ∀ tag ∈ tags,
      tag ≠ "" ∧ jsTrim tag = tag ∧ ',' ∉ tag.data ∧ env.toLowerCase tag = tag) :
    parseTags env (jsJoin ", " tags) = tags := by
  cases tags with
  | nil => rfl
  | cons first rest =>
    have hne := jsJoin_ne_empty ", " first rest (h first (List.mem_cons_self _ _)).1
    have hsplit : jsSplitComma (jsJoin ", " (first :: rest)) =
        (first.data :: (rest.map String.data).map (fun q => ' ' :: q)).map String.mk := by
      unfold jsSplitComma jsJoin
      have hsep : ", ".data = [',', ' '] := rfl
      simp only [List.map_cons, hsep]
      rw [splitComma_joined]
      · rfl
      · intro q hq
        rw [← List.map_cons, List.mem_map] at hq
        obtain ⟨tag, htag, rfl⟩ := hq
        exact (h tag htag).2.2.1
    have htrim : (jsSplitComma (jsJoin ", " (first :: rest))).map jsTrim = first :: rest := by
      rw [hsplit]
      simp only [List.map_cons, List.map_map]
      have h1 : jsTrim (String.mk first.data) = first := (h first (List.mem_cons_self _ _)).2.1
      rw [h1]
      congr 1
      have : ∀ tag ∈ rest,
          (jsTrim ∘ String.mk ∘ (fun q => ' ' :: q) ∘ String.data) tag = id tag := by
        intro tag htag
        have ht := (h tag (List.mem_cons_of_mem _ htag)).2.1
        simp only [Function.comp, jsTrim, trimChars_space, id]
        exact ht
      rw [List.map_congr_left this, List.map_id]
    unfold parseTags
    rw [if_neg hne, htrim]
    have hfilter : (first :: rest).filter (fun tag => decide (tag.length > 0)) = first :: rest := by
      apply List.filter_eq_self.mpr
      intro tag htag
      rw [length_pos_iff_ne_empty]
      simpa using (h tag htag).1
    rw [hfilter]
    have : ∀ tag ∈ first :: rest, env.toLowerCase tag = id tag := fun tag htag => (h tag htag).2.2.2
    rw [List.map_congr_left this, List.map_id]

theorem parsePatchTags_joined (env : Env) (laws : LowerCaseLaws env.toLowerCase) (s : String) :
    (parseTags env s ≠ [] →
      (parsePatchTags env
        { noPatch with tags := some (.text (jsJoin ", " (parseTags env s))) }).tags =
        some (.list (parseTags env s))) ∧
    (parseTags env s = [] →
      (parsePatchTags env
        { noPatch with tags := some (.text (jsJoin ", " (parseTags env s))) }).tags =
        some (.text "")) := by
  constructor
  · intro hne
    have hround := parseTags_join_of_tags env (parseTags env s) (parseTags_mem_laws env laws s)
    cases hp : parseTags env s with
    | nil => exact absurd hp hne
    | cons first rest =>
      have hfirst : first ≠ "" := by
        have := parseTags_mem_laws env laws s first (by rw [hp]; exact List.mem_cons_self _ _)
        exact this.1
      have hj := jsJoin_ne_empty ", " first rest hfirst
      rw [hp] at hround
      simp only [parsePatchTags, if_neg hj, hround]
  · intro he
    rw [he]
    rfl

/-! ## Loading, migration and the tags of the edit form -/

/-- C21 (amended): loading into the store that the constructor builds.  With no
payload, and with the empty array, the store stays empty and the counter is `1`.
For every array of records whose identifiers are below `2^53`, `loadTasks` returns
and leaves a store whose tasks carry the identifiers of the records, in order; the
counter is above every loaded identifier, and when there is a record it is one plus
the identifier of one of them (so one plus the maximum).  A first `addTask` with a
title that is not blank then puts in front a task whose identifier is the counter,
above every loaded identifier, and returns `true` when every loaded task holds its
tags as a list. -/
theorem loadTasks_counter (env : Env) (records : List RawTask) (taskData : TaskData)
    (hsafe : ∀ r ∈ records, r.id < 9007199254740992) :
    (loadTasks env .absent emptyStore = (.returned (), .store emptyStore) ∧
      loadTasks env (.parsed (.array [])) emptyStore = (.returned (), .store emptyStore) ∧
      emptyStore.nextId = 1) ∧
    ∃ s : TaskManager,
      loadTasks env (.parsed (.array (records.map some))) emptyStore =
        (.returned (), .store s) ∧
      s.tasks.map (fun t => t.id) = records.map (fun r => r.id) ∧
      (∀ r ∈ records, r.id < s.nextId) ∧
      (records ≠ [] → ∃ r ∈ records, s.nextId = r.id + 1) ∧
      (records = [] → s.nextId = 1) ∧
      (¬ blankTitle taskData.title →
        ∃ t : Task, (addTask env taskData s).2.tasks = t :: s.tasks ∧
          t.id = s.nextId ∧ (∀ r ∈ records, r.id < t.id) ∧
          ((∀ t ∈ s.tasks, HasTagList t) → (addTask env taskData s).1 = .returned true)) := by
  refine ⟨⟨rfl, rfl, rfl⟩, ?_⟩
  obtain ⟨tasks, _, hload, hids⟩ := loadTasks_records env records emptyStore
  have hmax : maxId (records.map (fun r => r.id)) < 9007199254740992 := by
    apply maxId_lt _ _ (by decide)
    intro i hi
    obtain ⟨r, hr, rfl⟩ := List.mem_map.mp hi
    exact hsafe r hr
  rw [plusOne_of_lt _ hmax] at hload
  have hbelow : ∀ r ∈ records, r.id < maxId (records.map (fun r => r.id)) + 1 := by
    intro r hr
    have := le_maxId (records.map (fun r => r.id)) r.id (List.mem_map_of_mem _ hr)
    omega
  refine ⟨_, hload, hids, hbelow, ?_, ?_, ?_⟩
  · intro hne
    have hne2 : records.map (fun r => r.id) ≠ [] := by simpa using hne
    obtain ⟨r, hr, hrid⟩ := List.mem_map.mp (maxId_mem _ hne2)
    exact ⟨r, hr, by simp only [hrid]⟩
  · intro h
    subst h
    rfl
  · intro hnb
    obtain ⟨t, hid, htag, hcall⟩ := addTask_of_title env taskData
      { emptyStore with tasks := tasks, nextId := maxId (records.map (fun r => r.id)) + 1 } hnb
    refine ⟨t, ?_, hid, ?_, ?_⟩
    · rw [hcall, endCall_snd]
      rfl
    · intro r hr
      rw [hid]
      exact hbelow r hr
    · intro hlists
      rw [hcall]
      apply (endCall_outcome env true _).2.2
      intro x hx
      rcases List.mem_cons.mp hx with rfl | hx
      · exact htag
      · exact hlists x hx

/-- C22 (what the code does): `loadTasks` always returns.  With no payload, and with a
text that `JSON.parse` rejects, the store stays empty with the counter at `1`.  When
the text parses to a value that is not an array, or to an array that holds `null`,
the counter stays at `1` but `this.tasks` holds the parsed value, as the assignment
before the migration left it: the manager is not the empty store. -/
theorem loadTasks_corrupt_payload (env : Env) (value : Parsed) (hv : NotRecords value) :
    loadTasks env .absent emptyStore = (.returned (), .store emptyStore) ∧
    loadTasks env .unparseable emptyStore = (.returned (), .store emptyStore) ∧
    loadTasks env (.parsed value) emptyStore = (.returned (), .unmigrated value 1) ∧
    loadTasks env (.parsed value) emptyStore ≠ (.returned (), .store emptyStore) := by
  have h3 : loadTasks env (.parsed value) emptyStore = (.returned (), .unmigrated value 1) := by
    cases value with
    | array items =>
      have := migrateAll_null env items hv
      simp only [loadTasks, loadTasksBody, this]
      rfl
    | object => rfl
    | number n => rfl
    | text s => rfl
    | boolean b => rfl
    | null => rfl
  refine ⟨rfl, rfl, h3, ?_⟩
  rw [h3]
  intro h
  exact Loaded.noConfusion (Prod.mk.inj h).2

/-- C23 (amended): `migrateTask` rejects no record and returns a task record (all
seventeen properties) with the identifier of the raw record.  `description`,
`completed`, `createdAt`, `completedAt`, `dueDate`, `subtasks`, `location`, `url`,
`recurring` and `timeSpent` keep the value of the raw record when present and get
their default when absent (`createdAt`: the current time).  `priority`, `category`
and `recurrencePattern` keep a non-empty value and become `medium`, `personal`,
`daily` when absent or empty; `estimatedTime` keeps a non-zero number and becomes
`null` when absent, `null` or `0`; `tags` keep a list or a non-empty text and become
`[]` when absent or the empty text; the title is `text` when that is non-empty,
else `title` when that is non-empty, else `Untitled Task`. -/
theorem migrateTask_fields (env : Env) (r : RawTask) :
    ∃ t : Task,
      migrateTask env (some r) = .returned t ∧ t.id = r.id ∧
      ((∀ v, r.text = some v → v ≠ "" → t.title = v) ∧
        (r.text = none ∨ r.text = some "" → ∀ v, r.title = some v → v ≠ "" → t.title = v) ∧
        (r.text = none ∨ r.text = some "" → r.title = none ∨ r.title = some "" →
          t.title = "Untitled Task")) ∧
      ((∀ v, r.description = some v → t.description = v) ∧
        (r.description = none → t.description = "")) ∧
      ((∀ v, r.priority = some v → v ≠ "" → t.priority = v) ∧
        (r.priority = none ∨ r.priority = some "" → t.priority = "medium")) ∧
      ((∀ v, r.category = some v → v ≠ "" → t.category = v) ∧
        (r.category = none ∨ r.category = some "" → t.category = "personal")) ∧
      ((∀ v, r.completed = some v → t.completed = v) ∧
        (r.completed = none → t.completed = false)) ∧
      ((∀ v, r.createdAt = some v → t.createdAt = v) ∧
        (r.createdAt = none → t.createdAt = env.now)) ∧
      ((∀ v, r.completedAt = some v → t.completedAt = v) ∧
        (r.completedAt = none → t.completedAt = none)) ∧
      ((∀ v, r.dueDate = some v → t.dueDate = v) ∧ (r.dueDate = none → t.dueDate = none)) ∧
      ((∀ n, r.estimatedTime = some (some n) → n ≠ 0 → t.estimatedTime = some n) ∧
        (r.estimatedTime = none ∨ r.estimatedTime = some none ∨
          r.estimatedTime = some (some 0) → t.estimatedTime = none)) ∧
      ((∀ tags, r.tags = some (.list tags) → t.tags = .list tags) ∧
        (∀ raw, r.tags = some (.text raw) → raw ≠ "" → t.tags = .text raw) ∧
        (r.tags = none ∨ r.tags = some (.text "") → t.tags = .list [])) ∧
      ((∀ v, r.subtasks = some v → t.subtasks = v) ∧ (r.subtasks = none → t.subtasks = [])) ∧
      ((∀ v, r.location = some v → t.location = v) ∧ (r.location = none → t.location = "")) ∧
      ((∀ v, r.url = some v → t.url = v) ∧ (r.url = none → t.url = "")) ∧
      ((∀ v, r.recurring = some v → t.recurring = v) ∧
        (r.recurring = none → t.recurring = false)) ∧
      ((∀ v, r.recurrencePattern = some v → v ≠ "" → t.recurrencePattern = v) ∧
        (r.recurrencePattern = none ∨ r.recurrencePattern = some "" →
          t.recurrencePattern = "daily")) ∧
      ((∀ v, r.timeSpent = some v → t.timeSpent = v) ∧ (r.timeSpent = none → t.timeSpent = 0)) := by
  have hstr : ∀ (a : Option String) (d : String),
      (∀ v, a = some v → v ≠ "" → strOr a d = v) ∧ (a = none ∨ a = some "" → strOr a d = d) := by
    intro a d
    constructor
    · intro v hv hne
      simp [hv, strOr, hne]
    · intro h
      rcases h with h | h <;> simp [h, strOr]
  have hstr0 : ∀ (a : Option String),
      (∀ v, a = some v → strOr a "" = v) ∧ (a = none → strOr a "" = "") := by
    intro a
    constructor
    · intro v hv
      by_cases hne : v = ""
      · simp [hv, strOr, hne]
      · simp [hv, strOr, hne]
    · intro h
      simp [h, strOr]
  have hget : ∀ {α : Type} (a : Option α) (d : α),
      (∀ v, a = some v → a.getD d = v) ∧ (a = none → a.getD d = d) := by
    intro α a d
    constructor
    · intro v hv
      simp [hv]
    · intro h
      simp [h]
  have hnull : ∀ {α : Type} (a : Option (Option α)),
      (∀ v, a = some v → orNull a = v) ∧ (a = none → orNull a = none) := by
    intro α a
    constructor
    · intro v hv
      cases v <;> simp [hv, orNull]
    · intro h
      simp [h, orNull]
  refine ⟨_, rfl, rfl, ⟨?_, ?_, ?_⟩, hstr0 _, hstr _ _, hstr _ _, hget _ _, hget _ _, hnull _,
    hnull _, ⟨?_, ?_⟩, ⟨?_, ?_, ?_⟩, hget _ _, hstr0 _, hstr0 _, hget _ _, hstr _ _, hget _ _⟩
  · intro v hv hne
    exact (hstr r.text _).1 v hv hne
  · intro ht v hv hne
    simp only
    rw [(hstr r.text _).2 ht]
    exact (hstr r.title _).1 v hv hne
  · intro ht hti
    simp only
    rw [(hstr r.text _).2 ht]
    exact (hstr r.title _).2 hti
  · intro n hn hne
    simp only [hn, orNull, numOrNull]
    cases n with
    | zero => exact absurd rfl hne
    | succ m => rfl
  · intro h
    rcases h with h | h | h <;> simp [h, orNull, numOrNull]
  · intro tags h
    simp [h, tagsOrEmpty]
  · intro raw h hne
    simp [h, tagsOrEmpty, hne]
  · intro h
    rcases h with h | h <;> simp [h, tagsOrEmpty]

/-- C24 (the claim fails for a task without tags): when `toLowerCase` obeys
`LowerCaseLaws`, parsing the tags joined with `, ` (the text that the edit form
shows) gives the same tags: for every text `s`,
`parseTags (join ", " (parseTags s)) = parseTags s`, and `parseTags (join ", " t) = t`
for every tag list `t` that `parseTags` produces.  When the edit form is saved with
the tags box as `openEditModal` filled it, `updateTask` gets the joined text: a
task with at least one tag keeps its tags, but for a task with the tags `[]` the
text is empty, `updateTask` does not parse it, and the task is left with the string
`''` in place of its list. -/
theorem parseTags_join_roundtrip (env : Env) (laws : LowerCaseLaws env.toLowerCase)
    (s : String) :
    parseTags env (jsJoin ", " (parseTags env s)) = parseTags env s ∧
    (∀ tags, (∃ text, tags = parseTags env text) →
      parseTags env (jsJoin ", " tags) = tags) ∧
    ∀ (store : TaskManager) (id : Nat) (updates : TaskPatch) (pre post : List Task)
      (old : Task),
      store.tasks = pre ++ old :: post → (∀ t ∈ pre, t.id ≠ id) → old.id = id →
      old.tags = .list (parseTags env s) →
      updates.tags = some (.text (jsJoin ", " (parseTags env s))) →
      ∃ new : Task,
        (updateTask env id updates store).2.tasks = pre ++ new :: post ∧
        (parseTags env s ≠ [] → new.tags = old.tags) ∧
        (parseTags env s = [] → new.tags = .text "" ∧ new.tags ≠ old.tags) := by
  have hround := parseTags_join_of_tags env _ (parseTags_mem_laws env laws s)
  refine ⟨hround, ?_, ?_⟩
  · rintro tags ⟨text, rfl⟩
    exact parseTags_join_of_tags env _ (parseTags_mem_laws env laws text)
  · intro store id updates pre post old hl hpre hid hold hupd
    have hres := updateTask_state_of_split env id updates store pre post old hl hpre hid
    have hpt := parsePatchTags_tags env updates
    rw [hupd] at hpt
    simp only at hpt
    refine ⟨applyPatch (parsePatchTags env updates) old, ?_, ?_, ?_⟩
    · rw [hres]
      rfl
    · intro hne
      have hj : jsJoin ", " (parseTags env s) ≠ "" := by
        cases hp : parseTags env s with
        | nil => exact absurd hp hne
        | cons first rest =>
          have hfirst : first ≠ "" :=
            (parseTags_mem_laws env laws s first (by rw [hp]; exact List.mem_cons_self _ _)).1
          exact jsJoin_ne_empty ", " first rest hfirst
      simp only [applyPatch]
      rw [hpt, if_neg hj, hround, hold]
      rfl
    · intro he
      have hj : jsJoin ", " (parseTags env s) = "" := by
        rw [he]
        rfl
      simp only [applyPatch]
      rw [hpt, if_pos hj, hold]
      exact ⟨rfl, by simp⟩

/-! ## Instances of the results on loading -/

theorem loadTasks_counter_witness :
    savedRecords.map (fun r => r.id) = [2, 7, 4] ∧
    ¬ blankTitle (titleOnly "Plan the week").title ∧
    ∃ s : TaskManager,
      loadTasks sampleEnv (.parsed (.array (savedRecords.map some))) emptyStore =
        (.returned (), .store s) ∧
      s.nextId = 8 ∧
      ∃ t : Task,
        (addTask sampleEnv (titleOnly "Plan the week") s).2.tasks = t :: s.tasks ∧
        t.id = 8 ∧ ∀ r ∈ savedRecords, r.id < t.id := by
  obtain ⟨s, h1, _, h3, h4, _, h6⟩ :=
    (loadTasks_counter sampleEnv savedRecords (titleOnly "Plan the week") (by decide)).2
  have hs : s.nextId = 8 := by
    obtain ⟨r, hr, hrid⟩ := h4 (by decide)
    have h7 : zeroEstimateRecord.id < s.nextId := h3 zeroEstimateRecord (by decide)
    have hcases : r.id = 2 ∨ r.id = 7 ∨ r.id = 4 := by
      simp only [savedRecords, List.mem_cons, List.mem_singleton, List.not_mem_nil,
        or_false] at hr
      rcases hr with h | h | h <;> rw [h] <;> decide
    have h8 : zeroEstimateRecord.id = 7 := rfl
    omega
  obtain ⟨t, h7, h8, h9, _⟩ := h6 (by decide)
  exact ⟨by decide, by decide, s, h1, hs, t, h7, h8.trans hs, h9⟩

/-- C21 as stated fails for the saved list whose only record has the identifier
`2^53 = 9007199254740992`: the counter after `loadTasks` is 9007199254740992, not
one plus the maximum, and the first `addTask` repeats the loaded identifier. -/
theorem loadTasks_counter_counterexample :
    loadTasks sampleEnv
        (.parsed (.array [some { toRaw plainTask with id := 9007199254740992 }])) emptyStore =
      (.returned (),
        .store { limitStore with tasks := [{ plainTask with id := 9007199254740992 }] }) ∧
    ({ limitStore with
        tasks := [{ plainTask with id := 9007199254740992 }] } : TaskManager).nextId =
      9007199254740992 ∧
    (addTask sampleEnv (titleOnly "Buy milk")
      { limitStore with tasks := [{ plainTask with id := 9007199254740992 }] }).2.tasks.map
        (fun t => t.id) = [9007199254740992, 9007199254740992] :=
  ⟨by decide, by decide, by decide⟩

theorem loadTasks_corrupt_payload_witness :
    NotRecords (.array [some legacyRecord, none]) ∧
    loadTasks sampleEnv (.parsed (.array [some legacyRecord, none])) emptyStore =
      (.returned (), .unmigrated (.array [some legacyRecord, none]) 1) :=
  ⟨by decide,
    (loadTasks_corrupt_payload sampleEnv (.array [some legacyRecord, none]) (by decide)).2.2.1⟩

theorem migrateTask_fields_witness :
    ∃ t : Task,
      migrateTask sampleEnv (some legacyRecord) = .returned t ∧ t.id = 4 ∧
      t.title = "Feed the cat" ∧ t.priority = "medium" ∧ t.completed = true ∧
      t.estimatedTime = none ∧ t.tags = .list [] ∧ t.createdAt = sampleEnv.now :=
  match migrateTask_fields sampleEnv legacyRecord with
  | ⟨t, h0, h1, ⟨h2, _, _⟩, _, ⟨_, h3⟩, _, ⟨h4, _⟩, ⟨_, h5⟩, _, _, ⟨_, h6⟩, ⟨_, _, h7⟩, _⟩ =>
    ⟨t, h0, h1, h2 "Feed the cat" rfl (by decide), h3 (Or.inl rfl), h4 true rfl, h6 (Or.inl rfl),
      h7 (Or.inl rfl), h5 rfl⟩

/-- C23 as stated fails: the saved record carries `estimatedTime: 0`, and the migrated
record carries `estimatedTime: null`. -/
theorem migrateTask_fields_counterexample :
    zeroEstimateRecord.estimatedTime = some (some 0) ∧
    ∃ t : Task,
      migrateTask sampleEnv (some zeroEstimateRecord) = .returned t ∧
      t.estimatedTime = none ∧
      ¬ ∀ v, zeroEstimateRecord.estimatedTime = some v → t.estimatedTime = v :=
  ⟨rfl, _, rfl, rfl, fun h => absurd (h (some 0) rfl) (by decide)⟩

theorem parseTags_join_roundtrip_witness :
    LowerCaseLaws sampleEnv.toLowerCase ∧
    parseTags sampleEnv " Work, URGENT ,, home " = ["work", "urgent", "home"] ∧
    jsJoin ", " (parseTags sampleEnv " Work, URGENT ,, home ") = "work, urgent, home" ∧
    parseTags sampleEnv (jsJoin ", " (parseTags sampleEnv " Work, URGENT ,, home ")) =
      parseTags sampleEnv " Work, URGENT ,, home " ∧
    (parseTags sampleEnv "" = [] ∧ jsJoin ", " (parseTags sampleEnv "") = "" ∧
      searchStore.tasks.map (fun t => (t.id, t.tags)) =
        [(1, .list ["grocery"]), (2, .list [])] ∧
      (updateTask sampleEnv 2 emptyTagsPatch searchStore).2.tasks.map
          (fun t => (t.id, t.tags)) =
        [(1, .list ["grocery"]), (2, .text "")]) ∧
    ∃ new : Task,
      (updateTask sampleEnv 2 emptyTagsPatch searchStore).2.tasks = [buyMilk] ++ new :: [] ∧
      new.tags = .text "" ∧ new.tags ≠ callMom.tags :=
  ⟨sampleEnv_lowerCaseLaws, by decide, by decide,
    (parseTags_join_roundtrip sampleEnv sampleEnv_lowerCaseLaws " Work, URGENT ,, home ").1,
    ⟨by decide, by decide, by decide, by decide⟩,
    match (parseTags_join_roundtrip sampleEnv sampleEnv_lowerCaseLaws "").2.2 searchStore 2
        emptyTagsPatch [buyMilk] [] callMom (by decide) (by decide) (by decide) (by decide)
        (by decide) with
    | ⟨new, h1, _, h3⟩ => ⟨new, h1, h3 (by decide)⟩⟩

end TodoList
